import Mathlib

/-!
The in-memory user and product repositories of go-grpc-rest-demo.

A shallow embedding of `internal/server/errors`, `internal/server/model` and
`internal/server/service`.

* A Go `map[string]*T` is an association list of `(key, value)` pairs.  The order of
  the list is the order in which a `range` loop visits the map; Go leaves that order
  unspecified, so statements are made for every list and the operation sequences
  below contain a `reorder` step that permutes the list.
* A method with a pointer receiver returns its result together with the service
  state after the call.  A write through the `*model.User` held by the map is a
  write to the map entry.
* `time.Now()` is an extra argument of the operations that read the clock.
* `int64` values are integers reduced to the two's-complement range on every
  arithmetic step.
-/

namespace GoGrpcRestDemo

/-! ## internal/server/errors -/

/-- Go `type ErrorCode string`. -/
abbrev ErrorCode := String

def ErrCodeInvalidRequest : ErrorCode := "INVALID_REQUEST"
def ErrCodeValidationFailed : ErrorCode := "VALIDATION_FAILED"
def ErrCodeNotFound : ErrorCode := "NOT_FOUND"
def ErrCodeAlreadyExists : ErrorCode := "ALREADY_EXISTS"
def ErrCodeUnauthorized : ErrorCode := "UNAUTHORIZED"
def ErrCodeForbidden : ErrorCode := "FORBIDDEN"
def ErrCodeInternal : ErrorCode := "INTERNAL_ERROR"
def ErrCodeServiceDown : ErrorCode := "SERVICE_DOWN"
def ErrCodeDatabaseError : ErrorCode := "DATABASE_ERROR"
def ErrCodeExternalAPI : ErrorCode := "EXTERNAL_API_ERROR"

/-- Go `errors.AppError`; `GRPCCode` is the numeric `codes.Code` (`codes.OK = 0`). -/
structure AppError where
  Code : ErrorCode
  Message : String
  Details : String
  Field : String
  HTTPStatus : Int
  GRPCCode : Nat
  deriving DecidableEq, Repr

def NewValidationError (field message : String) : AppError :=
  { Code := ErrCodeValidationFailed, Message := message, Details := "", Field := field,
    HTTPStatus := 0, GRPCCode := 0 }

def NewNotFoundError (resource id : String) : AppError :=
  { Code := ErrCodeNotFound, Message := resource ++ " not found", Details := "ID: " ++ id,
    Field := "", HTTPStatus := 0, GRPCCode := 0 }

def NewAlreadyExistsError (resource field value : String) : AppError :=
  { Code := ErrCodeAlreadyExists, Message := resource ++ " already exists",
    Details := field ++ ": " ++ value, Field := field, HTTPStatus := 0, GRPCCode := 0 }

deriving instance DecidableEq for Except

/-! ## internal/server/model -/

/-- Go `time.Time`, as an instant on an integer time line. -/
abbrev Time := Int

structure User where
  ID : String
  Username : String
  Email : String
  FullName : String
  IsActive : Bool
  CreatedAt : Time
  UpdatedAt : Time
  deriving DecidableEq, Repr

structure CreateUserRequest where
  Username : String
  Email : String
  FullName : String
  deriving DecidableEq, Repr

/-- Go `model.UpdateUserRequest`; a nil pointer field is `none`. -/
structure UpdateUserRequest where
  ID : String
  Username : Option String
  Email : Option String
  FullName : Option String
  IsActive : Option Bool
  deriving DecidableEq, Repr

/-- The values of a Go `float64` as far as comparisons see them: not-a-number, the two
infinities, and the finite values (both zeros are the rational `0`). -/
inductive Float64 where
  | NaN
  | NegInf
  | Finite (q : ℚ)
  | PosInf
  deriving DecidableEq

/-- Go `x < y` on `float64`: false as soon as one side is not a number. -/
def Float64.lt : Float64 → Float64 → Bool
  | .NaN, _ => false
  | _, .NaN => false
  | .NegInf, .NegInf => false
  | .NegInf, _ => true
  | .Finite _, .NegInf => false
  | .Finite a, .Finite b => decide (a < b)
  | .Finite _, .PosInf => true
  | .PosInf, _ => false

structure Product where
  ID : String
  Name : String
  Description : String
  Price : Float64
  Quantity : Int
  Category : String
  CreatedAt : Time
  UpdatedAt : Time
  deriving DecidableEq

structure CreateProductRequest where
  Name : String
  Description : String
  Price : Float64
  Quantity : Int
  Category : String
  deriving DecidableEq

/-! ## internal/server/service: shared pieces -/

/-- Two's-complement reduction of an integer to the `int64` range. -/
def wrapInt64 (x : Int) : Int := (x + 2 ^ 63) % 2 ^ 64 - 2 ^ 63

/-- Go `strconv.FormatInt(i, 10)`. -/
def FormatInt (i : Int) : String :=
  if i < 0 then "-" ++ Nat.repr i.natAbs else Nat.repr i.natAbs

/-- The body shared by both `generateID` methods:
`strconv.FormatInt(atomic.AddInt64(&s.nextID, 1)-1, 10)`.  Returns the identifier and
the new counter value. -/
def issueID (nextID : Int) : String × Int :=
  let added := wrapInt64 (nextID + 1)
  (FormatInt (wrapInt64 (added - 1)), added)

/-- Go `m[k]` with the comma-ok form: the value stored under `k`, if any. -/
def mapGet {β : Type} (m : List (String × β)) (k : String) : Option β :=
  (m.find? (fun e => decide (e.1 = k))).map Prod.snd

/-- Overwrite the value of the entry that `mapGet m k` finds; nothing happens when there
is none. -/
def mapStore {β : Type} (m : List (String × β)) (k : String) (v : β) : List (String × β) :=
  match m with
  | [] => []
  | e :: rest => if e.1 = k then (e.1, v) :: rest else e :: mapStore rest k v

/-- Go `m[k] = v`: overwrite the entry under `k`, or add one. -/
def mapSet {β : Type} (m : List (String × β)) (k : String) (v : β) : List (String × β) :=
  if (mapGet m k).isSome then mapStore m k v else m ++ [(k, v)]

/-- Go `delete(m, k)`. -/
def mapDelete {β : Type} (m : List (String × β)) (k : String) : List (String × β) :=
  m.filter (fun e => decide (e.1 ≠ k))

/-! ## internal/server/service/user_service.go -/

structure UserService where
  users : List (String × User)
  nextID : Int
  deriving DecidableEq

def NewUserService : UserService := { users := [], nextID := 1 }

def UserService.generateID (s : UserService) : String × UserService :=
  let r := issueID s.nextID
  (r.1, { s with nextID := r.2 })

/-- The uniqueness loop of `CreateUser` over the entries still to be visited. -/
def createUserScan (req : CreateUserRequest) : List (String × User) → Option AppError
  | [] => none
  | (_, user) :: rest =>
    if user.Username = req.Username then
      some (NewAlreadyExistsError "user" "username" req.Username)
    else if user.Email = req.Email then
      some (NewAlreadyExistsError "user" "email" req.Email)
    else createUserScan req rest

def UserService.CreateUser (s : UserService) (now : Time) (req : CreateUserRequest) :
    Except AppError User × UserService :=
  if req.Username = "" ∨ req.Email = "" ∨ req.FullName = "" then
    (.error (NewValidationError "fields" "username, email, and full_name are required"), s)
  else
    match createUserScan req s.users with
    | some err => (.error err, s)
    | none =>
      let g := s.generateID
      let user : User :=
        { ID := g.1, Username := req.Username, Email := req.Email, FullName := req.FullName,
          IsActive := true, CreatedAt := now, UpdatedAt := now }
      (.ok user, { g.2 with users := mapSet g.2.users user.ID user })

def UserService.GetUser (s : UserService) (id : String) : Except AppError User × UserService :=
  match mapGet s.users id with
  | none => (.error (NewNotFoundError "user" id), s)
  | some user => (.ok user, s)

/-- The loop of `checkUniqueField` over the entries still to be visited. -/
def checkUniqueScan (excludeID field value : String) : List (String × User) → Option AppError
  | [] => none
  | (id, u) :: rest =>
    if id = excludeID then checkUniqueScan excludeID field value rest
    else
      let existing := if field = "username" then u.Username else u.Email
      if existing = value then some (NewAlreadyExistsError "user" field value)
      else checkUniqueScan excludeID field value rest

/-- Go `checkUniqueField`; a nil error is `none`. -/
def UserService.checkUniqueField (s : UserService) (excludeID field value : String) :
    Option AppError :=
  checkUniqueScan excludeID field value s.users

/-- A write through the pointer `user := s.users[id]`: the struct the map entry under
`id` points to now holds `u`. -/
def UserService.store (s : UserService) (id : String) (u : User) : UserService :=
  { s with users := mapStore s.users id u }

def UserService.UpdateUser (s : UserService) (now : Time) (req : UpdateUserRequest) :
    Except AppError User × UserService :=
  match mapGet s.users req.ID with
  | none => (.error (NewNotFoundError "user" req.ID), s)
  | some user =>
    match req.Username.bind (fun v => s.checkUniqueField req.ID "username" v) with
    | some err => (.error err, s)
    | none =>
      let user1 := match req.Username with
        | some v => { user with Username := v }
        | none => user
      let s1 := s.store req.ID user1
      match req.Email.bind (fun v => s1.checkUniqueField req.ID "email" v) with
      | some err => (.error err, s1)
      | none =>
        let user2 := match req.Email with
          | some v => { user1 with Email := v }
          | none => user1
        let user3 := match req.FullName with
          | some v => { user2 with FullName := v }
          | none => user2
        let user4 := match req.IsActive with
          | some v => { user3 with IsActive := v }
          | none => user3
        let user5 := { user4 with UpdatedAt := now }
        (.ok user5, s1.store req.ID user5)

/-- Go `DeleteUser`; a nil error is `none`. -/
def UserService.DeleteUser (s : UserService) (id : String) : Option AppError × UserService :=
  match mapGet s.users id with
  | none => (some (NewNotFoundError "user" id), s)
  | some _ => (none, { s with users := mapDelete s.users id })

/-! ## internal/server/service/product_service.go -/

structure ProductService where
  products : List (String × Product)
  nextID : Int
  deriving DecidableEq

def NewProductService : ProductService := { products := [], nextID := 1 }

def ProductService.generateID (s : ProductService) : String × ProductService :=
  let r := issueID s.nextID
  (r.1, { s with nextID := r.2 })

def ProductService.CreateProduct (s : ProductService) (now : Time) (req : CreateProductRequest) :
    Except AppError Product × ProductService :=
  if req.Name = "" ∨ req.Description = "" ∨ req.Category = "" then
    (.error (NewValidationError "fields" "name, description, and category are required"), s)
  else if req.Price.lt (.Finite 0) = true ∨ req.Quantity < 0 then
    (.error (NewValidationError "value" "price and quantity cannot be negative"), s)
  else
    let g := s.generateID
    let product : Product :=
      { ID := g.1, Name := req.Name, Description := req.Description, Price := req.Price,
        Quantity := req.Quantity, Category := req.Category, CreatedAt := now, UpdatedAt := now }
    (.ok product, { g.2 with products := mapSet g.2.products product.ID product })

def ProductService.GetProduct (s : ProductService) (id : String) :
    Except AppError Product × ProductService :=
  match mapGet s.products id with
  | none => (.error (NewNotFoundError "product" id), s)
  | some product => (.ok product, s)

/-! ## Operation sequences -/

/-- One call on a user repository.  `reorder` is not a call: it stands for the map
handing out its entries in another order from now on. -/
inductive UserOp where
  | create (now : Time) (req : CreateUserRequest)
  | get (id : String)
  | update (now : Time) (req : UpdateUserRequest)
  | delete (id : String)
  | reorder (order : List (String × User))

/-- Run one call; the second component is the identifier returned when the call is a
successful `CreateUser`. -/
def stepUser (s : UserService) : UserOp → UserService × Option String
  | .create now req =>
    match s.CreateUser now req with
    | (.ok u, s') => (s', some u.ID)
    | (.error _, s') => (s', none)
  | .get id => ((s.GetUser id).2, none)
  | .update now req => ((s.UpdateUser now req).2, none)
  | .delete id => ((s.DeleteUser id).2, none)
  | .reorder order => (if order.Perm s.users then { s with users := order } else s, none)

/-- Run a sequence of calls; the second component lists the identifiers returned by the
successful creates, oldest first. -/
def runUserOps (s : UserService) : List UserOp → UserService × List String
  | [] => (s, [])
  | op :: ops =>
    let r := stepUser s op
    let t := runUserOps r.1 ops
    (t.1, r.2.toList ++ t.2)

/-- One call on a product repository (`reorder` as for users). -/
inductive ProductOp where
  | create (now : Time) (req : CreateProductRequest)
  | get (id : String)
  | reorder (order : List (String × Product))

def stepProduct (s : ProductService) : ProductOp → ProductService × Option String
  | .create now req =>
    match s.CreateProduct now req with
    | (.ok p, s') => (s', some p.ID)
    | (.error _, s') => (s', none)
  | .get id => ((s.GetProduct id).2, none)
  | .reorder order => (if order.Perm s.products then { s with products := order } else s, none)

def runProductOps (s : ProductService) : List ProductOp → ProductService × List String
  | [] => (s, [])
  | op :: ops =>
    let r := stepProduct s op
    let t := runProductOps r.1 ops
    (t.1, r.2.toList ++ t.2)

/-! ## Properties of repository states -/

/-- The keys of the map are pairwise distinct and every user is stored under its own
identifier. -/
def UserService.Keyed (s : UserService) : Prop :=
  (s.users.map Prod.fst).Nodup ∧ ∀ e ∈ s.users, e.2.ID = e.1

/-- No two live users with different identifiers share a username or an email. -/
def UserService.Unique (s : UserService) : Prop :=
  ∀ e₁ ∈ s.users, ∀ e₂ ∈ s.users, e₁.2.ID ≠ e₂.2.ID →
    e₁.2.Username ≠ e₂.2.Username ∧ e₁.2.Email ≠ e₂.2.Email

/-- The uniqueness constraint in terms of map keys: entries under different keys differ
in username and in email. -/
def UsersDistinct (l : List (String × User)) : Prop :=
  ∀ e₁ ∈ l, ∀ e₂ ∈ l, e₁.1 ≠ e₂.1 →
    e₁.2.Username ≠ e₂.2.Username ∧ e₁.2.Email ≠ e₂.2.Email

/-- The invariant of the user repository. -/
def UserService.Inv (s : UserService) : Prop :=
  s.Keyed ∧ UsersDistinct s.users

/-- The user record a successful `UpdateUser` leaves behind: every field the patch
carries is overwritten, `UpdatedAt` is the clock reading, the rest is kept. -/
def applyPatch (user : User) (now : Time) (req : UpdateUserRequest) : User :=
  { ID := user.ID, Username := req.Username.getD user.Username,
    Email := req.Email.getD user.Email, FullName := req.FullName.getD user.FullName,
    IsActive := req.IsActive.getD user.IsActive, CreatedAt := user.CreatedAt,
    UpdatedAt := now }

/-- The patch carries a username that a live user under another identifier has, or an
email that a live user under another identifier has. -/
def patchCollides (s : UserService) (req : UpdateUserRequest) : Prop :=
  (∃ v, req.Username = some v ∧ ∃ e ∈ s.users, e.1 ≠ req.ID ∧ e.2.Username = v) ∨
  (∃ v, req.Email = some v ∧ ∃ e ∈ s.users, e.1 ≠ req.ID ∧ e.2.Email = v)

/-- Read a list of decimal digit characters back as a number. -/
def parseDigits (l : List Char) : Nat :=
  l.foldl (fun acc c => acc * 10 + (c.toNat - 48)) 0

/-- The identifiers a counter standing at `c` hands out over its next `n` increments. -/
def issuedFrom (c : Int) (n : Nat) : List String :=
  (List.range n).map (fun (k : Nat) => FormatInt (wrapInt64 (c + (k : Int))))

/-- The value of an `int64` variable. -/
def InInt64 (c : Int) : Prop := -2 ^ 63 ≤ c ∧ c < 2 ^ 63

/-- A request used in the examples below. -/
def aliceReq : CreateUserRequest := { Username := "alice", Email := "alice@x", FullName := "Alice" }

/-- A request used in the examples below. -/
def bobReq : CreateUserRequest := { Username := "bob", Email := "bob@x", FullName := "Bob" }

/-- A request used in the examples below. -/
def widgetReq : CreateProductRequest :=
  { Name := "widget", Description := "a widget", Price := .Finite 10, Quantity := 3,
    Category := "tools" }

/-- The repository after `alice` and `bob` have been created, in this order. -/
def twoUsers : UserService :=
  ((NewUserService.CreateUser 0 aliceReq).2.CreateUser 1 bobReq).2

/-- A patch for user "1" that carries a free username and the email of user "2". -/
def carolPatch : UpdateUserRequest :=
  { ID := "1", Username := some "carol", Email := some "bob@x", FullName := none,
    IsActive := none }

/-- A patch for user "1" that carries its own username and email. -/
def selfPatch : UpdateUserRequest :=
  { ID := "1", Username := some "alice", Email := some "alice@x", FullName := none,
    IsActive := none }

/-- A patch for user "2" that carries a full name only. -/
def namePatch : UpdateUserRequest :=
  { ID := "2", Username := none, Email := none, FullName := some "Robert", IsActive := none }

/-- Create a user and delete it again, `n` times over, on a repository whose counter
stands at `c`. -/
def createDeleteCycles (c : Int) (n : Nat) : List UserOp :=
  (List.range n).flatMap
    (fun (k : Nat) =>
      [UserOp.create 0 aliceReq, UserOp.delete (FormatInt (wrapInt64 (c + (k : Int))))])

/-! ## internal/server/service/utils.go -/

/-- Two's-complement reduction of an integer to the `int32` range. -/
def wrapInt32 (x : Int) : Int := (x + 2 ^ 31) % 2 ^ 32 - 2 ^ 31

/-- The value of an `int32` variable. -/
def InInt32 (c : Int) : Prop := -2 ^ 31 ≤ c ∧ c < 2 ^ 31

instance (c : Int) : Decidable (InInt32 c) := by
  unfold InInt32
  infer_instance

/-- Go slice expression `items[lo:hi]`. The run-time check is `0 <= lo <= hi <= cap(items)`
and `none` stands for the panic "slice bounds out of range" when it fails. The capacity is
at least the length; `paginate` never asks for an upper bound above the length, so the
check is made against the length. -/
def sliceExpr {α : Type} (items : List α) (lo hi : Int) : Option (List α) :=
  if 0 ≤ lo ∧ lo ≤ hi ∧ hi ≤ (items.length : Int) then
    some ((items.take hi.toNat).drop lo.toNat)
  else none

/-- A page of results: the items, the total, the resolved page and the resolved page
size. -/
abbrev Paged (α : Type) := List α × Int × Int × Int

/-- Go `paginate`; `page` and `pageSize` are `int32` values and every `int32` operation
wraps. `none` is a run-time panic of the slice expression. -/
def paginate {α : Type} (items : List α) (page pageSize : Int) : Option (Paged α) :=
  let page := if page < 1 then 1 else page
  let pageSize := if pageSize < 1 then 10 else pageSize
  let total := wrapInt32 (items.length : Int)
  let start := wrapInt32 (wrapInt32 (page - 1) * pageSize)
  if start ≥ total then some ([], total, page, pageSize)
  else
    let stop := min (wrapInt32 (start + pageSize)) total
    (sliceExpr items start stop).map (fun paged => (paged, total, page, pageSize))

/-! ## The Go standard library -/

/-- The requirement `sort.Interface` puts on `Less`: a transitive ordering whose
complement is transitive as well. -/
structure LessOK {α : Type} (less : α → α → Bool) : Prop where
  irrefl : ∀ a, less a a = false
  trans : ∀ a b c, less a b = true → less b c = true → less a c = true
  negTrans : ∀ a b c, less a b = false → less b c = false → less a c = false

/-- What the calls into the Go standard library depend on and this repository does not
contain: the Unicode case tables behind `strings.ToLower` and `strings.EqualFold`, and the
algorithm behind `sort.Slice`, which permutes the slice into an order sorted by `less` and
promises nothing about the order of elements that compare equal. -/
structure GoLib where
  /-- Go `unicode.ToLower`. -/
  toLowerRune : Char → Char
  toLowerRune_ascii : ∀ c : Char, c.toNat < 128 → toLowerRune c = c.toLower
  /-- Two different runes are in the same orbit of Go `unicode.SimpleFold`. -/
  foldEq : Char → Char → Bool
  foldEq_ascii : ∀ a b : Char, a.toNat < 128 → b.toNat < 128 →
    foldEq a b = decide (a.toLower = b.toLower)
  /-- Go `sort.Slice`, as a function from the slice before to the slice after the call. -/
  sortSlice : {α : Type} → (α → α → Bool) → List α → List α
  sortSlice_perm : ∀ {α : Type} (less : α → α → Bool) (l : List α), (sortSlice less l).Perm l
  sortSlice_sorted : ∀ {α : Type} (less : α → α → Bool) (l : List α), LessOK less →
    (sortSlice less l).Pairwise (fun a b => less b a = false)

/-- Go `a < b` on strings: lexicographic order of the code points, which is the order of
the UTF-8 bytes. -/
def strLess (a b : String) : Bool := decide (a.data < b.data)

/-- Go `strings.ToLower`: every rune is mapped by `unicode.ToLower`. -/
def GoLib.ToLower (lib : GoLib) (s : String) : String := ⟨s.data.map lib.toLowerRune⟩

/-- Go `strings.Contains(s, substr)`. -/
def Contains (s substr : String) : Bool := decide (substr.data <:+: s.data)

/-- The rune-by-rune comparison of `strings.EqualFold`. -/
def foldRunes (lib : GoLib) : List Char → List Char → Bool
  | [], [] => true
  | a :: as, b :: bs => (a == b || lib.foldEq a b) && foldRunes lib as bs
  | _, _ => false

/-- Go `strings.EqualFold`. -/
def GoLib.EqualFold (lib : GoLib) (s t : String) : Bool := foldRunes lib s.data t.data

/-- A standard library to compute with: case tables that know the ASCII letters only, and
insertion sort. -/
def plainLib : GoLib where
  toLowerRune := Char.toLower
  toLowerRune_ascii := fun _ _ => rfl
  foldEq := fun a b => decide (a.toLower = b.toLower)
  foldEq_ascii := fun _ _ _ _ => rfl
  sortSlice := fun less l => l.insertionSort (fun a b => less b a = false)
  sortSlice_perm := fun less l => List.perm_insertionSort (fun a b => less b a = false) l
  sortSlice_sorted := fun less l h => by
    haveI : IsTotal _ (fun a b => less b a = false) := ⟨fun a b => by
      cases hab : less b a with
      | false => exact Or.inl rfl
      | true =>
        right
        cases hba : less a b with
        | false => rfl
        | true => exact absurd (h.trans b a b hab hba) (by simp [h.irrefl b])⟩
    haveI : IsTrans _ (fun a b => less b a = false) := ⟨fun a b c hab hbc =>
      h.negTrans c b a hbc hab⟩
    exact List.sorted_insertionSort (fun a b => less b a = false) l

/-! ## internal/server/service/user_service.go: listing -/

structure ListUsersRequest where
  Page : Int
  PageSize : Int
  SortBy : Option String
  Filter : Option String
  deriving DecidableEq, Repr

def matchesFilter (lib : GoLib) (user : User) (filter : String) : Bool :=
  Contains (lib.ToLower user.Username) filter ||
    Contains (lib.ToLower user.Email) filter ||
    Contains (lib.ToLower user.FullName) filter

/-- The lower-cased filter token of `filterUsers`; the empty string when the request
carries none. -/
def filterToken (lib : GoLib) (filter : Option String) : String :=
  match filter with
  | some f => lib.ToLower f
  | none => ""

def UserService.filterUsers (lib : GoLib) (s : UserService) (filter : Option String) :
    List User :=
  let filterLower := filterToken lib filter
  s.users.filterMap (fun e =>
    if filterLower ≠ "" ∧ matchesFilter lib e.2 filterLower = false then none else some e.2)

/-- The field `sortUsers` orders by. -/
def sortField (sortBy : Option String) : String :=
  match sortBy with
  | some f => if f ≠ "" then f else "id"
  | none => "id"

/-- The `less` closure of `sortUsers`. -/
def userLess (field : String) (a b : User) : Bool :=
  if field = "username" then strLess a.Username b.Username
  else if field = "email" then strLess a.Email b.Email
  else if field = "full_name" then strLess a.FullName b.FullName
  else if field = "created_at" then decide (a.CreatedAt < b.CreatedAt)
  else strLess a.ID b.ID

def sortUsers (lib : GoLib) (users : List User) (sortBy : Option String) : List User :=
  lib.sortSlice (userLess (sortField sortBy)) users

/-- Go `ListUsers`; the error it returns is always nil, and `none` is the panic of
`paginate`. -/
def UserService.ListUsers (lib : GoLib) (s : UserService) (req : ListUsersRequest) :
    Option (Paged User) × UserService :=
  let users := s.filterUsers lib req.Filter
  let sorted := sortUsers lib users req.SortBy
  (paginate sorted req.Page req.PageSize, s)

/-! ## internal/server/service/product_service.go: search -/

structure SearchProductsRequest where
  Query : Option String
  Category : Option String
  MinPrice : Option Float64
  MaxPrice : Option Float64
  Page : Int
  PageSize : Int
  deriving DecidableEq

def matchesSearchCriteria (lib : GoLib) (product : Product) (query : String)
    (req : SearchProductsRequest) : Bool :=
  if query ≠ "" ∧ Contains (lib.ToLower product.Name) query = false ∧
      Contains (lib.ToLower product.Description) query = false then false
  else if (req.Category.any (fun c => !lib.EqualFold product.Category c)) = true then false
  else if (req.MinPrice.any (fun m => product.Price.lt m)) = true then false
  else if (req.MaxPrice.any (fun m => m.lt product.Price)) = true then false
  else true

def ProductService.filterProducts (lib : GoLib) (s : ProductService)
    (req : SearchProductsRequest) : List Product :=
  let queryLower := filterToken lib req.Query
  s.products.filterMap (fun e =>
    if matchesSearchCriteria lib e.2 queryLower req = false then none else some e.2)

/-- Go `SearchProducts`; the error it returns is always nil, and `none` is the panic of
`paginate`. -/
def ProductService.SearchProducts (lib : GoLib) (s : ProductService)
    (req : SearchProductsRequest) : Option (Paged Product) × ProductService :=
  let products := s.filterProducts lib req
  let sorted := lib.sortSlice (fun a b => strLess a.Name b.Name) products
  (paginate sorted req.Page req.PageSize, s)

/-! ## The claims' own notions, and example repositories -/

/-- The user filter as the specification words it: a user matches iff the filter is absent,
or the lower-cased token is empty, or the lower-cased token is a substring of the
lower-cased username, of the lower-cased email, or of the lower-cased full name. -/
def userMatchesSpec (lib : GoLib) (filter : Option String) (u : User) : Bool :=
  match filter with
  | none => true
  | some f =>
    lib.ToLower f == "" ||
      decide ((lib.ToLower f).data <:+: (lib.ToLower u.Username).data) ||
      decide ((lib.ToLower f).data <:+: (lib.ToLower u.Email).data) ||
      decide ((lib.ToLower f).data <:+: (lib.ToLower u.FullName).data)

/-- All characters of the string are ASCII. -/
def IsAscii (s : String) : Prop := ∀ c ∈ s.data, c.toNat < 128

instance (s : String) : Decidable (IsAscii s) := by
  unfold IsAscii
  infer_instance

/-- All text fields of the user are ASCII. -/
def User.IsAscii (u : User) : Prop :=
  GoGrpcRestDemo.IsAscii u.Username ∧ GoGrpcRestDemo.IsAscii u.Email ∧
    GoGrpcRestDemo.IsAscii u.FullName

instance (u : User) : Decidable u.IsAscii := by
  unfold User.IsAscii
  infer_instance

/-- A repository with `n` live users, stored under the identifiers "1" to "n". -/
def manyUsers (n : Nat) : UserService :=
  { users := (List.range n).map (fun (k : Nat) =>
      (FormatInt ((k : Int) + 1),
        { ID := FormatInt ((k : Int) + 1), Username := FormatInt ((k : Int) + 1),
          Email := FormatInt ((k : Int) + 1), FullName := "User", IsActive := true,
          CreatedAt := 0, UpdatedAt := 0 })),
    nextID := wrapInt64 ((n : Int) + 1) }

/-- The repository of `TestListUsers`: five users created one after the other. -/
def fiveUsers : UserService :=
  (runUserOps NewUserService
    [.create 0 ⟨"listuser0", "list0@example.com", "List User 0"⟩,
     .create 1 ⟨"listuser1", "list1@example.com", "List User 1"⟩,
     .create 2 ⟨"listuser2", "list2@example.com", "List User 2"⟩,
     .create 3 ⟨"listuser3", "list3@example.com", "List User 3"⟩,
     .create 4 ⟨"listuser4", "list4@example.com", "List User 4"⟩]).1

/-- The repository of `TestListUsersWithFilter`: alice, bob and charlie. -/
def seededUsers : UserService :=
  (runUserOps NewUserService
    [.create 0 ⟨"alice", "alice@example.com", "Alice Smith"⟩,
     .create 1 ⟨"bob", "bob@example.com", "Bob Jones"⟩,
     .create 2 ⟨"charlie", "charlie@example.com", "Charlie Brown"⟩]).1

/-- The user alice of `seededUsers`. -/
def seededAlice : User :=
  { ID := "1", Username := "alice", Email := "alice@example.com", FullName := "Alice Smith",
    IsActive := true, CreatedAt := 0, UpdatedAt := 0 }

/-- Go `x <= y` on `float64`: false as soon as one side is not a number. -/
def Float64.le : Float64 → Float64 → Bool
  | .NaN, _ => false
  | _, .NaN => false
  | .NegInf, _ => true
  | .Finite _, .NegInf => false
  | .Finite a, .Finite b => decide (a ≤ b)
  | .Finite _, .PosInf => true
  | .PosInf, .PosInf => true
  | .PosInf, _ => false

/-- The query part of the search predicate: a query that is present and non-empty must be
a case-insensitive substring of the name or of the description. -/
def queryPasses (lib : GoLib) (query : Option String) (p : Product) : Bool :=
  match query with
  | none => true
  | some q =>
    q == "" ||
      decide ((lib.ToLower q).data <:+: (lib.ToLower p.Name).data) ||
      decide ((lib.ToLower q).data <:+: (lib.ToLower p.Description).data)

/-- The category part of the search predicate. -/
def categoryPasses (lib : GoLib) (category : Option String) (p : Product) : Bool :=
  match category with
  | none => true
  | some c => lib.EqualFold p.Category c

/-- The product search as the specification words it: every supplied predicate must pass,
with `price >= min_price` and `price <= max_price` for the price bounds. -/
def productMatchesSpec (lib : GoLib) (req : SearchProductsRequest) (p : Product) : Bool :=
  queryPasses lib req.Query p && categoryPasses lib req.Category p &&
    (match req.MinPrice with | none => true | some m => Float64.le m p.Price) &&
    (match req.MaxPrice with | none => true | some m => Float64.le p.Price m)

/-- The product search as the code decides it: the same conjunction, with the price bounds
in the negative form of the source, "not `price < min_price`" and "not
`price > max_price`". -/
def productPasses (lib : GoLib) (req : SearchProductsRequest) (p : Product) : Bool :=
  queryPasses lib req.Query p && categoryPasses lib req.Category p &&
    (match req.MinPrice with | none => true | some m => !(p.Price.lt m)) &&
    (match req.MaxPrice with | none => true | some m => !(m.lt p.Price))

/-- The order `sortUsers` is meant to produce for a given `sort_by`. -/
def userSortedBy (sortBy : Option String) (a b : User) : Prop :=
  if sortBy = some "username" then a.Username ≤ b.Username
  else if sortBy = some "email" then a.Email ≤ b.Email
  else if sortBy = some "full_name" then a.FullName ≤ b.FullName
  else if sortBy = some "created_at" then a.CreatedAt ≤ b.CreatedAt
  else a.ID ≤ b.ID

/-- A request whose price is not a number. -/
def nanReq : CreateProductRequest :=
  { Name := "odd", Description := "no price", Price := .NaN, Quantity := 1,
    Category := "misc" }

/-- The product `CreateProduct` makes of `nanReq` on the empty repository at time 0. -/
def nanProduct : Product :=
  { ID := "1", Name := "odd", Description := "no price", Price := .NaN, Quantity := 1,
    Category := "misc", CreatedAt := 0, UpdatedAt := 0 }

/-- The user stored under "2" in `twoAndTen`. -/
def userTwo : User :=
  { ID := "2", Username := "u2", Email := "u2@x", FullName := "U", IsActive := true,
    CreatedAt := 0, UpdatedAt := 0 }

/-- The user stored under "10" in `twoAndTen`. -/
def userTen : User :=
  { ID := "10", Username := "u10", Email := "u10@x", FullName := "U", IsActive := true,
    CreatedAt := 0, UpdatedAt := 0 }

/-- A repository in which the users with identifiers "2" and "10" are live. -/
def twoAndTen : UserService :=
  { users := [("2", userTwo), ("10", userTen)], nextID := 11 }

/-- Ten creates, then the deletion of every user but "2" and "10". -/
def tenOps : List UserOp :=
  [.create 0 ⟨"u1", "u1@x", "U"⟩, .create 0 ⟨"u2", "u2@x", "U"⟩, .create 0 ⟨"u3", "u3@x", "U"⟩,
   .create 0 ⟨"u4", "u4@x", "U"⟩, .create 0 ⟨"u5", "u5@x", "U"⟩, .create 0 ⟨"u6", "u6@x", "U"⟩,
   .create 0 ⟨"u7", "u7@x", "U"⟩, .create 0 ⟨"u8", "u8@x", "U"⟩, .create 0 ⟨"u9", "u9@x", "U"⟩,
   .create 0 ⟨"u10", "u10@x", "U"⟩,
   .delete "1", .delete "3", .delete "4", .delete "5", .delete "6", .delete "7", .delete "8",
   .delete "9"]

/-! ## internal/server/errors: status mapping -/

/-- The `net/http` status constants `ToHTTPStatus` returns. -/
def StatusBadRequest : Int := 400
def StatusUnauthorized : Int := 401
def StatusForbidden : Int := 403
def StatusNotFound : Int := 404
def StatusConflict : Int := 409
def StatusInternalServerError : Int := 500
def StatusServiceUnavailable : Int := 503

/-- The `google.golang.org/grpc/codes` constants `ToGRPCStatus` uses, by their number. -/
def codes.OK : Nat := 0
def codes.InvalidArgument : Nat := 3
def codes.NotFound : Nat := 5
def codes.AlreadyExists : Nat := 6
def codes.PermissionDenied : Nat := 7
def codes.Internal : Nat := 13
def codes.Unavailable : Nat := 14
def codes.Unauthenticated : Nat := 16

def NewInvalidRequestError (message : String) : AppError :=
  { Code := ErrCodeInvalidRequest, Message := message, Details := "", Field := "",
    HTTPStatus := 0, GRPCCode := 0 }

def NewInternalError (message : String) : AppError :=
  { Code := ErrCodeInternal, Message := message, Details := "", Field := "",
    HTTPStatus := 0, GRPCCode := 0 }

def AppError.ToHTTPStatus (e : AppError) : Int :=
  if e.HTTPStatus ≠ 0 then e.HTTPStatus
  else if e.Code = ErrCodeInvalidRequest ∨ e.Code = ErrCodeValidationFailed then
    StatusBadRequest
  else if e.Code = ErrCodeNotFound then StatusNotFound
  else if e.Code = ErrCodeAlreadyExists then StatusConflict
  else if e.Code = ErrCodeUnauthorized then StatusUnauthorized
  else if e.Code = ErrCodeForbidden then StatusForbidden
  else if e.Code = ErrCodeInternal ∨ e.Code = ErrCodeDatabaseError then
    StatusInternalServerError
  else if e.Code = ErrCodeServiceDown ∨ e.Code = ErrCodeExternalAPI then
    StatusServiceUnavailable
  else StatusInternalServerError

/-- Go `status.Status`, as built by `status.New(code, message)`. -/
structure GRPCStatus where
  Code : Nat
  Message : String
  deriving DecidableEq, Repr

def AppError.ToGRPCStatus (e : AppError) : GRPCStatus :=
  if e.GRPCCode ≠ codes.OK then ⟨e.GRPCCode, e.Message⟩
  else
    let grpcCode :=
      if e.Code = ErrCodeInvalidRequest ∨ e.Code = ErrCodeValidationFailed then
        codes.InvalidArgument
      else if e.Code = ErrCodeNotFound then codes.NotFound
      else if e.Code = ErrCodeAlreadyExists then codes.AlreadyExists
      else if e.Code = ErrCodeUnauthorized then codes.Unauthenticated
      else if e.Code = ErrCodeForbidden then codes.PermissionDenied
      else if e.Code = ErrCodeInternal ∨ e.Code = ErrCodeDatabaseError then codes.Internal
      else if e.Code = ErrCodeServiceDown ∨ e.Code = ErrCodeExternalAPI then codes.Unavailable
      else codes.Internal
    ⟨grpcCode, e.Message⟩

/-- A non-nil value of the Go interface `error`: a `*AppError`, or a value of another
dynamic type, of which `AsAppError` uses the text of `Error()` only. -/
inductive GoError where
  | app (e : AppError)
  | other (text : String)
  deriving DecidableEq

def IsAppError : GoError → Bool
  | .app _ => true
  | .other _ => false

def AsAppError : GoError → AppError
  | .app appErr => appErr
  | .other text =>
    { Code := ErrCodeInternal, Message := "Internal server error", Details := text,
      Field := "", HTTPStatus := 0, GRPCCode := 0 }

/-- Go `handleGRPCError` of the gRPC servers; a nil error is `none`. -/
def handleGRPCError (err : Option GoError) : Option GRPCStatus :=
  err.map (fun e => (AsAppError e).ToGRPCStatus)

/-- The status code `handleUserError` and `handleProductError` of the REST handlers answer
with. -/
def handleErrorStatus (err : GoError) : Int := (AsAppError err).ToHTTPStatus

/-! ## Clock readings -/

/-- The clock value a call on the user repository reads, if it reads the clock:
`CreateUser` reads it after the scan has passed, `UpdateUser` as its last statement. -/
def clockRead (s : UserService) : UserOp → Option Time
  | .create now req =>
    match (s.CreateUser now req).1 with
    | .ok _ => some now
    | .error _ => none
  | .update now req =>
    match (s.UpdateUser now req).1 with
    | .ok _ => some now
    | .error _ => none
  | _ => none

/-- The clock values a sequence of calls reads, oldest first. -/
def runClockReads (s : UserService) : List UserOp → List Time
  | [] => []
  | op :: ops => (clockRead s op).toList ++ runClockReads (stepUser s op).1 ops

/-! ## A repository that outlives the counter -/

/-- The user `CreateUser` makes of `aliceReq` at time 0 when the counter stands at 1. -/
def aliceOne : User :=
  { ID := "1", Username := "alice", Email := "alice@x", FullName := "Alice", IsActive := true,
    CreatedAt := 0, UpdatedAt := 0 }

/-- Create a user for `bobReq` and delete it again, `n` times over, on a repository whose
counter stands at `c`. -/
def bobCycles (c : Int) (n : Nat) : List UserOp :=
  (List.range n).flatMap
    (fun (k : Nat) =>
      [UserOp.create 0 bobReq, UserOp.delete (FormatInt (wrapInt64 (c + (k : Int))))])

/-! ## Concurrent calls of `CreateUser`

`CreateUser` validates the request, takes the write lock `s.mu`, runs the uniqueness loop,
and, when the loop finds no collision, reads the clock, issues the identifier and writes the
map entry; the deferred `Unlock` runs when the call returns. `N` calls in flight are `N`
program counters over one repository and one lock. A step of a call is one of these
actions; a call that asks for the lock while another call holds it does not move. -/

/-- Where a call of `CreateUser` stands: `start`, before the validation of the request;
`ready`, the request is valid and the next action is `s.mu.Lock()`; `holding`, the call
holds the lock and the next action is the uniqueness loop; `scanned`, the call holds the
lock and the loop has found no collision; `returning r`, the result `r` is fixed, the call
still holds the lock and the next action is the deferred `s.mu.Unlock()`; `done r`, the
call has returned `r`. -/
inductive Pc where
  | start
  | ready
  | holding
  | scanned
  | returning (r : Except AppError User)
  | done (r : Except AppError User)
  deriving DecidableEq

/-- `N` calls of `CreateUser` in flight on one repository: the repository, the call that
holds `s.mu` (if any) and where each call stands. -/
structure Calls (N : Nat) where
  svc : UserService
  lock : Option (Fin N)
  pc : Fin N → Pc

/-- No call has started yet. -/
def Calls.init {N : Nat} (s : UserService) : Calls N :=
  { svc := s, lock := none, pc := fun _ => .start }

/-- The next action of call `i`, which carries the request `reqs i`; `now` is the value of
the clock, read by the action that builds the user. -/
def stepCall {N : Nat} (reqs : Fin N → CreateUserRequest) (c : Calls N) (i : Fin N)
    (now : Time) : Calls N :=
  match c.pc i with
  | .start =>
    if (reqs i).Username = "" ∨ (reqs i).Email = "" ∨ (reqs i).FullName = "" then
      { c with pc := Function.update c.pc i (.done (.error
          (NewValidationError "fields" "username, email, and full_name are required"))) }
    else { c with pc := Function.update c.pc i .ready }
  | .ready =>
    match c.lock with
    | none => { c with lock := some i, pc := Function.update c.pc i .holding }
    | some _ => c
  | .holding =>
    match createUserScan (reqs i) c.svc.users with
    | some err => { c with pc := Function.update c.pc i (.returning (.error err)) }
    | none => { c with pc := Function.update c.pc i .scanned }
  | .scanned =>
    let g := c.svc.generateID
    let user : User :=
      { ID := g.1, Username := (reqs i).Username, Email := (reqs i).Email,
        FullName := (reqs i).FullName, IsActive := true, CreatedAt := now, UpdatedAt := now }
    { c with
      svc := { g.2 with users := mapSet g.2.users user.ID user },
      pc := Function.update c.pc i (.returning (.ok user)) }
  | .returning r => { c with lock := none, pc := Function.update c.pc i (.done r) }
  | .done _ => c

/-- What the scheduler can do next: let a call take its next action, or (`reorder`) have
the map hand out its entries in another order from now on. -/
inductive Event (N : Nat) where
  | step (i : Fin N) (now : Time)
  | reorder (order : List (String × User))

def stepEvent {N : Nat} (reqs : Fin N → CreateUserRequest) (c : Calls N) :
    Event N → Calls N
  | .step i now => stepCall reqs c i now
  | .reorder order =>
    if order.Perm c.svc.users then { c with svc := { c.svc with users := order } } else c

/-- Run a schedule. -/
def runCalls {N : Nat} (reqs : Fin N → CreateUserRequest) (c : Calls N) :
    List (Event N) → Calls N
  | [] => c
  | ev :: evs => runCalls reqs (stepEvent reqs c ev) evs

/-- Five actions of call `i` in a row: enough for it to return when no other call holds
the lock. -/
def finish {N : Nat} (i : Fin N) (now : Time) : List (Event N) :=
  List.replicate 5 (.step i now)

/-- The call holds the lock. -/
def Pc.critical : Pc → Bool
  | .holding => true
  | .scanned => true
  | .returning _ => true
  | _ => false

/-- The call has written its user to the map. -/
def Pc.inserted : Pc → Bool
  | .returning (.ok _) => true
  | .done (.ok _) => true
  | _ => false

/-- The call has passed the uniqueness loop. -/
def Pc.winner : Pc → Bool
  | .scanned => true
  | pc => pc.inserted

/-- The error the call fails with, once that is fixed. -/
def Pc.failure : Pc → Option AppError
  | .returning (.error err) => some err
  | .done (.error err) => some err
  | _ => none

/-- The invariant of `N` concurrent calls whose requests share the username `name`, started
on the repository with the entries `s`: the lock is held by exactly the calls between
`Lock` and `Unlock`; at most one call has passed the uniqueness loop; as long as no call has
written, the map holds the entries it started with; once a call has written, a user named
`name` is live; a call fails with AlreadyExists only, and only after another call has
written. -/
structure CallsInv {N : Nat} (name : String) (s : UserService) (c : Calls N) : Prop where
  lock_critical : ∀ i, c.lock = some i → (c.pc i).critical = true
  critical_lock : ∀ i, (c.pc i).critical = true → c.lock = some i
  winner_unique : ∀ i j, (c.pc i).winner = true → (c.pc j).winner = true → i = j
  untouched : (∀ i, (c.pc i).inserted = false) → c.svc.users.Perm s.users
  taken : ∀ i, (c.pc i).inserted = true → ∃ e ∈ c.svc.users, e.2.Username = name
  failure_code : ∀ i err, (c.pc i).failure = some err →
    err.Code = ErrCodeAlreadyExists ∧ ∃ j, (c.pc j).inserted = true

/-- Two requests for the username "alice", with different emails. -/
def aliceTwice : Fin 2 → CreateUserRequest :=
  fun i => if i = 0 then ⟨"alice", "a1@x", "A"⟩ else ⟨"alice", "a2@x", "B"⟩

/-- A schedule of the two calls: both validate, call 0 takes the lock, call 1 asks for it
in vain while call 0 scans, writes and unlocks, then call 1 gets the lock, scans and
returns. -/
def raceSchedule : List (Event 2) :=
  [.step 0 0, .step 1 1, .step 0 2, .step 1 3, .step 0 4, .step 1 5, .step 0 6, .step 0 7,
   .step 1 8, .step 1 9, .step 1 10]

/-- A request used in the examples below. -/
def gadgetReq : CreateProductRequest :=
  { Name := "gadget", Description := "a gadget", Price := .Finite 5, Quantity := 1,
    Category := "tools" }

/-- The repository after the widget and the gadget have been created, in this order. -/
def widgetAndGadget : ProductService :=
  (runProductOps NewProductService [.create 0 widgetReq, .create 1 gadgetReq]).1

end GoGrpcRestDemo

namespace GoGrpcRestDemo

/-! ## Facts about the map operations -/

theorem mapGet_eq_none_iff {β : Type} (m : List (String × β)) (k : String) :
    mapGet m k = none ↔ ∀ e ∈ m, e.1 ≠ k := by
  simp [mapGet, List.find?_eq_none]

theorem mem_of_mapGet {β : Type} {m : List (String × β)} {k : String} {v : β}
    (h : mapGet m k = some v) : (k, v) ∈ m := by
  unfold mapGet at h
  rw [Option.map_eq_some'] at h
  obtain ⟨e, he, rfl⟩ := h
  have h1 := List.mem_of_find?_eq_some he
  have h2 := List.find?_some he
  simp only [decide_eq_true_eq] at h2
  subst h2
  exact h1

theorem mapGet_of_mem {β : Type} {m : List (String × β)} {k : String} {v : β}
    (hn : (m.map Prod.fst).Nodup) (h : (k, v) ∈ m) : mapGet m k = some v := by
  induction m with
  | nil => simp at h
  | cons e m ih =>
    simp only [List.map_cons, List.nodup_cons, List.mem_map, not_exists, not_and] at hn
    rcases List.mem_cons.1 h with h | h
    · subst h
      simp [mapGet]
    · have hk : e.1 ≠ k := fun hek => hn.1 (k, v) h hek.symm
      have := ih hn.2 h
      simp only [mapGet] at this ⊢
      rw [List.find?_cons_of_neg _ (by simpa using hk)]
      exact this

theorem mapGet_isSome_iff {β : Type} (m : List (String × β)) (k : String) :
    (mapGet m k).isSome = true ↔ ∃ e ∈ m, e.1 = k := by
  rw [← Option.ne_none_iff_isSome, Ne, mapGet_eq_none_iff]
  push_neg
  rfl

theorem mapStore_keys {β : Type} (m : List (String × β)) (k : String) (v : β) :
    (mapStore m k v).map Prod.fst = m.map Prod.fst := by
  induction m with
  | nil => rfl
  | cons e m ih =>
    simp only [mapStore]
    split
    · rfl
    · simp [ih]

theorem mem_mapStore {β : Type} {m : List (String × β)} {k : String} {v : β} {e : String × β}
    (h : e ∈ mapStore m k v) : e ∈ m ∨ e = (k, v) := by
  induction m with
  | nil => simp [mapStore] at h
  | cons a m ih =>
    simp only [mapStore] at h
    split at h
    · next hk =>
      rcases List.mem_cons.1 h with h | h
      · right; rw [h, hk]
      · left; exact List.mem_cons_of_mem _ h
    · rcases List.mem_cons.1 h with h | h
      · left; rw [h]; exact List.mem_cons_self _ _
      · rcases ih h with h | h
        · left; exact List.mem_cons_of_mem _ h
        · right; exact h

theorem mapStore_self {β : Type} {m : List (String × β)} {k : String} {v : β}
    (h : mapGet m k = some v) : mapStore m k v = m := by
  induction m with
  | nil => rfl
  | cons e m ih =>
    simp only [mapStore]
    by_cases hk : e.1 = k
    · rw [if_pos hk]
      have : e.2 = v := by simpa [mapGet, List.find?_cons, hk] using h
      rw [← this]
    · rw [if_neg hk]
      have : mapGet m k = some v := by simpa [mapGet, List.find?_cons, hk] using h
      rw [ih this]

theorem mapGet_mapStore_same {β : Type} (m : List (String × β)) (k : String) (v : β)
    (h : (mapGet m k).isSome = true) : mapGet (mapStore m k v) k = some v := by
  induction m with
  | nil => simp [mapGet] at h
  | cons e m ih =>
    simp only [mapStore]
    by_cases hk : e.1 = k
    · simp [mapGet, hk]
    · have h2 : (mapGet m k).isSome = true := by
        simpa [mapGet, List.find?_cons, hk] using h
      have := ih h2
      rw [if_neg hk]
      simp only [mapGet] at this ⊢
      rw [List.find?_cons_of_neg _ (by simpa using hk)]
      exact this

theorem mapGet_mapStore_other {β : Type} (m : List (String × β)) (k k' : String) (v : β)
    (hne : k' ≠ k) : mapGet (mapStore m k v) k' = mapGet m k' := by
  induction m with
  | nil => rfl
  | cons e m ih =>
    simp only [mapStore]
    by_cases hk : e.1 = k
    · rw [if_pos hk]
      have h1 : ¬ e.1 = k' := fun h => hne (h.symm.trans hk)
      simp [mapGet, List.find?_cons, h1]
    · rw [if_neg hk]
      by_cases hk' : e.1 = k'
      · simp [mapGet, List.find?_cons, hk']
      · simp only [mapGet] at ih ⊢
        rw [List.find?_cons_of_neg _ (by simpa using hk'),
          List.find?_cons_of_neg _ (by simpa using hk')]
        exact ih

theorem mapGet_mapStore_isSome {β : Type} (m : List (String × β)) (k k' : String) (v : β) :
    (mapGet (mapStore m k v) k').isSome = (mapGet m k').isSome := by
  have h1 := mapGet_isSome_iff (mapStore m k v) k'
  have h2 := mapGet_isSome_iff m k'
  have hk := mapStore_keys m k v
  have : (∃ e ∈ mapStore m k v, e.1 = k') ↔ ∃ e ∈ m, e.1 = k' := by
    have a : ∀ l : List (String × β), (∃ e ∈ l, e.1 = k') ↔ k' ∈ l.map Prod.fst := by
      intro l
      simp only [List.mem_map]
    rw [a, a, hk]
  rw [Bool.eq_iff_iff, h1, h2, this]

theorem mapGet_mapSet_same {β : Type} (m : List (String × β)) (k : String) (v : β) :
    mapGet (mapSet m k v) k = some v := by
  unfold mapSet
  split
  · next h => exact mapGet_mapStore_same m k v h
  · next h =>
    have hn : mapGet m k = none := by simpa using h
    have hf := hn
    simp only [mapGet, Option.map_eq_none'] at hf
    simp [mapGet, List.find?_append, hf]

theorem mapGet_mapDelete_same {β : Type} (m : List (String × β)) (k : String) :
    mapGet (mapDelete m k) k = none := by
  rw [mapGet_eq_none_iff]
  intro e he
  simpa [mapDelete] using (List.mem_filter.1 he).2

end GoGrpcRestDemo

namespace GoGrpcRestDemo

/-! ## The uniqueness scans -/

theorem createUserScan_eq_none_iff (req : CreateUserRequest) (l : List (String × User)) :
    createUserScan req l = none ↔
      ∀ e ∈ l, e.2.Username ≠ req.Username ∧ e.2.Email ≠ req.Email := by
  induction l with
  | nil => simp [createUserScan]
  | cons e l ih =>
    obtain ⟨k, u⟩ := e
    simp only [createUserScan, List.mem_cons, forall_eq_or_imp]
    split
    · next h => simp [h]
    · next h =>
      split
      · next h2 => simp [h2]
      · next h2 => simp [h, h2, ih]

theorem createUserScan_code {req : CreateUserRequest} {l : List (String × User)} {err : AppError}
    (h : createUserScan req l = some err) : err.Code = ErrCodeAlreadyExists := by
  induction l with
  | nil => simp [createUserScan] at h
  | cons e l ih =>
    obtain ⟨k, u⟩ := e
    simp only [createUserScan] at h
    split at h
    · cases h; rfl
    · split at h
      · cases h; rfl
      · exact ih h

theorem checkUniqueScan_eq_none_iff (x field v : String) (l : List (String × User)) :
    checkUniqueScan x field v l = none ↔
      ∀ e ∈ l, e.1 ≠ x → (if field = "username" then e.2.Username else e.2.Email) ≠ v := by
  induction l with
  | nil => simp [checkUniqueScan]
  | cons e l ih =>
    obtain ⟨k, u⟩ := e
    simp only [checkUniqueScan, List.mem_cons, forall_eq_or_imp]
    by_cases hk : k = x
    · simp [hk, ih]
    · by_cases hv : (if field = "username" then u.Username else u.Email) = v
      · simp [hk, hv]
      · simp [hk, hv, ih]

theorem checkUniqueScan_code {x field v : String} {l : List (String × User)} {err : AppError}
    (h : checkUniqueScan x field v l = some err) : err.Code = ErrCodeAlreadyExists := by
  induction l with
  | nil => simp [checkUniqueScan] at h
  | cons e l ih =>
    obtain ⟨k, u⟩ := e
    simp only [checkUniqueScan] at h
    by_cases hk : k = x
    · rw [if_pos hk] at h
      exact ih h
    · rw [if_neg hk] at h
      by_cases hv : (if field = "username" then u.Username else u.Email) = v
      · rw [if_pos hv] at h
        cases h; rfl
      · rw [if_neg hv] at h
        exact ih h

/-- The scan of `checkUniqueField` does not look at the entry it excludes. -/
theorem checkUniqueScan_mapStore (x field v : String) (u : User) (l : List (String × User)) :
    checkUniqueScan x field v (mapStore l x u) = checkUniqueScan x field v l := by
  induction l with
  | nil => rfl
  | cons e l ih =>
    obtain ⟨k, w⟩ := e
    simp only [mapStore]
    by_cases hk : k = x
    · rw [if_pos hk]
      simp only [checkUniqueScan, if_pos hk]
    · rw [if_neg hk]
      simp only [checkUniqueScan, if_neg hk, ih]

/-! ## Preservation of the invariant -/

theorem inv_unique {s : UserService} (h : s.Inv) : s.Unique := by
  intro e₁ h₁ e₂ h₂ hne
  apply h.2 e₁ h₁ e₂ h₂
  rw [← h.1.2 e₁ h₁, ← h.1.2 e₂ h₂]
  exact hne

theorem inv_overwrite {l : List (String × User)} {i : String} {u : User}
    (hk : (l.map Prod.fst).Nodup) (hid : ∀ e ∈ l, e.2.ID = e.1) (hd : UsersDistinct l)
    (hu : u.ID = i)
    (hnew : ∀ e ∈ l, e.1 ≠ i → e.2.Username ≠ u.Username ∧ e.2.Email ≠ u.Email) :
    ((mapStore l i u).map Prod.fst).Nodup ∧
    (∀ e ∈ mapStore l i u, e.2.ID = e.1) ∧ UsersDistinct (mapStore l i u) := by
  refine ⟨(mapStore_keys l i u).symm ▸ hk, ?_, ?_⟩
  · intro e he
    rcases mem_mapStore he with h | h
    · exact hid e h
    · rw [h]; exact hu
  · intro e₁ h₁ e₂ h₂ hne
    rcases mem_mapStore h₁ with h₁ | h₁ <;> rcases mem_mapStore h₂ with h₂ | h₂
    · exact hd e₁ h₁ e₂ h₂ hne
    · subst h₂
      exact hnew e₁ h₁ hne
    · subst h₁
      have := hnew e₂ h₂ (fun h => hne h.symm)
      exact ⟨fun h => this.1 h.symm, fun h => this.2 h.symm⟩
    · subst h₁ h₂
      exact absurd rfl hne

theorem inv_append {l : List (String × User)} {i : String} {u : User}
    (hk : (l.map Prod.fst).Nodup) (hid : ∀ e ∈ l, e.2.ID = e.1) (hd : UsersDistinct l)
    (hu : u.ID = i) (hfresh : ∀ e ∈ l, e.1 ≠ i)
    (hnew : ∀ e ∈ l, e.2.Username ≠ u.Username ∧ e.2.Email ≠ u.Email) :
    ((l ++ [(i, u)]).map Prod.fst).Nodup ∧
    (∀ e ∈ l ++ [(i, u)], e.2.ID = e.1) ∧ UsersDistinct (l ++ [(i, u)]) := by
  refine ⟨?_, ?_, ?_⟩
  · rw [List.map_append, List.nodup_append]
    refine ⟨hk, by simp, ?_⟩
    intro a ha hb
    simp only [List.map_cons, List.map_nil, List.mem_singleton] at hb
    obtain ⟨e, he, rfl⟩ := List.mem_map.1 ha
    exact hfresh e he hb
  · intro e he
    rcases List.mem_append.1 he with h | h
    · exact hid e h
    · simp only [List.mem_singleton] at h
      subst h
      exact hu
  · intro e₁ h₁ e₂ h₂ hne
    rcases List.mem_append.1 h₁ with h₁ | h₁ <;> rcases List.mem_append.1 h₂ with h₂ | h₂
    · exact hd e₁ h₁ e₂ h₂ hne
    · simp only [List.mem_singleton] at h₂
      subst h₂
      exact hnew e₁ h₁
    · simp only [List.mem_singleton] at h₁
      subst h₁
      have := hnew e₂ h₂
      exact ⟨fun h => this.1 h.symm, fun h => this.2 h.symm⟩
    · simp only [List.mem_singleton] at h₁ h₂
      subst h₁ h₂
      exact absurd rfl hne

theorem inv_mapSet {l : List (String × User)} {i : String} {u : User}
    (hk : (l.map Prod.fst).Nodup) (hid : ∀ e ∈ l, e.2.ID = e.1) (hd : UsersDistinct l)
    (hu : u.ID = i)
    (hnew : ∀ e ∈ l, e.2.Username ≠ u.Username ∧ e.2.Email ≠ u.Email) :
    ((mapSet l i u).map Prod.fst).Nodup ∧
    (∀ e ∈ mapSet l i u, e.2.ID = e.1) ∧ UsersDistinct (mapSet l i u) := by
  unfold mapSet
  split
  · exact inv_overwrite hk hid hd hu (fun e he _ => hnew e he)
  · next hs =>
    have hn : mapGet l i = none := by simpa using hs
    exact inv_append hk hid hd hu ((mapGet_eq_none_iff _ _).1 hn) hnew

theorem inv_store {s : UserService} {id : String} {u : User} (h : s.Inv) (hu : u.ID = id)
    (hnew : ∀ e ∈ s.users, e.1 ≠ id → e.2.Username ≠ u.Username ∧ e.2.Email ≠ u.Email) :
    (s.store id u).Inv := by
  have := inv_overwrite h.1.1 h.1.2 h.2 hu hnew
  exact ⟨⟨this.1, this.2.1⟩, this.2.2⟩

end GoGrpcRestDemo

namespace GoGrpcRestDemo

theorem CreateUser_inv {s : UserService} (now : Time) (req : CreateUserRequest) (h : s.Inv) :
    (s.CreateUser now req).2.Inv := by
  unfold UserService.CreateUser
  split
  · exact h
  · cases hscan : createUserScan req s.users with
    | some err => exact h
    | none =>
      have hnew := (createUserScan_eq_none_iff req s.users).1 hscan
      have := inv_mapSet (i := (issueID s.nextID).1)
        (u := ⟨(issueID s.nextID).1, req.Username, req.Email, req.FullName, true, now, now⟩)
        h.1.1 h.1.2 h.2 rfl hnew
      exact ⟨⟨this.1, this.2.1⟩, this.2.2⟩

theorem mapStore_mapStore {β : Type} (m : List (String × β)) (k : String) (a b : β) :
    mapStore (mapStore m k a) k b = mapStore m k b := by
  induction m with
  | nil => rfl
  | cons e m ih =>
    by_cases hk : e.1 = k
    · simp [mapStore, hk]
    · simp [mapStore, hk, ih]

/-! ## The four exits of `UpdateUser` -/

theorem UpdateUser_notFound {s : UserService} {now : Time} {req : UpdateUserRequest}
    (hget : mapGet s.users req.ID = none) :
    s.UpdateUser now req = (.error (NewNotFoundError "user" req.ID), s) := by
  simp only [UserService.UpdateUser, hget]

theorem UpdateUser_usernameTaken {s : UserService} {now : Time} {req : UpdateUserRequest}
    {user : User} {v : String} {err : AppError}
    (hget : mapGet s.users req.ID = some user) (hv : req.Username = some v)
    (hc : checkUniqueScan req.ID "username" v s.users = some err) :
    s.UpdateUser now req = (.error err, s) := by
  simp only [UserService.UpdateUser, hget, hv, Option.some_bind, UserService.checkUniqueField, hc]

theorem UpdateUser_emailTaken {s : UserService} {now : Time} {req : UpdateUserRequest}
    {user : User} {v : String} {err : AppError}
    (hget : mapGet s.users req.ID = some user)
    (hu : ∀ w, req.Username = some w → checkUniqueScan req.ID "username" w s.users = none)
    (hv : req.Email = some v)
    (hc : checkUniqueScan req.ID "email" v s.users = some err) :
    s.UpdateUser now req =
      (.error err, s.store req.ID { user with Username := req.Username.getD user.Username }) := by
  obtain ⟨id, un, em, fn, ia⟩ := req
  simp only at hget hu hv hc
  subst hv
  cases un with
  | none =>
    simp [UserService.UpdateUser, hget, UserService.checkUniqueField, UserService.store,
      checkUniqueScan_mapStore, hc]
  | some w =>
    simp [UserService.UpdateUser, hget, UserService.checkUniqueField, UserService.store,
      checkUniqueScan_mapStore, hc, hu w rfl]

theorem UpdateUser_ok {s : UserService} {now : Time} {req : UpdateUserRequest} {user : User}
    (hget : mapGet s.users req.ID = some user)
    (hu : ∀ w, req.Username = some w → checkUniqueScan req.ID "username" w s.users = none)
    (he : ∀ w, req.Email = some w → checkUniqueScan req.ID "email" w s.users = none) :
    s.UpdateUser now req =
      (.ok (applyPatch user now req), s.store req.ID (applyPatch user now req)) := by
  obtain ⟨id, un, em, fn, ia⟩ := req
  simp only at hget hu he
  cases un <;> cases em <;> cases fn <;> cases ia <;>
    simp_all [UserService.UpdateUser, UserService.checkUniqueField, UserService.store,
      checkUniqueScan_mapStore, mapStore_mapStore, applyPatch]

end GoGrpcRestDemo

namespace GoGrpcRestDemo

theorem checkUniqueScan_none_or_some (x field v : String) (l : List (String × User)) :
    checkUniqueScan x field v l = none ∨ ∃ err, checkUniqueScan x field v l = some err := by
  cases h : checkUniqueScan x field v l with
  | none => exact Or.inl rfl
  | some err => exact Or.inr ⟨err, rfl⟩

/-- Every call of `UpdateUser` leaves through one of its four exits. -/
theorem UpdateUser_cases (s : UserService) (now : Time) (req : UpdateUserRequest) :
    (mapGet s.users req.ID = none ∧
      s.UpdateUser now req = (.error (NewNotFoundError "user" req.ID), s)) ∨
    (∃ user v err, mapGet s.users req.ID = some user ∧ req.Username = some v ∧
      checkUniqueScan req.ID "username" v s.users = some err ∧
      s.UpdateUser now req = (.error err, s)) ∨
    (∃ user v err, mapGet s.users req.ID = some user ∧
      (∀ w, req.Username = some w → checkUniqueScan req.ID "username" w s.users = none) ∧
      req.Email = some v ∧ checkUniqueScan req.ID "email" v s.users = some err ∧
      s.UpdateUser now req =
        (.error err,
          s.store req.ID { user with Username := req.Username.getD user.Username })) ∨
    (∃ user, mapGet s.users req.ID = some user ∧
      (∀ w, req.Username = some w → checkUniqueScan req.ID "username" w s.users = none) ∧
      (∀ w, req.Email = some w → checkUniqueScan req.ID "email" w s.users = none) ∧
      s.UpdateUser now req =
        (.ok (applyPatch user now req), s.store req.ID (applyPatch user now req))) := by
  cases hget : mapGet s.users req.ID with
  | none => exact Or.inl ⟨rfl, UpdateUser_notFound hget⟩
  | some user =>
    right
    by_cases hu : ∀ w, req.Username = some w →
        checkUniqueScan req.ID "username" w s.users = none
    · right
      by_cases he : ∀ w, req.Email = some w → checkUniqueScan req.ID "email" w s.users = none
      · exact Or.inr ⟨user, rfl, hu, he, UpdateUser_ok hget hu he⟩
      · push_neg at he
        obtain ⟨w, hw, hc⟩ := he
        obtain ⟨err, herr⟩ := Option.ne_none_iff_exists'.1 hc
        exact Or.inl ⟨user, w, err, rfl, hu, hw, herr, UpdateUser_emailTaken hget hu hw herr⟩
    · push_neg at hu
      obtain ⟨w, hw, hc⟩ := hu
      obtain ⟨err, herr⟩ := Option.ne_none_iff_exists'.1 hc
      exact Or.inl ⟨user, w, err, rfl, hw, herr, UpdateUser_usernameTaken hget hw herr⟩

theorem UpdateUser_inv {s : UserService} (now : Time) (req : UpdateUserRequest) (h : s.Inv) :
    (s.UpdateUser now req).2.Inv := by
  rcases UpdateUser_cases s now req with ⟨_, heq⟩ | ⟨_, _, _, _, _, _, heq⟩ |
    ⟨user, v, err, hget, hu, _, _, heq⟩ | ⟨user, hget, hu, he, heq⟩
  · rw [heq]; exact h
  · rw [heq]; exact h
  · rw [heq]
    have hmem := mem_of_mapGet hget
    have huid : user.ID = req.ID := h.1.2 _ hmem
    refine inv_store h (u := { user with Username := req.Username.getD user.Username }) huid ?_
    intro e hin hne
    refine ⟨?_, (h.2 e hin _ hmem hne).2⟩
    cases hun : req.Username with
    | none => exact (h.2 e hin _ hmem hne).1
    | some w =>
      have := (checkUniqueScan_eq_none_iff _ _ _ _).1 (hu w hun) e hin hne
      simpa using this
  · rw [heq]
    have hmem := mem_of_mapGet hget
    have huid : user.ID = req.ID := h.1.2 _ hmem
    refine inv_store h (u := applyPatch user now req) huid ?_
    intro e hin hne
    constructor
    · cases hun : req.Username with
      | none => simpa [applyPatch, hun] using (h.2 e hin _ hmem hne).1
      | some w =>
        have := (checkUniqueScan_eq_none_iff _ _ _ _).1 (hu w hun) e hin hne
        simpa [applyPatch, hun] using this
    · cases hem : req.Email with
      | none => simpa [applyPatch, hem] using (h.2 e hin _ hmem hne).2
      | some w =>
        have := (checkUniqueScan_eq_none_iff _ _ _ _).1 (he w hem) e hin hne
        simpa [applyPatch, hem] using this

theorem DeleteUser_inv {s : UserService} (id : String) (h : s.Inv) :
    (s.DeleteUser id).2.Inv := by
  unfold UserService.DeleteUser
  cases mapGet s.users id with
  | none => exact h
  | some u =>
    have hsub : List.Sublist (mapDelete s.users id) s.users := List.filter_sublist _
    refine ⟨⟨h.1.1.sublist (hsub.map _), fun e he => h.1.2 e (hsub.subset he)⟩, ?_⟩
    intro e₁ h₁ e₂ h₂ hne
    exact h.2 e₁ (hsub.subset h₁) e₂ (hsub.subset h₂) hne

theorem reorder_inv {s : UserService} {order : List (String × User)} (h : s.Inv)
    (hp : order.Perm s.users) : ({ s with users := order } : UserService).Inv := by
  refine ⟨⟨(hp.map Prod.fst).nodup_iff.2 h.1.1, fun e he => h.1.2 e (hp.mem_iff.1 he)⟩, ?_⟩
  intro e₁ h₁ e₂ h₂ hne
  exact h.2 e₁ (hp.mem_iff.1 h₁) e₂ (hp.mem_iff.1 h₂) hne

theorem stepUser_inv {s : UserService} (op : UserOp) (h : s.Inv) : (stepUser s op).1.Inv := by
  cases op with
  | create now req =>
    have := CreateUser_inv now req h
    simp only [stepUser]
    split <;> simp_all
  | get id =>
    simp only [stepUser, UserService.GetUser]
    split <;> exact h
  | update now req => exact UpdateUser_inv now req h
  | delete id => exact DeleteUser_inv id h
  | reorder order =>
    simp only [stepUser]
    split
    · next hp => exact reorder_inv h hp
    · exact h

theorem runUserOps_inv (ops : List UserOp) {s : UserService} (h : s.Inv) :
    (runUserOps s ops).1.Inv := by
  induction ops generalizing s with
  | nil => exact h
  | cons op ops ih => exact ih (stepUser_inv op h)

theorem NewUserService_inv : NewUserService.Inv := by
  refine ⟨⟨List.nodup_nil, ?_⟩, ?_⟩
  · intro e he; simp [NewUserService] at he
  · intro e he; simp [NewUserService] at he

/-- C1. In every state reachable from the empty user repository by a finite sequence of
`CreateUser`, `UpdateUser`, `DeleteUser` (and `GetUser`) calls, successful or failing,
under any iteration order of the map, the map keys are pairwise distinct, every user is
stored under its own identifier, and two live users with different identifiers have
different usernames and different emails (exact string equality). -/
theorem C1_uniqueness_invariant (ops : List UserOp) :
    (runUserOps NewUserService ops).1.Keyed ∧ (runUserOps NewUserService ops).1.Unique :=
  ⟨(runUserOps_inv ops NewUserService_inv).1, inv_unique (runUserOps_inv ops NewUserService_inv)⟩

end GoGrpcRestDemo

namespace GoGrpcRestDemo

/-! ## Decimal formatting -/

theorem digitChar_toNat {k : Nat} (h : k < 10) : (Nat.digitChar k).toNat - 48 = k := by
  interval_cases k <;> rfl

theorem digitChar_isDigit {k : Nat} (h : k < 10) : (Nat.digitChar k).isDigit = true := by
  interval_cases k <;> rfl

theorem toDigitsCore_foldl (fuel : Nat) : ∀ (n : Nat) (ds : List Char), n < fuel →
    (Nat.toDigitsCore 10 fuel n ds).foldl (fun acc c => acc * 10 + (c.toNat - 48)) 0 =
      ds.foldl (fun acc c => acc * 10 + (c.toNat - 48)) n := by
  induction fuel with
  | zero => intro n ds h; omega
  | succ fuel ih =>
    intro n ds h
    simp only [Nat.toDigitsCore]
    split
    · next h0 =>
      have hn : n % 10 = n := by omega
      simp only [List.foldl_cons, Nat.zero_mul, Nat.zero_add]
      rw [digitChar_toNat (Nat.mod_lt _ (by norm_num)), hn]
    · next h0 =>
      rw [ih (n / 10) _ (by omega)]
      simp only [List.foldl_cons]
      rw [digitChar_toNat (Nat.mod_lt _ (by norm_num))]
      congr 1
      omega

theorem parseDigits_toDigits (n : Nat) : parseDigits (Nat.toDigits 10 n) = n := by
  unfold parseDigits Nat.toDigits
  rw [toDigitsCore_foldl (n + 1) n [] (by omega)]
  rfl

theorem toDigitsCore_isDigit (fuel : Nat) : ∀ (n : Nat) (ds : List Char),
    (∀ c ∈ ds, c.isDigit = true) → ∀ c ∈ Nat.toDigitsCore 10 fuel n ds, c.isDigit = true := by
  induction fuel with
  | zero => intro n ds h c hc; exact h c (by simpa [Nat.toDigitsCore] using hc)
  | succ fuel ih =>
    intro n ds h
    have hcons : ∀ c ∈ Nat.digitChar (n % 10) :: ds, c.isDigit = true := by
      intro c hc
      rcases List.mem_cons.1 hc with hc | hc
      · rw [hc]; exact digitChar_isDigit (Nat.mod_lt _ (by norm_num))
      · exact h c hc
    simp only [Nat.toDigitsCore]
    split
    · exact hcons
    · exact ih _ _ hcons

theorem toDigitsCore_ne_nil (fuel : Nat) : ∀ (n : Nat) (ds : List Char),
    (fuel ≠ 0 ∨ ds ≠ []) → Nat.toDigitsCore 10 fuel n ds ≠ [] := by
  induction fuel with
  | zero => intro n ds h; simpa [Nat.toDigitsCore] using h
  | succ fuel ih =>
    intro n ds _
    simp only [Nat.toDigitsCore]
    split
    · simp
    · exact ih _ _ (Or.inr (by simp))

theorem repr_data (n : Nat) : (Nat.repr n).data = Nat.toDigits 10 n := rfl

theorem repr_injective {a b : Nat} (h : Nat.repr a = Nat.repr b) : a = b := by
  have := congrArg (fun s => parseDigits s.data) h
  simpa [repr_data, parseDigits_toDigits] using this

theorem repr_isDigit (n : Nat) : ∀ c ∈ (Nat.repr n).data, c.isDigit = true := by
  rw [repr_data]
  exact toDigitsCore_isDigit _ _ _ (by simp)

theorem repr_ne_empty (n : Nat) : Nat.repr n ≠ "" := by
  intro h
  have := congrArg String.data h
  rw [repr_data] at this
  exact toDigitsCore_ne_nil (n + 1) n [] (Or.inl (by omega)) this

theorem FormatInt_data (i : Int) :
    (FormatInt i).data = if i < 0 then '-' :: Nat.toDigits 10 i.natAbs
      else Nat.toDigits 10 i.natAbs := by
  unfold FormatInt
  split
  · rw [String.data_append, repr_data]; rfl
  · rw [repr_data]

theorem FormatInt_ne_empty (i : Int) : FormatInt i ≠ "" := by
  intro h
  have := congrArg String.data h
  rw [FormatInt_data] at this
  split at this
  · simp at this
  · exact toDigitsCore_ne_nil (i.natAbs + 1) _ [] (Or.inl (by omega)) this

/-- Every character of a formatted integer is a decimal digit or the minus sign. -/
theorem FormatInt_chars (i : Int) : ∀ c ∈ (FormatInt i).data, c.isDigit = true ∨ c = '-' := by
  intro c hc
  rw [FormatInt_data] at hc
  split at hc
  · rcases List.mem_cons.1 hc with hc | hc
    · exact Or.inr hc
    · exact Or.inl (toDigitsCore_isDigit _ _ _ (by simp) c hc)
  · exact Or.inl (toDigitsCore_isDigit _ _ _ (by simp) c hc)

theorem FormatInt_injective {a b : Int} (h : FormatInt a = FormatInt b) : a = b := by
  have hd := congrArg String.data h
  rw [FormatInt_data, FormatInt_data] at hd
  have hdig : ∀ n : Nat, ∀ l, '-' :: l ≠ Nat.toDigits 10 n := by
    intro n l hl
    have := toDigitsCore_isDigit (n + 1) n [] (by simp) '-' (by
      show '-' ∈ Nat.toDigits 10 n
      rw [← hl]; exact List.mem_cons_self _ _)
    exact absurd this (by decide)
  have hp : ∀ x y : Nat, Nat.toDigits 10 x = Nat.toDigits 10 y → x = y := by
    intro x y hxy
    have := congrArg parseDigits hxy
    simpa [parseDigits_toDigits] using this
  by_cases ha : a < 0 <;> by_cases hb : b < 0
  · rw [if_pos ha, if_pos hb] at hd
    have := hp _ _ (List.cons.inj hd).2
    omega
  · rw [if_pos ha, if_neg hb] at hd
    exact absurd hd (hdig _ _)
  · rw [if_neg ha, if_pos hb] at hd
    exact absurd hd.symm (hdig _ _)
  · rw [if_neg ha, if_neg hb] at hd
    have := hp _ _ hd
    omega

end GoGrpcRestDemo

namespace GoGrpcRestDemo

/-! ## The identifier counter -/

theorem wrapInt64_of_in {c : Int} (h : InInt64 c) : wrapInt64 c = c := by
  unfold InInt64 at h
  unfold wrapInt64
  norm_num at h ⊢
  omega

theorem wrapInt64_in (c : Int) : InInt64 (wrapInt64 c) := by
  unfold InInt64 wrapInt64
  norm_num
  omega

theorem wrapInt64_add_wrap (a b : Int) : wrapInt64 (wrapInt64 a + b) = wrapInt64 (a + b) := by
  unfold wrapInt64
  norm_num
  omega

theorem wrapInt64_inj_on {c : Int} {j k : Nat} (hj : j < 2 ^ 64) (hk : k < 2 ^ 64)
    (h : wrapInt64 (c + j) = wrapInt64 (c + k)) : j = k := by
  unfold wrapInt64 at h
  norm_num at h hj hk
  omega

theorem issueID_fst {c : Int} (h : InInt64 c) : (issueID c).1 = FormatInt c := by
  unfold issueID
  simp only
  have : wrapInt64 (c + 1) - 1 = wrapInt64 (c + 1) + (-1) := by ring
  rw [this, wrapInt64_add_wrap]
  have : c + 1 + -1 = c := by ring
  rw [this, wrapInt64_of_in h]

theorem issueID_snd (c : Int) : (issueID c).2 = wrapInt64 (c + 1) := rfl

theorem issuedFrom_zero (c : Int) : issuedFrom c 0 = [] := rfl

theorem issuedFrom_succ {c : Int} (h : InInt64 c) (n : Nat) :
    issuedFrom c (n + 1) = FormatInt c :: issuedFrom (wrapInt64 (c + 1)) n := by
  unfold issuedFrom
  rw [List.range_succ_eq_map, List.map_cons, List.map_map]
  congr 1
  · simp [wrapInt64_of_in h]
  · apply List.map_congr_left
    intro k _
    simp only [Function.comp, Nat.succ_eq_add_one, Nat.cast_add, Nat.cast_one]
    rw [wrapInt64_add_wrap]
    congr 2
    ring

theorem issuedFrom_length (c : Int) (n : Nat) : (issuedFrom c n).length = n := by
  simp [issuedFrom]

theorem issuedFrom_nodup (c : Int) {n : Nat} (h : n ≤ 2 ^ 64) : (issuedFrom c n).Nodup := by
  unfold issuedFrom
  apply List.Nodup.map_on _ (List.nodup_range n)
  intro j hj k hk hjk
  rw [List.mem_range] at hj hk
  exact wrapInt64_inj_on (lt_of_lt_of_le hj h) (lt_of_lt_of_le hk h) (FormatInt_injective hjk)

theorem issuedFrom_ne_empty (c : Int) (n : Nat) : ∀ id ∈ issuedFrom c n, id ≠ "" := by
  intro id hid
  obtain ⟨k, _, rfl⟩ := List.mem_map.1 hid
  exact FormatInt_ne_empty _

/-- What `CreateUser` does to the counter and which identifier it returns. -/
theorem CreateUser_counter (s : UserService) (now : Time) (req : CreateUserRequest) :
    (∃ err, (s.CreateUser now req).1 = .error err ∧ (s.CreateUser now req).2 = s) ∨
    (∃ u, (s.CreateUser now req).1 = .ok u ∧ u.ID = (issueID s.nextID).1 ∧
      (s.CreateUser now req).2.nextID = wrapInt64 (s.nextID + 1)) := by
  unfold UserService.CreateUser
  split
  · exact Or.inl ⟨_, rfl, rfl⟩
  · cases createUserScan req s.users with
    | some err => exact Or.inl ⟨_, rfl, rfl⟩
    | none => exact Or.inr ⟨_, rfl, rfl, rfl⟩

theorem stepUser_counter (s : UserService) (op : UserOp) :
    ((stepUser s op).2 = none ∧ (stepUser s op).1.nextID = s.nextID) ∨
    ((stepUser s op).2 = some (issueID s.nextID).1 ∧
      (stepUser s op).1.nextID = wrapInt64 (s.nextID + 1)) := by
  cases op with
  | create now req =>
    simp only [stepUser]
    rcases CreateUser_counter s now req with ⟨err, h1, h2⟩ | ⟨u, h1, h2, h3⟩
    · left
      rcases hc : s.CreateUser now req with ⟨r, s'⟩
      rw [hc] at h1 h2
      simp only at h1 h2
      subst h1 h2
      exact ⟨rfl, rfl⟩
    · right
      rcases hc : s.CreateUser now req with ⟨r, s'⟩
      rw [hc] at h1 h3
      simp only at h1 h3
      subst h1
      exact ⟨by simp [h2], h3⟩
  | get id =>
    left
    simp only [stepUser, UserService.GetUser]
    split <;> simp
  | update now req =>
    left
    refine ⟨rfl, ?_⟩
    simp only [stepUser]
    rcases UpdateUser_cases s now req with ⟨_, heq⟩ | ⟨_, _, _, _, _, _, heq⟩ |
      ⟨_, _, _, _, _, _, _, heq⟩ | ⟨_, _, _, _, heq⟩ <;> rw [heq] <;> rfl
  | delete id =>
    left
    simp only [stepUser, UserService.DeleteUser]
    split <;> simp
  | reorder order =>
    left
    simp only [stepUser]
    split <;> simp

/-- The identifiers issued along a run are the next values of the counter, in order. -/
theorem runUserOps_issued (ops : List UserOp) : ∀ s : UserService, InInt64 s.nextID →
    (runUserOps s ops).2 = issuedFrom s.nextID (runUserOps s ops).2.length ∧
    (runUserOps s ops).1.nextID = wrapInt64 (s.nextID + (runUserOps s ops).2.length) := by
  induction ops with
  | nil =>
    intro s hs
    simp [runUserOps, issuedFrom_zero, wrapInt64_of_in hs]
  | cons op ops ih =>
    intro s hs
    simp only [runUserOps]
    rcases stepUser_counter s op with ⟨h1, h2⟩ | ⟨h1, h2⟩
    · have := ih (stepUser s op).1 (h2 ▸ hs)
      rw [h2] at this
      rw [h1]
      simpa using this
    · have := ih (stepUser s op).1 (h2 ▸ wrapInt64_in _)
      rw [h2] at this
      rw [h1]
      simp only [Option.toList_some, List.singleton_append, List.length_cons]
      rw [issuedFrom_succ hs, issueID_fst hs]
      refine ⟨by rw [← this.1], ?_⟩
      rw [this.2, wrapInt64_add_wrap]
      congr 1
      push_cast
      ring

end GoGrpcRestDemo

namespace GoGrpcRestDemo

theorem CreateProduct_counter (s : ProductService) (now : Time) (req : CreateProductRequest) :
    (∃ err, (s.CreateProduct now req).1 = .error err ∧ (s.CreateProduct now req).2 = s) ∨
    (∃ p, (s.CreateProduct now req).1 = .ok p ∧ p.ID = (issueID s.nextID).1 ∧
      (s.CreateProduct now req).2.nextID = wrapInt64 (s.nextID + 1)) := by
  unfold ProductService.CreateProduct
  split
  · exact Or.inl ⟨_, rfl, rfl⟩
  · split
    · exact Or.inl ⟨_, rfl, rfl⟩
    · exact Or.inr ⟨_, rfl, rfl, rfl⟩

theorem stepProduct_counter (s : ProductService) (op : ProductOp) :
    ((stepProduct s op).2 = none ∧ (stepProduct s op).1.nextID = s.nextID) ∨
    ((stepProduct s op).2 = some (issueID s.nextID).1 ∧
      (stepProduct s op).1.nextID = wrapInt64 (s.nextID + 1)) := by
  cases op with
  | create now req =>
    simp only [stepProduct]
    rcases CreateProduct_counter s now req with ⟨err, h1, h2⟩ | ⟨u, h1, h2, h3⟩
    · left
      rcases hc : s.CreateProduct now req with ⟨r, s'⟩
      rw [hc] at h1 h2
      simp only at h1 h2
      subst h1 h2
      exact ⟨rfl, rfl⟩
    · right
      rcases hc : s.CreateProduct now req with ⟨r, s'⟩
      rw [hc] at h1 h3
      simp only at h1 h3
      subst h1
      exact ⟨by simp [h2], h3⟩
  | get id =>
    left
    simp only [stepProduct, ProductService.GetProduct]
    split <;> simp
  | reorder order =>
    left
    simp only [stepProduct]
    split <;> simp

theorem runProductOps_issued (ops : List ProductOp) : ∀ s : ProductService, InInt64 s.nextID →
    (runProductOps s ops).2 = issuedFrom s.nextID (runProductOps s ops).2.length ∧
    (runProductOps s ops).1.nextID =
      wrapInt64 (s.nextID + (runProductOps s ops).2.length) := by
  induction ops with
  | nil =>
    intro s hs
    simp [runProductOps, issuedFrom_zero, wrapInt64_of_in hs]
  | cons op ops ih =>
    intro s hs
    simp only [runProductOps]
    rcases stepProduct_counter s op with ⟨h1, h2⟩ | ⟨h1, h2⟩
    · have := ih (stepProduct s op).1 (h2 ▸ hs)
      rw [h2] at this
      rw [h1]
      simpa using this
    · have := ih (stepProduct s op).1 (h2 ▸ wrapInt64_in _)
      rw [h2] at this
      rw [h1]
      simp only [Option.toList_some, List.singleton_append, List.length_cons]
      rw [issuedFrom_succ hs, issueID_fst hs]
      refine ⟨by rw [← this.1], ?_⟩
      rw [this.2, wrapInt64_add_wrap]
      congr 1
      push_cast
      ring

theorem one_inInt64 : InInt64 1 := by
  unfold InInt64
  norm_num

theorem runUserOps_append (a b : List UserOp) : ∀ s : UserService,
    runUserOps s (a ++ b) =
      ((runUserOps (runUserOps s a).1 b).1, (runUserOps s a).2 ++ (runUserOps (runUserOps s a).1 b).2) := by
  induction a with
  | nil => intro s; simp [runUserOps]
  | cons op a ih =>
    intro s
    show runUserOps s (op :: (a ++ b)) = _
    simp only [runUserOps]
    rw [ih]
    simp only [List.append_assoc]

theorem createUser_on_empty {c : Int} (h : InInt64 c) :
    ({ users := [], nextID := c } : UserService).CreateUser 0 aliceReq =
      (.ok ⟨FormatInt c, "alice", "alice@x", "Alice", true, 0, 0⟩,
        { users := [(FormatInt c, ⟨FormatInt c, "alice", "alice@x", "Alice", true, 0, 0⟩)],
          nextID := wrapInt64 (c + 1) }) := by
  have hv : ¬ (aliceReq.Username = "" ∨ aliceReq.Email = "" ∨ aliceReq.FullName = "") := by
    decide
  simp only [UserService.CreateUser, if_neg hv, createUserScan, UserService.generateID,
    issueID_fst h, issueID_snd, mapSet, mapGet, List.find?_nil, Option.map_none',
    Option.isSome_none, List.nil_append]
  rfl

theorem createDelete_once {c : Int} (h : InInt64 c) :
    runUserOps { users := [], nextID := c }
        [UserOp.create 0 aliceReq, UserOp.delete (FormatInt c)] =
      ({ users := [], nextID := wrapInt64 (c + 1) }, [FormatInt c]) := by
  simp [runUserOps, stepUser, createUser_on_empty h, UserService.DeleteUser, mapGet, mapDelete]

theorem createDeleteCycles_succ {c : Int} (h : InInt64 c) (n : Nat) :
    createDeleteCycles c (n + 1) =
      [UserOp.create 0 aliceReq, UserOp.delete (FormatInt c)] ++
        createDeleteCycles (wrapInt64 (c + 1)) n := by
  unfold createDeleteCycles
  rw [List.range_succ_eq_map, List.flatMap_cons, List.flatMap_map]
  congr 1
  · simp [wrapInt64_of_in h]
  · congr 1
    funext k
    simp only [Nat.succ_eq_add_one, Nat.cast_add, Nat.cast_one]
    rw [wrapInt64_add_wrap, add_right_comm, add_assoc]

theorem createDeleteCycles_run (n : Nat) : ∀ c : Int, InInt64 c →
    runUserOps { users := [], nextID := c } (createDeleteCycles c n) =
      ({ users := [], nextID := wrapInt64 (c + n) }, issuedFrom c n) := by
  induction n with
  | zero =>
    intro c h
    simp [createDeleteCycles, runUserOps, issuedFrom_zero, wrapInt64_of_in h]
  | succ n ih =>
    intro c h
    rw [createDeleteCycles_succ h, runUserOps_append, createDelete_once h]
    simp only [ih _ (wrapInt64_in _), issuedFrom_succ h, wrapInt64_add_wrap]
    simp only [List.singleton_append, Nat.cast_add, Nat.cast_one]
    rw [add_assoc c 1 (n : Int), add_comm (1 : Int) (n : Int)]

end GoGrpcRestDemo

namespace GoGrpcRestDemo

/-- C4 (amended). In a sequence of operations on a user repository, and in one on a
product repository, each starting from the empty repository, in which at most `2 ^ 64`
creates succeed, every successful create returns a non-empty identifier and the
identifiers returned by the successful creates are pairwise distinct, whatever was
deleted in between. -/
theorem C4_fresh_identifiers (uops : List UserOp) (pops : List ProductOp)
    (hu : (runUserOps NewUserService uops).2.length ≤ 2 ^ 64)
    (hp : (runProductOps NewProductService pops).2.length ≤ 2 ^ 64) :
    ((runUserOps NewUserService uops).2.Nodup ∧
      ∀ id ∈ (runUserOps NewUserService uops).2, id ≠ "") ∧
    ((runProductOps NewProductService pops).2.Nodup ∧
      ∀ id ∈ (runProductOps NewProductService pops).2, id ≠ "") := by
  have h1 := (runUserOps_issued uops NewUserService one_inInt64).1
  have h2 := (runProductOps_issued pops NewProductService one_inInt64).1
  refine ⟨⟨?_, ?_⟩, ⟨?_, ?_⟩⟩
  · rw [h1]; exact issuedFrom_nodup _ hu
  · rw [h1]; exact issuedFrom_ne_empty _ _
  · rw [h2]; exact issuedFrom_nodup _ hp
  · rw [h2]; exact issuedFrom_ne_empty _ _

set_option maxRecDepth 20000 in
/-- C4, an instance: three successful user creates with a delete in between, and one
product create. -/
theorem C4_fresh_identifiers_witness :
    ((runUserOps NewUserService
        [.create 0 aliceReq, .create 1 bobReq, .delete "1", .create 2 aliceReq]).2.Nodup ∧
      ∀ id ∈ (runUserOps NewUserService
        [.create 0 aliceReq, .create 1 bobReq, .delete "1", .create 2 aliceReq]).2, id ≠ "") ∧
    ((runProductOps NewProductService [.create 0 widgetReq]).2.Nodup ∧
      ∀ id ∈ (runProductOps NewProductService [.create 0 widgetReq]).2, id ≠ "") :=
  C4_fresh_identifiers
    [.create 0 aliceReq, .create 1 bobReq, .delete "1", .create 2 aliceReq]
    [.create 0 widgetReq]
    (le_trans (le_of_eq (by rfl :
      (runUserOps NewUserService
        [.create 0 aliceReq, .create 1 bobReq, .delete "1", .create 2 aliceReq]).2.length = 3))
      (by norm_num))
    (le_trans (by decide :
      (runProductOps NewProductService [.create 0 widgetReq]).2.length ≤ 1) (by norm_num))

theorem reuse_after_cycles (n : Nat) (hn : 0 < n) (hw : wrapInt64 (1 + (n : Int)) = 1) :
    (runUserOps NewUserService
        (createDeleteCycles 1 n ++ [UserOp.create 0 aliceReq])).2.head? = some "1" ∧
    (runUserOps NewUserService
        (createDeleteCycles 1 n ++ [UserOp.create 0 aliceReq])).2.getLast? = some "1" ∧
    (runUserOps NewUserService
        (createDeleteCycles 1 n ++ [UserOp.create 0 aliceReq])).2.length = n + 1 ∧
    ¬ (runUserOps NewUserService
        (createDeleteCycles 1 n ++ [UserOp.create 0 aliceReq])).2.Nodup := by
  have hrun : (runUserOps NewUserService
      (createDeleteCycles 1 n ++ [UserOp.create 0 aliceReq])).2 =
      issuedFrom 1 n ++ ["1"] := by
    have hN : NewUserService = { users := [], nextID := 1 } := rfl
    rw [runUserOps_append, hN, createDeleteCycles_run _ 1 one_inInt64]
    simp only [hw]
    simp only [runUserOps, stepUser, createUser_on_empty one_inInt64]
    rfl
  obtain ⟨m, rfl⟩ : ∃ m, n = m + 1 := ⟨n - 1, by omega⟩
  have hhead : issuedFrom 1 (m + 1) = "1" :: issuedFrom (wrapInt64 (1 + 1)) m := by
    rw [issuedFrom_succ one_inInt64]
    rfl
  rw [hrun]
  refine ⟨?_, ?_, ?_, ?_⟩
  · rw [hhead]; rfl
  · simp
  · simp [issuedFrom_length]
  · rw [hhead]
    intro hn
    have := (List.nodup_append.1 hn).2.2
    exact this (List.mem_cons_self _ _) (List.mem_singleton_self _)

/-- C4 as stated fails: after `2 ^ 64` create-and-delete rounds the `int64` counter is
back at 1, and the next successful `CreateUser` returns the identifier "1", which the
first create returned. -/
theorem C4_counterexample_identifier_reused :
    (runUserOps NewUserService
        (createDeleteCycles 1 (2 ^ 64) ++ [UserOp.create 0 aliceReq])).2.head? = some "1" ∧
    (runUserOps NewUserService
        (createDeleteCycles 1 (2 ^ 64) ++ [UserOp.create 0 aliceReq])).2.getLast? = some "1" ∧
    (runUserOps NewUserService
        (createDeleteCycles 1 (2 ^ 64) ++ [UserOp.create 0 aliceReq])).2.length = 2 ^ 64 + 1 ∧
    ¬ (runUserOps NewUserService
        (createDeleteCycles 1 (2 ^ 64) ++ [UserOp.create 0 aliceReq])).2.Nodup :=
  reuse_after_cycles (2 ^ 64) (Nat.pos_pow_of_pos 64 (by decide)) (by
    unfold wrapInt64
    norm_num)

end GoGrpcRestDemo

namespace GoGrpcRestDemo

/-! ## The claims about single calls -/

set_option maxRecDepth 20000 in
/-- C2, at the failing input. With users "1" (alice) and "2" (bob) live, `UpdateUser` with
id "1", username "carol" and email "bob@x" returns an AlreadyExists error for the email,
yet the stored username of user "1", which was "alice" before the call, is "carol" after
it: the username was written before the email was checked, and the repository after the
failed call differs from the one before. -/
theorem C2_failed_update_leaves_username_written :
    (twoUsers.UpdateUser 2 carolPatch).1 =
      .error (NewAlreadyExistsError "user" "email" "bob@x") ∧
    (mapGet twoUsers.users "1").map User.Username = some "alice" ∧
    (mapGet (twoUsers.UpdateUser 2 carolPatch).2.users "1").map User.Username = some "carol" ∧
    (twoUsers.UpdateUser 2 carolPatch).2 ≠ twoUsers := by
  decide

/-- What a failing `UpdateUser` leaves behind: the repository is unchanged, except when the
patch carries both a username and an email and only the email check fails; then the stored
user already has the patch's username. -/
theorem UpdateUser_error_frame (s s' : UserService) (now : Time) (req : UpdateUserRequest)
    (err : AppError) (h : s.UpdateUser now req = (.error err, s')) :
    s' = s ∨
    ∃ old v w, mapGet s.users req.ID = some old ∧ req.Username = some v ∧
      req.Email = some w ∧ s' = s.store req.ID { old with Username := v } := by
  rcases UpdateUser_cases s now req with ⟨_, heq⟩ | ⟨_, _, _, _, _, _, heq⟩ |
    ⟨old, w, _, hget, _, hw, _, heq⟩ | ⟨_, _, _, _, heq⟩
  · rw [heq] at h
    exact Or.inl (Prod.mk.inj h).2.symm
  · rw [heq] at h
    exact Or.inl (Prod.mk.inj h).2.symm
  · rw [heq] at h
    have hs := (Prod.mk.inj h).2.symm
    cases hun : req.Username with
    | none =>
      left
      rw [hs, hun]
      simp only [Option.getD_none, UserService.store]
      rw [mapStore_self hget]
    | some v =>
      right
      refine ⟨old, v, w, hget, rfl, hw, ?_⟩
      rw [hs, hun]
      rfl
  · rw [heq] at h
    simp at h

theorem createUser_collision {s : UserService} {t : Time} {req : CreateUserRequest}
    (hne : ¬ (req.Username = "" ∨ req.Email = "" ∨ req.FullName = ""))
    (hdup : ∃ e ∈ s.users, e.2.Username = req.Username ∨ e.2.Email = req.Email) :
    ∃ err, s.CreateUser t req = (.error err, s) ∧ err.Code = ErrCodeAlreadyExists := by
  unfold UserService.CreateUser
  rw [if_neg hne]
  cases hscan : createUserScan req s.users with
  | some err => exact ⟨err, rfl, createUserScan_code hscan⟩
  | none =>
    exfalso
    obtain ⟨e, he, hdup⟩ := hdup
    have := (createUserScan_eq_none_iff req s.users).1 hscan e he
    rcases hdup with h | h
    · exact this.1 h
    · exact this.2 h

/-- C3. For every repository state and every `CreateUser` request with non-empty username,
email and full_name whose username or whose email equals that of some live user, the call
returns an error of kind AlreadyExists and the repository (the live users, their number,
and the counter) is the same after the call as before. -/
theorem C3_create_duplicate_rejected (s : UserService) (now : Time) (req : CreateUserRequest)
    (hu : req.Username ≠ "") (he : req.Email ≠ "") (hf : req.FullName ≠ "")
    (hdup : ∃ e ∈ s.users, e.2.Username = req.Username ∨ e.2.Email = req.Email) :
    (∃ err, (s.CreateUser now req).1 = .error err ∧ err.Code = ErrCodeAlreadyExists) ∧
    (s.CreateUser now req).2 = s ∧
    (s.CreateUser now req).2.users.length = s.users.length := by
  obtain ⟨err, h, hc⟩ := createUser_collision (t := now)
    (by rintro (h | h | h) <;> contradiction) hdup
  rw [h]
  exact ⟨⟨err, rfl, hc⟩, rfl, rfl⟩

set_option maxRecDepth 20000 in
/-- C3, an instance: a second user with bob's email on the repository holding alice and
bob. -/
theorem C3_create_duplicate_rejected_witness :
    (∃ err, (twoUsers.CreateUser 5 ⟨"robert", "bob@x", "Robert"⟩).1 = .error err ∧
      err.Code = ErrCodeAlreadyExists) ∧
    (twoUsers.CreateUser 5 ⟨"robert", "bob@x", "Robert"⟩).2 = twoUsers ∧
    (twoUsers.CreateUser 5 ⟨"robert", "bob@x", "Robert"⟩).2.users.length =
      twoUsers.users.length :=
  C3_create_duplicate_rejected twoUsers 5 ⟨"robert", "bob@x", "Robert"⟩ (by decide) (by decide)
    (by decide) ⟨("2", ⟨"2", "bob", "bob@x", "Bob", true, 1, 1⟩), by decide, by decide⟩

/-- C5. `CreateUser` returns an error of kind ValidationFailed exactly when the request's
username, email or full_name is the empty string; in that case, whatever the repository
holds (a colliding username included), the result is that validation error and the
repository is unchanged. -/
theorem C5_create_validation (s : UserService) (now : Time) (req : CreateUserRequest) :
    ((∃ err, (s.CreateUser now req).1 = .error err ∧ err.Code = ErrCodeValidationFailed) ↔
      (req.Username = "" ∨ req.Email = "" ∨ req.FullName = "")) ∧
    ((req.Username = "" ∨ req.Email = "" ∨ req.FullName = "") →
      s.CreateUser now req =
        (.error (NewValidationError "fields" "username, email, and full_name are required"),
          s)) := by
  have hval : (req.Username = "" ∨ req.Email = "" ∨ req.FullName = "") →
      s.CreateUser now req =
        (.error (NewValidationError "fields" "username, email, and full_name are required"),
          s) := by
    intro h
    unfold UserService.CreateUser
    rw [if_pos h]
  refine ⟨⟨?_, ?_⟩, hval⟩
  · rintro ⟨err, herr, hcode⟩
    by_contra hne
    unfold UserService.CreateUser at herr
    rw [if_neg hne] at herr
    cases hscan : createUserScan req s.users with
    | some e2 =>
      rw [hscan] at herr
      simp only [Except.error.injEq] at herr
      have := createUserScan_code hscan
      rw [herr, hcode] at this
      exact absurd this (by decide)
    | none =>
      rw [hscan] at herr
      simp at herr
  · intro h
    rw [hval h]
    exact ⟨_, rfl, rfl⟩

set_option maxRecDepth 20000 in
/-- C5, an instance: an empty email together with alice's username, on a repository that
holds alice. -/
theorem C5_create_validation_witness :
    twoUsers.CreateUser 5 ⟨"alice", "", "Alice"⟩ =
      (.error (NewValidationError "fields" "username, email, and full_name are required"),
        twoUsers) :=
  (C5_create_validation twoUsers 5 ⟨"alice", "", "Alice"⟩).2 (by decide)

/-- C6. For every repository state and every `CreateUser` request with non-empty fields
whose username and email collide with no live user, the call succeeds and returns a user
with the request's username, email and full_name, active, with a non-empty identifier and
with `CreatedAt` and `UpdatedAt` equal to the clock reading of the call; `GetUser` on the
returned identifier, in the state after the call, succeeds and returns that same user. -/
theorem C6_create_get_roundtrip (s : UserService) (now : Time) (req : CreateUserRequest)
    (hu : req.Username ≠ "") (he : req.Email ≠ "") (hf : req.FullName ≠ "")
    (hfree : ∀ e ∈ s.users, e.2.Username ≠ req.Username ∧ e.2.Email ≠ req.Email) :
    ∃ u s', s.CreateUser now req = (.ok u, s') ∧
      u.Username = req.Username ∧ u.Email = req.Email ∧ u.FullName = req.FullName ∧
      u.IsActive = true ∧ u.ID ≠ "" ∧ u.CreatedAt = now ∧ u.UpdatedAt = now ∧
      s'.GetUser u.ID = (.ok u, s') := by
  have hne : ¬ (req.Username = "" ∨ req.Email = "" ∨ req.FullName = "") := by
    rintro (h | h | h) <;> contradiction
  have hscan := (createUserScan_eq_none_iff req s.users).2 hfree
  have hc : s.CreateUser now req =
      (.ok ⟨(issueID s.nextID).1, req.Username, req.Email, req.FullName, true, now, now⟩,
        { users := mapSet s.users (issueID s.nextID).1
            ⟨(issueID s.nextID).1, req.Username, req.Email, req.FullName, true, now, now⟩,
          nextID := (issueID s.nextID).2 }) := by
    simp only [UserService.CreateUser, if_neg hne, hscan]
    rfl
  refine ⟨_, _, hc, rfl, rfl, rfl, rfl, FormatInt_ne_empty _, rfl, rfl, ?_⟩
  simp only [UserService.GetUser, mapGet_mapSet_same]

set_option maxRecDepth 20000 in
/-- C6, an instance: creating carol on the repository holding alice and bob. -/
theorem C6_create_get_roundtrip_witness :
    ∃ u s', twoUsers.CreateUser 7 ⟨"carol", "carol@x", "Carol"⟩ = (.ok u, s') ∧
      u.Username = "carol" ∧ u.Email = "carol@x" ∧ u.FullName = "Carol" ∧
      u.IsActive = true ∧ u.ID ≠ "" ∧ u.CreatedAt = 7 ∧ u.UpdatedAt = 7 ∧
      s'.GetUser u.ID = (.ok u, s') :=
  C6_create_get_roundtrip twoUsers 7 ⟨"carol", "carol@x", "Carol"⟩ (by decide) (by decide)
    (by decide) (by decide)

end GoGrpcRestDemo

namespace GoGrpcRestDemo

theorem usernameScan_none_iff (x v : String) (l : List (String × User)) :
    checkUniqueScan x "username" v l = none ↔ ¬ ∃ e ∈ l, e.1 ≠ x ∧ e.2.Username = v := by
  rw [checkUniqueScan_eq_none_iff]
  simp

theorem emailScan_none_iff (x v : String) (l : List (String × User)) :
    checkUniqueScan x "email" v l = none ↔ ¬ ∃ e ∈ l, e.1 ≠ x ∧ e.2.Email = v := by
  rw [checkUniqueScan_eq_none_iff]
  have : ¬ ("email" = "username") := by decide
  simp [this]

theorem notFound_ne_alreadyExists : ErrCodeNotFound ≠ ErrCodeAlreadyExists := by decide

theorem errors_ne_validation :
    ErrCodeNotFound ≠ ErrCodeValidationFailed ∧ ErrCodeAlreadyExists ≠ ErrCodeValidationFailed := by
  decide

/-- C7. For every repository state and every `UpdateUser` request: the call returns an
error of kind NotFound iff no live user is stored under the request's id; when one is, the
call returns an error of kind AlreadyExists iff the patch carries a username equal to that
of a live user under another identifier, or an email equal to that of a live user under
another identifier, and succeeds otherwise; no error it returns has kind ValidationFailed.
In a repository that satisfies the uniqueness invariant, patching a live user with its own
current username and email succeeds. -/
theorem C7_update_outcome (s : UserService) (now : Time) (req : UpdateUserRequest) :
    ((∃ err, (s.UpdateUser now req).1 = .error err ∧ err.Code = ErrCodeNotFound) ↔
      ∀ e ∈ s.users, e.1 ≠ req.ID) ∧
    ((∃ e ∈ s.users, e.1 = req.ID) →
      ((∃ err, (s.UpdateUser now req).1 = .error err ∧ err.Code = ErrCodeAlreadyExists) ↔
        patchCollides s req)) ∧
    ((∃ e ∈ s.users, e.1 = req.ID) → ¬ patchCollides s req →
      ∃ u, (s.UpdateUser now req).1 = .ok u) ∧
    (∀ err, (s.UpdateUser now req).1 = .error err → err.Code ≠ ErrCodeValidationFailed) ∧
    (s.Keyed → s.Unique → ∀ user, (req.ID, user) ∈ s.users →
      req.Username = some user.Username → req.Email = some user.Email →
      ∃ u, (s.UpdateUser now req).1 = .ok u) := by
  have hlive : (∃ e ∈ s.users, e.1 = req.ID) ↔ mapGet s.users req.ID ≠ none := by
    rw [Ne, mapGet_eq_none_iff]
    push_neg
    rfl
  have hcoll : patchCollides s req ↔
      ¬ ((∀ w, req.Username = some w → checkUniqueScan req.ID "username" w s.users = none) ∧
        (∀ w, req.Email = some w → checkUniqueScan req.ID "email" w s.users = none)) := by
    unfold patchCollides
    simp only [usernameScan_none_iff, emailScan_none_iff]
    constructor
    · rintro (⟨v, hv, h⟩ | ⟨v, hv, h⟩) ⟨h1, h2⟩
      · exact h1 v hv h
      · exact h2 v hv h
    · intro h
      by_contra hc
      push_neg at hc
      apply h
      constructor
      · intro w hw hex
        obtain ⟨e, he, h1, h2⟩ := hex
        exact hc.1 w hw e he h1 h2
      · intro w hw hex
        obtain ⟨e, he, h1, h2⟩ := hex
        exact hc.2 w hw e he h1 h2
  have hmain : (∃ e ∈ s.users, e.1 = req.ID) → ¬ patchCollides s req →
      ∃ u, (s.UpdateUser now req).1 = .ok u := by
    intro hl hnc
    rw [hlive] at hl
    obtain ⟨user, hget⟩ := Option.ne_none_iff_exists'.1 hl
    rw [hcoll, not_not] at hnc
    rw [UpdateUser_ok hget hnc.1 hnc.2]
    exact ⟨_, rfl⟩
  refine ⟨⟨?_, ?_⟩, ?_, hmain, ?_, ?_⟩
  · rintro ⟨err, herr, hcode⟩
    rcases UpdateUser_cases s now req with ⟨hget, _⟩ | ⟨_, _, e2, _, _, hsc, heq⟩ |
      ⟨_, _, e2, _, _, _, hsc, heq⟩ | ⟨_, _, _, _, heq⟩
    · exact (mapGet_eq_none_iff _ _).1 hget
    · rw [heq] at herr
      simp only [Except.error.injEq] at herr
      subst herr
      exact absurd ((checkUniqueScan_code hsc).symm.trans hcode) notFound_ne_alreadyExists.symm
    · rw [heq] at herr
      simp only [Except.error.injEq] at herr
      subst herr
      exact absurd ((checkUniqueScan_code hsc).symm.trans hcode) notFound_ne_alreadyExists.symm
    · rw [heq] at herr
      simp at herr
  · intro h
    rw [UpdateUser_notFound ((mapGet_eq_none_iff _ _).2 h)]
    exact ⟨_, rfl, rfl⟩
  · intro hl
    constructor
    · rintro ⟨err, herr, hcode⟩
      by_contra hnc
      obtain ⟨u, hu⟩ := hmain hl hnc
      rw [hu] at herr
      simp at herr
    · intro hc
      rw [hlive] at hl
      rw [hcoll] at hc
      rcases UpdateUser_cases s now req with ⟨hget, _⟩ | ⟨_, _, e2, _, _, hsc, heq⟩ |
        ⟨_, _, e2, _, _, _, hsc, heq⟩ | ⟨_, _, h1, h2, _⟩
      · exact absurd hget hl
      · rw [heq]; exact ⟨e2, rfl, checkUniqueScan_code hsc⟩
      · rw [heq]; exact ⟨e2, rfl, checkUniqueScan_code hsc⟩
      · exact absurd ⟨h1, h2⟩ hc
  · intro err herr
    rcases UpdateUser_cases s now req with ⟨_, heq⟩ | ⟨_, _, e2, _, _, hsc, heq⟩ |
      ⟨_, _, e2, _, _, _, hsc, heq⟩ | ⟨_, _, _, _, heq⟩
    · rw [heq] at herr
      simp only [Except.error.injEq] at herr
      subst herr
      exact errors_ne_validation.1
    · rw [heq] at herr
      simp only [Except.error.injEq] at herr
      subst herr
      rw [checkUniqueScan_code hsc]
      exact errors_ne_validation.2
    · rw [heq] at herr
      simp only [Except.error.injEq] at herr
      subst herr
      rw [checkUniqueScan_code hsc]
      exact errors_ne_validation.2
    · rw [heq] at herr
      simp at herr
  · intro hk huq user hmem hun hem
    apply hmain ⟨_, hmem, rfl⟩
    rintro (⟨v, hv, e, he, hne, heq⟩ | ⟨v, hv, e, he, hne, heq⟩)
    · rw [hun] at hv
      cases hv
      have hid : e.2.ID ≠ user.ID := by
        rw [hk.2 e he, hk.2 _ hmem]
        exact hne
      exact (huq e he _ hmem hid).1 heq
    · rw [hem] at hv
      cases hv
      have hid : e.2.ID ≠ user.ID := by
        rw [hk.2 e he, hk.2 _ hmem]
        exact hne
      exact (huq e he _ hmem hid).2 heq

set_option maxRecDepth 20000 in
/-- C7, an instance: on the repository holding alice ("1") and bob ("2"), patching user
"1" with its own username and email succeeds. -/
theorem C7_update_outcome_witness : ∃ u, (twoUsers.UpdateUser 3 selfPatch).1 = .ok u :=
  (C7_update_outcome twoUsers 3 selfPatch).2.2.2.2
    (runUserOps_inv [.create 0 aliceReq, .create 1 bobReq] NewUserService_inv).1
    (inv_unique (runUserOps_inv [.create 0 aliceReq, .create 1 bobReq] NewUserService_inv))
    ⟨"1", "alice", "alice@x", "Alice", true, 0, 0⟩ (by decide) rfl rfl

/-- C8. For every successful `UpdateUser`: the user stored under the request's id after the
call is the returned one; each of username, email, full_name and is_active of it is the
patch's value when the patch carries the field and the prior value when it does not; its
identifier and `CreatedAt` are the prior ones; and its `UpdatedAt` is the clock reading of
the call, whatever the patch carries. -/
theorem C8_patch_semantics (s s' : UserService) (now : Time) (req : UpdateUserRequest) (u : User)
    (h : s.UpdateUser now req = (.ok u, s')) :
    ∃ old, mapGet s.users req.ID = some old ∧ mapGet s'.users req.ID = some u ∧
      u.Username = req.Username.getD old.Username ∧ u.Email = req.Email.getD old.Email ∧
      u.FullName = req.FullName.getD old.FullName ∧
      u.IsActive = req.IsActive.getD old.IsActive ∧
      u.ID = old.ID ∧ u.CreatedAt = old.CreatedAt ∧ u.UpdatedAt = now := by
  rcases UpdateUser_cases s now req with ⟨_, heq⟩ | ⟨_, _, _, _, _, _, heq⟩ |
    ⟨_, _, _, _, _, _, _, heq⟩ | ⟨old, hget, _, _, heq⟩
  · rw [heq] at h; simp at h
  · rw [heq] at h; simp at h
  · rw [heq] at h; simp at h
  · rw [heq] at h
    simp only [Prod.mk.injEq, Except.ok.injEq] at h
    obtain ⟨hu, hs⟩ := h
    subst hu hs
    refine ⟨old, hget, ?_, rfl, rfl, rfl, rfl, rfl, rfl, rfl⟩
    exact mapGet_mapStore_same _ _ _ (by rw [hget]; rfl)

set_option maxRecDepth 20000 in
/-- C8, an instance: a patch carrying only a full name, applied to bob at time 9. -/
theorem C8_patch_semantics_witness :
    ∃ old, mapGet twoUsers.users "2" = some old ∧
      mapGet (twoUsers.UpdateUser 9 namePatch).2.users "2" =
        some ⟨"2", "bob", "bob@x", "Robert", true, 1, 9⟩ ∧
      "bob" = old.Username ∧ "bob@x" = old.Email ∧ "Robert" = "Robert" ∧
      true = old.IsActive ∧ "2" = old.ID ∧ (1 : Time) = old.CreatedAt ∧ (9 : Time) = 9 :=
  C8_patch_semantics twoUsers (twoUsers.UpdateUser 9 namePatch).2 9 namePatch
    ⟨"2", "bob", "bob@x", "Robert", true, 1, 9⟩ (by decide)

end GoGrpcRestDemo

namespace GoGrpcRestDemo

/-! ## Keys of a reachable repository are issued identifiers -/

theorem mapSet_keys {β : Type} (m : List (String × β)) (k : String) (v : β) :
    ∀ x ∈ (mapSet m k v).map Prod.fst, x ∈ m.map Prod.fst ∨ x = k := by
  intro x hx
  unfold mapSet at hx
  split at hx
  · rw [mapStore_keys] at hx
    exact Or.inl hx
  · rw [List.map_append, List.mem_append] at hx
    rcases hx with hx | hx
    · exact Or.inl hx
    · right
      simpa using hx

theorem CreateUser_cases (s : UserService) (now : Time) (req : CreateUserRequest) :
    (∃ err, s.CreateUser now req = (.error err, s)) ∨
    (∃ u, s.CreateUser now req =
      (.ok u, { users := mapSet s.users u.ID u, nextID := wrapInt64 (s.nextID + 1) })) := by
  unfold UserService.CreateUser
  split
  · exact Or.inl ⟨_, rfl⟩
  · cases createUserScan req s.users with
    | some err => exact Or.inl ⟨_, rfl⟩
    | none => exact Or.inr ⟨_, rfl⟩

theorem CreateProduct_cases (s : ProductService) (now : Time) (req : CreateProductRequest) :
    (∃ err, s.CreateProduct now req = (.error err, s)) ∨
    (∃ p, s.CreateProduct now req =
      (.ok p, { products := mapSet s.products p.ID p, nextID := wrapInt64 (s.nextID + 1) })) := by
  unfold ProductService.CreateProduct
  split
  · exact Or.inl ⟨_, rfl⟩
  · split
    · exact Or.inl ⟨_, rfl⟩
    · exact Or.inr ⟨_, rfl⟩

theorem stepUser_keys (s : UserService) (op : UserOp) :
    ∀ x ∈ (stepUser s op).1.users.map Prod.fst,
      x ∈ s.users.map Prod.fst ∨ (stepUser s op).2 = some x := by
  intro x hx
  cases op with
  | create now req =>
    simp only [stepUser] at hx ⊢
    rcases CreateUser_cases s now req with ⟨err, heq⟩ | ⟨u, heq⟩
    · rw [heq] at hx
      exact Or.inl hx
    · rw [heq] at hx ⊢
      rcases mapSet_keys _ _ _ x hx with h | h
      · exact Or.inl h
      · exact Or.inr (by rw [h])
  | get id =>
    left
    simp only [stepUser, UserService.GetUser] at hx
    split at hx <;> exact hx
  | update now req =>
    left
    simp only [stepUser] at hx
    rcases UpdateUser_cases s now req with ⟨_, heq⟩ | ⟨_, _, _, _, _, _, heq⟩ |
      ⟨_, _, _, _, _, _, _, heq⟩ | ⟨_, _, _, _, heq⟩ <;> rw [heq] at hx
    · exact hx
    · exact hx
    · simpa only [UserService.store, mapStore_keys] using hx
    · simpa only [UserService.store, mapStore_keys] using hx
  | delete id =>
    left
    simp only [stepUser, UserService.DeleteUser] at hx
    split at hx
    · exact hx
    · exact ((List.filter_sublist _).map _).subset hx
  | reorder order =>
    left
    simp only [stepUser] at hx
    split at hx
    · next hp => exact (hp.map Prod.fst).subset hx
    · exact hx

theorem runUserOps_keys (ops : List UserOp) : ∀ (s : UserService),
    ∀ x ∈ (runUserOps s ops).1.users.map Prod.fst,
      x ∈ s.users.map Prod.fst ∨ x ∈ (runUserOps s ops).2 := by
  induction ops with
  | nil => intro s x hx; exact Or.inl hx
  | cons op ops ih =>
    intro s x hx
    simp only [runUserOps] at hx ⊢
    rcases ih _ x hx with h | h
    · rcases stepUser_keys s op x h with h2 | h2
      · exact Or.inl h2
      · right
        rw [h2]
        simp
    · exact Or.inr (List.mem_append_right _ h)

theorem stepProduct_keys (s : ProductService) (op : ProductOp) :
    ∀ x ∈ (stepProduct s op).1.products.map Prod.fst,
      x ∈ s.products.map Prod.fst ∨ (stepProduct s op).2 = some x := by
  intro x hx
  cases op with
  | create now req =>
    simp only [stepProduct] at hx ⊢
    rcases CreateProduct_cases s now req with ⟨err, heq⟩ | ⟨u, heq⟩
    · rw [heq] at hx
      exact Or.inl hx
    · rw [heq] at hx ⊢
      rcases mapSet_keys _ _ _ x hx with h | h
      · exact Or.inl h
      · exact Or.inr (by rw [h])
  | get id =>
    left
    simp only [stepProduct, ProductService.GetProduct] at hx
    split at hx <;> exact hx
  | reorder order =>
    left
    simp only [stepProduct] at hx
    split at hx
    · next hp => exact (hp.map Prod.fst).subset hx
    · exact hx

theorem runProductOps_keys (ops : List ProductOp) : ∀ (s : ProductService),
    ∀ x ∈ (runProductOps s ops).1.products.map Prod.fst,
      x ∈ s.products.map Prod.fst ∨ x ∈ (runProductOps s ops).2 := by
  induction ops with
  | nil => intro s x hx; exact Or.inl hx
  | cons op ops ih =>
    intro s x hx
    simp only [runProductOps] at hx ⊢
    rcases ih _ x hx with h | h
    · rcases stepProduct_keys s op x h with h2 | h2
      · exact Or.inl h2
      · right
        rw [h2]
        simp
    · exact Or.inr (List.mem_append_right _ h)

theorem nonexistent_not_issued (c : Int) (n : Nat) : "nonexistent" ∉ issuedFrom c n := by
  intro h
  obtain ⟨k, _, hk⟩ := List.mem_map.1 h
  have := FormatInt_chars (wrapInt64 (c + k)) 'n' (by rw [hk]; decide)
  revert this
  decide

theorem getUser_of_absent {s : UserService} {id : String} (h : ∀ e ∈ s.users, e.1 ≠ id) :
    s.GetUser id = (.error (NewNotFoundError "user" id), s) := by
  simp only [UserService.GetUser, (mapGet_eq_none_iff _ _).2 h]

theorem getProduct_of_absent {s : ProductService} {id : String}
    (h : ∀ e ∈ s.products, e.1 ≠ id) :
    s.GetProduct id = (.error (NewNotFoundError "product" id), s) := by
  simp only [ProductService.GetProduct, (mapGet_eq_none_iff _ _).2 h]

/-- C9. `GetUser id` (resp. `GetProduct id`) returns the entity stored under `id` when
`id` is the key of a live entity, and a NotFound error when it is not; in either case the
repository is unchanged. In a repository reached from the empty one, an identifier that no
successful create has returned is not live, so a get on it, for instance on "nonexistent",
returns NotFound. -/
theorem C9_get (s : UserService) (p : ProductService) (id : String) :
    (((s.users.map Prod.fst).Nodup → ∀ u, (id, u) ∈ s.users → s.GetUser id = (.ok u, s)) ∧
      ((∃ e ∈ s.users, e.1 = id) → ∃ u, (id, u) ∈ s.users ∧ s.GetUser id = (.ok u, s)) ∧
      ((∀ e ∈ s.users, e.1 ≠ id) → s.GetUser id = (.error (NewNotFoundError "user" id), s)) ∧
      (s.GetUser id).2 = s) ∧
    (((p.products.map Prod.fst).Nodup → ∀ x, (id, x) ∈ p.products →
        p.GetProduct id = (.ok x, p)) ∧
      ((∃ e ∈ p.products, e.1 = id) →
        ∃ x, (id, x) ∈ p.products ∧ p.GetProduct id = (.ok x, p)) ∧
      ((∀ e ∈ p.products, e.1 ≠ id) →
        p.GetProduct id = (.error (NewNotFoundError "product" id), p)) ∧
      (p.GetProduct id).2 = p) ∧
    (NewNotFoundError "user" id).Code = ErrCodeNotFound ∧
    (NewNotFoundError "product" id).Code = ErrCodeNotFound ∧
    (∀ ops, id ∉ (runUserOps NewUserService ops).2 →
      ((runUserOps NewUserService ops).1.GetUser id).1 =
        .error (NewNotFoundError "user" id)) ∧
    (∀ ops, id ∉ (runProductOps NewProductService ops).2 →
      ((runProductOps NewProductService ops).1.GetProduct id).1 =
        .error (NewNotFoundError "product" id)) ∧
    (∀ ops, ((runUserOps NewUserService ops).1.GetUser "nonexistent").1 =
        .error (NewNotFoundError "user" "nonexistent")) ∧
    (∀ ops, ((runProductOps NewProductService ops).1.GetProduct "nonexistent").1 =
        .error (NewNotFoundError "product" "nonexistent")) := by
  have huser : ∀ (ops : List UserOp) (x : String), x ∉ (runUserOps NewUserService ops).2 →
      ((runUserOps NewUserService ops).1.GetUser x).1 = .error (NewNotFoundError "user" x) := by
    intro ops x hx
    rw [getUser_of_absent]
    intro e he hex
    rcases runUserOps_keys ops NewUserService x (hex ▸ List.mem_map_of_mem _ he) with h | h
    · simp [NewUserService] at h
    · exact hx h
  have hprod : ∀ (ops : List ProductOp) (x : String),
      x ∉ (runProductOps NewProductService ops).2 →
      ((runProductOps NewProductService ops).1.GetProduct x).1 =
        .error (NewNotFoundError "product" x) := by
    intro ops x hx
    rw [getProduct_of_absent]
    intro e he hex
    rcases runProductOps_keys ops NewProductService x (hex ▸ List.mem_map_of_mem _ he) with h | h
    · simp [NewProductService] at h
    · exact hx h
  refine ⟨⟨?_, ?_, fun h => getUser_of_absent h, ?_⟩, ⟨?_, ?_, fun h => getProduct_of_absent h, ?_⟩,
    rfl, rfl, fun ops => huser ops id, fun ops => hprod ops id, ?_, ?_⟩
  · intro hn u hu
    simp only [UserService.GetUser, mapGet_of_mem hn hu]
  · intro h
    have := (mapGet_isSome_iff s.users id).2 h
    obtain ⟨u, hu⟩ := Option.isSome_iff_exists.1 this
    exact ⟨u, mem_of_mapGet hu, by simp only [UserService.GetUser, hu]⟩
  · unfold UserService.GetUser
    split <;> rfl
  · intro hn x hx
    simp only [ProductService.GetProduct, mapGet_of_mem hn hx]
  · intro h
    have := (mapGet_isSome_iff p.products id).2 h
    obtain ⟨x, hx⟩ := Option.isSome_iff_exists.1 this
    exact ⟨x, mem_of_mapGet hx, by simp only [ProductService.GetProduct, hx]⟩
  · unfold ProductService.GetProduct
    split <;> rfl
  · intro ops
    apply huser
    rw [(runUserOps_issued ops NewUserService one_inInt64).1]
    exact nonexistent_not_issued _ _
  · intro ops
    apply hprod
    rw [(runProductOps_issued ops NewProductService one_inInt64).1]
    exact nonexistent_not_issued _ _

set_option maxRecDepth 20000 in
/-- C9, an instance: bob is found under "2" in the repository holding alice and bob. -/
theorem C9_get_witness :
    twoUsers.GetUser "2" = (.ok ⟨"2", "bob", "bob@x", "Bob", true, 1, 1⟩, twoUsers) :=
  (C9_get twoUsers NewProductService "2").1.1 (by decide) _ (by decide)

/-- C10. `DeleteUser id` returns a NotFound error and leaves the repository unchanged when
no live user is stored under `id`. When one is, the call succeeds, and in the repository
after it `GetUser id` returns a NotFound error and a second `DeleteUser id` returns a
NotFound error. -/
theorem C10_delete (s : UserService) (id : String) :
    ((∀ e ∈ s.users, e.1 ≠ id) →
      s.DeleteUser id = (some (NewNotFoundError "user" id), s)) ∧
    ((∃ e ∈ s.users, e.1 = id) →
      (s.DeleteUser id).1 = none ∧
      ((s.DeleteUser id).2.GetUser id).1 = .error (NewNotFoundError "user" id) ∧
      ((s.DeleteUser id).2.DeleteUser id).1 = some (NewNotFoundError "user" id)) ∧
    (NewNotFoundError "user" id).Code = ErrCodeNotFound := by
  refine ⟨?_, ?_, rfl⟩
  · intro h
    simp only [UserService.DeleteUser, (mapGet_eq_none_iff _ _).2 h]
  · intro h
    have := (mapGet_isSome_iff s.users id).2 h
    obtain ⟨u, hu⟩ := Option.isSome_iff_exists.1 this
    have hd : s.DeleteUser id = (none, { s with users := mapDelete s.users id }) := by
      simp only [UserService.DeleteUser, hu]
    rw [hd]
    refine ⟨rfl, ?_, ?_⟩
    · simp only [UserService.GetUser, mapGet_mapDelete_same]
    · simp only [UserService.DeleteUser, mapGet_mapDelete_same]

set_option maxRecDepth 20000 in
/-- C10, an instance: deleting alice ("1") from the repository holding alice and bob. -/
theorem C10_delete_witness :
    (twoUsers.DeleteUser "1").1 = none ∧
    ((twoUsers.DeleteUser "1").2.GetUser "1").1 = .error (NewNotFoundError "user" "1") ∧
    ((twoUsers.DeleteUser "1").2.DeleteUser "1").1 = some (NewNotFoundError "user" "1") :=
  (C10_delete twoUsers "1").2.1 ⟨("1", ⟨"1", "alice", "alice@x", "Alice", true, 0, 0⟩),
    by decide, rfl⟩

end GoGrpcRestDemo

namespace GoGrpcRestDemo

/-! ## Pagination -/

theorem wrapInt32_of_in {c : Int} (h : InInt32 c) : wrapInt32 c = c := by
  unfold InInt32 at h
  unfold wrapInt32
  norm_num at h ⊢
  omega

theorem wrapInt32_in (c : Int) : InInt32 (wrapInt32 c) := by
  unfold InInt32 wrapInt32
  norm_num
  omega

theorem wrapInt32_le_of_nonneg {c : Int} (h : 0 ≤ c) : wrapInt32 c ≤ c := by
  unfold wrapInt32
  norm_num
  omega

/-- The resolved page of `paginate`. -/
theorem resolved_page_in {page : Int} (h : InInt32 page) :
    1 ≤ (if page < 1 then 1 else page) ∧ (if page < 1 then 1 else page) < 2 ^ 31 := by
  unfold InInt32 at h
  split
  · norm_num
  · norm_num at h ⊢
    omega

/-- The resolved page size of `paginate`. -/
theorem resolved_size_in {pageSize : Int} (h : InInt32 pageSize) :
    1 ≤ (if pageSize < 1 then 10 else pageSize) ∧
      (if pageSize < 1 then 10 else pageSize) < 2 ^ 31 := by
  unfold InInt32 at h
  split
  · norm_num
  · norm_num at h ⊢
    omega

theorem sliceExpr_some {α : Type} {items : List α} {lo hi : Int} {r : List α}
    (h : sliceExpr items lo hi = some r) :
    0 ≤ lo ∧ lo ≤ hi ∧ hi ≤ (items.length : Int) ∧ r = (items.take hi.toNat).drop lo.toNat := by
  unfold sliceExpr at h
  split at h
  · next hc =>
    cases h
    exact ⟨hc.1, hc.2.1, hc.2.2, rfl⟩
  · cases h

theorem sliceExpr_isSome_length {α β : Type} (items : List α) (others : List β) (lo hi : Int)
    (h : items.length = others.length) :
    (sliceExpr items lo hi).isSome = (sliceExpr others lo hi).isSome := by
  unfold sliceExpr
  rw [h]
  split <;> rfl

/-- The two branches of `paginate`, in terms of the resolved page `p` and page size `s`. -/
theorem paginate_cases {α : Type} (items : List α) (page pageSize : Int) :
    (wrapInt32 (wrapInt32 ((if page < 1 then 1 else page) - 1) *
        (if pageSize < 1 then 10 else pageSize)) ≥ wrapInt32 (items.length : Int) ∧
      paginate items page pageSize =
        some ([], wrapInt32 (items.length : Int), (if page < 1 then 1 else page),
          (if pageSize < 1 then 10 else pageSize))) ∨
    (wrapInt32 (wrapInt32 ((if page < 1 then 1 else page) - 1) *
        (if pageSize < 1 then 10 else pageSize)) < wrapInt32 (items.length : Int) ∧
      paginate items page pageSize =
        (sliceExpr items
          (wrapInt32 (wrapInt32 ((if page < 1 then 1 else page) - 1) *
            (if pageSize < 1 then 10 else pageSize)))
          (min (wrapInt32 (wrapInt32 (wrapInt32 ((if page < 1 then 1 else page) - 1) *
              (if pageSize < 1 then 10 else pageSize)) +
              (if pageSize < 1 then 10 else pageSize)))
            (wrapInt32 (items.length : Int)))).map
          (fun paged => (paged, wrapInt32 (items.length : Int),
            (if page < 1 then 1 else page), (if pageSize < 1 then 10 else pageSize)))) := by
  unfold paginate
  generalize (if page < 1 then 1 else page) = p
  generalize (if pageSize < 1 then 10 else pageSize) = s
  by_cases h : wrapInt32 (wrapInt32 (p - 1) * s) ≥ wrapInt32 (items.length : Int)
  · exact Or.inl ⟨h, by simp only [if_pos h]⟩
  · exact Or.inr ⟨not_le.1 h, by simp only [if_neg h]⟩

/-- The two branches of `paginate` when page and page size are at least 1 and are not
coerced. -/
theorem paginate_cases_pos {α : Type} (items : List α) (page pageSize : Int)
    (h1 : 1 ≤ page) (h2 : 1 ≤ pageSize) :
    (wrapInt32 (wrapInt32 (page - 1) * pageSize) ≥ wrapInt32 (items.length : Int) ∧
      paginate items page pageSize =
        some ([], wrapInt32 (items.length : Int), page, pageSize)) ∨
    (wrapInt32 (wrapInt32 (page - 1) * pageSize) < wrapInt32 (items.length : Int) ∧
      paginate items page pageSize =
        (sliceExpr items (wrapInt32 (wrapInt32 (page - 1) * pageSize))
          (min (wrapInt32 (wrapInt32 (wrapInt32 (page - 1) * pageSize) + pageSize))
            (wrapInt32 (items.length : Int)))).map
          (fun paged => (paged, wrapInt32 (items.length : Int), page, pageSize))) := by
  have := paginate_cases items page pageSize
  rw [if_neg (not_lt.2 h1), if_neg (not_lt.2 h2)] at this
  exact this

/-- Whatever `paginate` returns carries the resolved page, the resolved page size and the
length of the list converted to `int32`. -/
theorem paginate_resolved {α : Type} {items : List α} {page pageSize : Int} {r : Paged α}
    (h : paginate items page pageSize = some r) :
    r.2.1 = wrapInt32 (items.length : Int) ∧
    r.2.2.1 = (if page < 1 then 1 else page) ∧
    r.2.2.2 = (if pageSize < 1 then 10 else pageSize) := by
  rcases paginate_cases items page pageSize with ⟨_, heq⟩ | ⟨_, heq⟩
  · rw [heq] at h
    cases h
    exact ⟨rfl, rfl, rfl⟩
  · rw [heq, Option.map_eq_some'] at h
    obtain ⟨paged, _, rfl⟩ := h
    exact ⟨rfl, rfl, rfl⟩

/-- Every item `paginate` returns is an item of the list. -/
theorem paginate_subset {α : Type} {items : List α} {page pageSize : Int} {r : Paged α}
    (h : paginate items page pageSize = some r) : ∀ x ∈ r.1, x ∈ items := by
  rcases paginate_cases items page pageSize with ⟨_, heq⟩ | ⟨_, heq⟩
  · rw [heq] at h
    cases h
    intro x hx
    simp at hx
  · rw [heq, Option.map_eq_some'] at h
    obtain ⟨paged, hp, rfl⟩ := h
    obtain ⟨_, _, _, rfl⟩ := sliceExpr_some hp
    intro x hx
    exact List.mem_of_mem_take (List.mem_of_mem_drop hx)

/-- The outcome of `paginate` depends on the list only through what the slice expression
cuts out of it: two lists of the same length panic on the same requests. -/
theorem paginate_isSome_length {α β : Type} (items : List α) (others : List β)
    (page pageSize : Int) (h : items.length = others.length) :
    (paginate items page pageSize).isSome = (paginate others page pageSize).isSome := by
  have h1 := paginate_cases items page pageSize
  have h2 := paginate_cases others page pageSize
  rw [h] at h1
  generalize (if page < 1 then 1 else page) = p at h1 h2
  generalize (if pageSize < 1 then 10 else pageSize) = s at h1 h2
  rcases h1 with ⟨c1, e1⟩ | ⟨c1, e1⟩ <;> rcases h2 with ⟨c2, e2⟩ | ⟨c2, e2⟩
  · rw [e1, e2]; rfl
  · exact absurd c1 (not_le.2 c2)
  · exact absurd c2 (not_le.2 c1)
  · rw [e1, e2, Option.isSome_map', Option.isSome_map']
    exact sliceExpr_isSome_length items others _ _ h

/-- `paginate` where no `int32` operation overflows: the list is shorter than `2 ^ 31`,
the product `(p - 1) * s` of the resolved values fits, and the sum `(p - 1) * s + s` fits
unless the page starts past the end of the list. Then the result is the `s` items from
position `(p - 1) * s` on, as far as the list goes. -/
theorem paginate_exact {α : Type} (items : List α) (page pageSize : Int)
    (hp : InInt32 page) (hs : InInt32 pageSize) (hlen : (items.length : Int) < 2 ^ 31)
    (hprod : ((if page < 1 then 1 else page) - 1) * (if pageSize < 1 then 10 else pageSize)
      < 2 ^ 31)
    (hsum : (items.length : Int) ≤
        ((if page < 1 then 1 else page) - 1) * (if pageSize < 1 then 10 else pageSize) ∨
      ((if page < 1 then 1 else page) - 1) * (if pageSize < 1 then 10 else pageSize) +
        (if pageSize < 1 then 10 else pageSize) < 2 ^ 31) :
    paginate items page pageSize =
      some ((items.drop
          (((if page < 1 then 1 else page) - 1) *
            (if pageSize < 1 then 10 else pageSize)).toNat).take
          (if pageSize < 1 then 10 else pageSize).toNat,
        (items.length : Int), (if page < 1 then 1 else page),
        (if pageSize < 1 then 10 else pageSize)) := by
  obtain ⟨hp1, hp2⟩ := resolved_page_in hp
  obtain ⟨hs1, hs2⟩ := resolved_size_in hs
  have hc := paginate_cases items page pageSize
  generalize (if page < 1 then 1 else page) = p at *
  generalize (if pageSize < 1 then 10 else pageSize) = s at *
  have hm0 : 0 ≤ (p - 1) * s := mul_nonneg (by omega) (by omega)
  have hw1 : wrapInt32 (p - 1) = p - 1 := wrapInt32_of_in (by
    unfold InInt32; norm_num at hp2 ⊢; omega)
  have hlen0 : (0 : Int) ≤ items.length := Int.natCast_nonneg _
  have hwl : wrapInt32 (items.length : Int) = items.length := wrapInt32_of_in (by
    unfold InInt32; norm_num at hlen ⊢; omega)
  rw [hw1, hwl] at hc
  generalize hm : (p - 1) * s = m at *
  have hwm : wrapInt32 m = m := wrapInt32_of_in (by
    unfold InInt32; norm_num at hprod ⊢; omega)
  rw [hwm] at hc
  rcases hc with ⟨hge, heq⟩ | ⟨hlt, heq⟩
  · rw [heq]
    have : items.drop m.toNat = [] := List.drop_eq_nil_of_le (by omega)
    rw [this, List.take_nil]
  · rw [heq]
    have hsum2 : m + s < 2 ^ 31 := by
      rcases hsum with h | h
      · exact absurd h (not_le.2 hlt)
      · exact h
    have hws : wrapInt32 (m + s) = m + s := wrapInt32_of_in (by
      unfold InInt32; norm_num at hsum2 ⊢; omega)
    rw [hws]
    unfold sliceExpr
    have hmin1 : m ≤ min (m + s) (items.length : Int) := by
      rw [le_min_iff]; omega
    have hmin2 : min (m + s) (items.length : Int) ≤ (items.length : Int) := min_le_right _ _
    rw [if_pos ⟨hm0, hmin1, hmin2⟩]
    have key : (items.take (min (m + s) (items.length : Int)).toNat).drop m.toNat =
        (items.drop m.toNat).take s.toNat := by
      rw [List.drop_take]
      have hstop : (min (m + s) (items.length : Int)).toNat - m.toNat =
          min s.toNat (items.length - m.toNat) := by
        omega
      rw [hstop, List.take_eq_take, List.length_drop]
      omega
    rw [Option.map_some', key]

end GoGrpcRestDemo

namespace GoGrpcRestDemo

/-- A sorted slice of no elements is empty, whatever the library does. -/
theorem sortSlice_nil (lib : GoLib) {α : Type} (less : α → α → Bool) :
    lib.sortSlice less ([] : List α) = [] :=
  List.Perm.eq_nil (lib.sortSlice_perm less [])

theorem ListUsers_empty (lib : GoLib) (req : ListUsersRequest) :
    (NewUserService.ListUsers lib req).1 = paginate ([] : List User) req.Page req.PageSize := by
  unfold UserService.ListUsers sortUsers
  simp only []
  rw [show NewUserService.filterUsers lib req.Filter = [] from rfl, sortSlice_nil]

/-- C11, at the failing input. With page 65537 and page size 32768, both `int32` values,
the product `(page - 1) * pageSize` is `2 ^ 31` and wraps to `-2147483648`: the start index
is negative, the slice expression panics and `paginate` returns nothing, already on the
empty list; `ListUsers` on the empty repository panics with it. Page 3 with page size
2147483647 does the same to a list of five elements. -/
theorem C11_paginate_panics_on_overflow :
    InInt32 65537 ∧ InInt32 32768 ∧
    wrapInt32 (wrapInt32 (65537 - 1) * 32768) = -2147483648 ∧
    paginate ([] : List User) 65537 32768 = none ∧
    (∀ lib : GoLib, (NewUserService.ListUsers lib ⟨65537, 32768, none, none⟩).1 = none) ∧
    paginate ["a", "b", "c", "d", "e"] 3 2147483647 = none := by
  refine ⟨by decide, by decide, by decide, by decide, ?_, by decide⟩
  intro lib
  rw [ListUsers_empty]
  decide

/-- C12, at the failing input. For a list of five elements, page 65537 and page size 65536
the integer product `(p - 1) * s` is `4294967296`, past the end of the list, so the page
should be empty; the `int32` product wraps to 0 and `paginate` returns the first five
elements. -/
theorem C12_paginate_wrong_page_on_overflow :
    InInt32 65537 ∧ InInt32 65536 ∧
    ((65537 : Int) - 1) * 65536 = 4294967296 ∧
    wrapInt32 (wrapInt32 (65537 - 1) * 65536) = 0 ∧
    paginate ["a", "b", "c", "d", "e"] 65537 65536 =
      some (["a", "b", "c", "d", "e"], 5, 65537, 65536) := by
  decide

/-- `paginate` returns whenever the product of the resolved page and the resolved page
size fits in an `int32`. -/
theorem paginate_returns {α : Type} (items : List α) (page pageSize : Int)
    (hp : InInt32 page) (hs : InInt32 pageSize)
    (hprod : (if page < 1 then 1 else page) * (if pageSize < 1 then 10 else pageSize)
      < 2 ^ 31) :
    ∃ r, paginate items page pageSize = some r := by
  obtain ⟨hp1, hp2⟩ := resolved_page_in hp
  obtain ⟨hs1, hs2⟩ := resolved_size_in hs
  have hc := paginate_cases items page pageSize
  generalize (if page < 1 then 1 else page) = p at *
  generalize (if pageSize < 1 then 10 else pageSize) = s at *
  have hw1 : wrapInt32 (p - 1) = p - 1 := wrapInt32_of_in (by
    unfold InInt32; norm_num at hp2 ⊢; omega)
  have hm0 : 0 ≤ (p - 1) * s := mul_nonneg (by omega) (by omega)
  have hps : (p - 1) * s + s = p * s := by ring
  rw [hw1] at hc
  generalize hm : (p - 1) * s = m at *
  have hwm : wrapInt32 m = m := wrapInt32_of_in (by
    unfold InInt32; norm_num at hprod ⊢; omega)
  have hws : wrapInt32 (m + s) = m + s := wrapInt32_of_in (by
    unfold InInt32; norm_num at hprod ⊢; omega)
  rw [hwm, hws] at hc
  rcases hc with ⟨_, heq⟩ | ⟨hlt, heq⟩
  · exact ⟨_, heq⟩
  · rw [heq]
    unfold sliceExpr
    have hle := wrapInt32_le_of_nonneg (Int.natCast_nonneg items.length)
    have h1 : m ≤ min (m + s) (wrapInt32 (items.length : Int)) := by
      rw [le_min_iff]; omega
    have h2 : min (m + s) (wrapInt32 (items.length : Int)) ≤ (items.length : Int) :=
      le_trans (min_le_right _ _) hle
    rw [if_pos ⟨hm0, h1, h2⟩]
    exact ⟨_, rfl⟩

theorem paginate_nil_default {α : Type} :
    paginate ([] : List α) 1 10 = some ([], 0, 1, 10) := by
  have h0 : wrapInt32 ((([] : List α).length : Nat) : Int) = 0 := by
    rw [List.length_nil]
    decide
  rcases paginate_cases ([] : List α) 1 10 with ⟨_, h⟩ | ⟨hlt, _⟩
  · rw [h, h0]
    rfl
  · rw [h0] at hlt
    exact absurd hlt (by decide)

/-- C13 (amended). Whenever `paginate` returns, the resolved page is 1 when page < 1 and
page otherwise, the resolved page size is 10 when page size < 1 and page size otherwise,
and the total is the length of the list converted to `int32`, which is the length when
that is below `2 ^ 31`; this holds on both return paths. `paginate` returns whenever
page and page size are `int32` values and the product of the resolved page and the
resolved page size is below `2 ^ 31`. On an empty list with page 1 and page size 10 it
returns an empty page, total 0, page 1 and page size 10. -/
theorem C13_resolved_parameters {α : Type} (items : List α) (page pageSize : Int) :
    (∀ r, paginate items page pageSize = some r →
      r.2.2.1 = (if page < 1 then 1 else page) ∧
      r.2.2.2 = (if pageSize < 1 then 10 else pageSize) ∧
      r.2.1 = wrapInt32 (items.length : Int) ∧
      ((items.length : Int) < 2 ^ 31 → r.2.1 = (items.length : Int))) ∧
    (InInt32 page → InInt32 pageSize →
      (if page < 1 then 1 else page) * (if pageSize < 1 then 10 else pageSize) < 2 ^ 31 →
      ∃ r, paginate items page pageSize = some r) ∧
    paginate ([] : List α) 1 10 = some ([], 0, 1, 10) := by
  refine ⟨?_, paginate_returns items page pageSize, paginate_nil_default⟩
  intro r h
  obtain ⟨h1, h2, h3⟩ := paginate_resolved h
  refine ⟨h2, h3, h1, fun hlen => ?_⟩
  rw [h1]
  exact wrapInt32_of_in (by
    unfold InInt32
    have := Int.natCast_nonneg items.length
    norm_num at hlen ⊢
    omega)

/-- C13, an instance: page 0 and page size 0 on five elements resolve to 1 and 10. -/
theorem C13_resolved_parameters_witness :
    ∃ r, paginate [1, 2, 3, 4, 5] 0 0 = some r ∧ r.2.2.1 = 1 ∧ r.2.2.2 = 10 ∧ r.2.1 = 5 := by
  obtain ⟨r, hr⟩ := (C13_resolved_parameters [1, 2, 3, 4, 5] 0 0).2.1 (by decide) (by decide)
    (by decide)
  obtain ⟨h1, h2, _, h4⟩ := (C13_resolved_parameters [1, 2, 3, 4, 5] 0 0).1 r hr
  exact ⟨r, hr, h1, h2, h4 (by decide)⟩

/-- A list whose length, converted to `int32`, is not positive is reported with that
converted length as its total, and the first page of it is empty. -/
theorem paginate_truncated_total {α : Type} (items : List α) (t : Int)
    (ht : wrapInt32 (items.length : Int) = t) (h0 : t ≤ 0) :
    paginate items 1 10 = some ([], t, 1, 10) := by
  rcases paginate_cases items 1 10 with ⟨_, heq⟩ | ⟨hlt, _⟩
  · rw [heq, ht]
    rfl
  · rw [ht] at hlt
    have : wrapInt32 (wrapInt32 ((if (1 : Int) < 1 then 1 else 1) - 1) *
        (if (10 : Int) < 1 then 10 else 10)) = 0 := by decide
    rw [this] at hlt
    omega

/-- C13 as stated fails. With page 65537 and page size 32768 `paginate` returns nothing
(the panic of C11), so no resolved values either; and for a list of `2 ^ 31` elements the
total it returns is `-2147483648`, not the length. -/
theorem C13_counterexample :
    paginate ([] : List Unit) 65537 32768 = none ∧
    paginate (List.replicate (2 ^ 31) ()) 1 10 = some ([], -2147483648, 1, 10) ∧
    (List.replicate (2 ^ 31) ()).length = 2 ^ 31 :=
  ⟨by decide,
    paginate_truncated_total _ (-2147483648)
      (by rw [List.length_replicate]; unfold wrapInt32; norm_num) (by norm_num),
    List.length_replicate _ _⟩

end GoGrpcRestDemo

namespace GoGrpcRestDemo

/-! ## Listing users -/

theorem filterUsers_none (lib : GoLib) (s : UserService) :
    s.filterUsers lib none = s.users.map Prod.snd := by
  unfold UserService.filterUsers filterToken
  simp only [ne_eq, not_true_eq_false, false_and, if_false]
  induction s.users with
  | nil => rfl
  | cons e l ih => simp [List.filterMap_cons, ih]

theorem matchesFilter_eq (lib : GoLib) (u : User) (tok : String) :
    matchesFilter lib u tok =
      (decide (tok.data <:+: (lib.ToLower u.Username).data) ||
        decide (tok.data <:+: (lib.ToLower u.Email).data) ||
        decide (tok.data <:+: (lib.ToLower u.FullName).data)) := rfl

/-- The users `filterUsers` selects are the live users that match in the sense of the
specification, in the order of the map. -/
theorem filterUsers_eq_filter (lib : GoLib) (s : UserService) (filter : Option String) :
    s.filterUsers lib filter = (s.users.map Prod.snd).filter (userMatchesSpec lib filter) := by
  cases filter with
  | none =>
    rw [filterUsers_none]
    exact (List.filter_eq_self.2 (fun u _ => rfl)).symm
  | some f =>
    unfold UserService.filterUsers filterToken
    induction s.users with
    | nil => rfl
    | cons e l ih =>
      rw [List.filterMap_cons, List.map_cons, List.filter_cons, ih]
      by_cases h0 : lib.ToLower f = ""
      · simp [userMatchesSpec, h0]
      · cases hm : matchesFilter lib e.2 (lib.ToLower f) with
        | true =>
          have : userMatchesSpec lib (some f) e.2 = true := by
            rw [matchesFilter_eq] at hm
            simp only [userMatchesSpec, Bool.or_assoc] at hm ⊢
            rw [hm]
            simp
          simp [this]
        | false =>
          have : userMatchesSpec lib (some f) e.2 = false := by
            rw [matchesFilter_eq] at hm
            simp only [userMatchesSpec, Bool.or_assoc] at hm ⊢
            rw [hm]
            simp [h0]
          simp [this, h0]

theorem sortUsers_perm (lib : GoLib) (users : List User) (sortBy : Option String) :
    (sortUsers lib users sortBy).Perm users :=
  lib.sortSlice_perm _ users

theorem sortUsers_length (lib : GoLib) (users : List User) (sortBy : Option String) :
    (sortUsers lib users sortBy).length = users.length :=
  (sortUsers_perm lib users sortBy).length_eq

theorem ListUsers_fst (lib : GoLib) (s : UserService) (req : ListUsersRequest) :
    (s.ListUsers lib req).1 =
      paginate (sortUsers lib (s.filterUsers lib req.Filter) req.SortBy) req.Page req.PageSize :=
  rfl

theorem ListUsers_snd (lib : GoLib) (s : UserService) (req : ListUsersRequest) :
    (s.ListUsers lib req).2 = s := rfl

end GoGrpcRestDemo

namespace GoGrpcRestDemo

/-- With more than `2 ^ 30` and fewer than `2 ^ 31` items, page 2 with page size `2 ^ 30`
starts inside the list, the sum `start + pageSize` wraps to a negative number and the slice
expression panics. -/
theorem paginate_sum_overflow {α : Type} (items : List α)
    (h1 : (2 : Int) ^ 30 < (items.length : Int)) (h2 : (items.length : Int) < 2 ^ 31) :
    paginate items 2 (2 ^ 30) = none := by
  have hwl : wrapInt32 (items.length : Int) = items.length := wrapInt32_of_in (by
    unfold InInt32; norm_num at h1 h2 ⊢; omega)
  have e3 : wrapInt32 (wrapInt32 (2 - 1) * 2 ^ 30) = 2 ^ 30 := by decide
  have e4 : wrapInt32 ((2 : Int) ^ 30 + 2 ^ 30) = -2 ^ 31 := by decide
  rcases paginate_cases_pos items 2 (2 ^ 30) (by norm_num) (by norm_num) with
    ⟨hge, _⟩ | ⟨_, heq⟩
  · rw [e3, hwl] at hge
    omega
  · rw [heq, e3, e4, hwl]
    unfold sliceExpr
    rw [if_neg]
    · rfl
    · rintro ⟨_, h, _⟩
      rw [le_min_iff] at h
      norm_num at h

theorem manyUsers_length (n : Nat) : (manyUsers n).users.length = n := by
  simp [manyUsers]

theorem manyUsers_inv (n : Nat) : (manyUsers n).Inv := by
  have hinj : ∀ a b : Nat, FormatInt ((a : Int) + 1) = FormatInt ((b : Int) + 1) → a = b := by
    intro a b h
    have := FormatInt_injective h
    omega
  refine ⟨⟨?_, ?_⟩, ?_⟩
  · simp only [manyUsers, List.map_map]
    exact List.Nodup.map_on (fun a _ b _ h => hinj a b h) (List.nodup_range n)
  · intro e he
    simp only [manyUsers, List.mem_map] at he
    obtain ⟨k, _, rfl⟩ := he
    rfl
  · intro e₁ h₁ e₂ h₂ hne
    simp only [manyUsers, List.mem_map] at h₁ h₂
    obtain ⟨a, _, rfl⟩ := h₁
    obtain ⟨b, _, rfl⟩ := h₂
    exact ⟨hne, hne⟩

/-- Listing without a filter paginates a permutation of all live users. -/
theorem ListUsers_unfiltered_length (lib : GoLib) (s : UserService) (sortBy : Option String) :
    (sortUsers lib (s.filterUsers lib none) sortBy).length = s.users.length := by
  rw [sortUsers_length, filterUsers_none, List.length_map]

/-- Page sizes without overflow. For a user repository with n <= 2 ^ 30 live users, `ListUsers` with no
filter, page p >= 1 and page size s >= 1, both `int32` values with (p - 1) * s below
`2 ^ 31`, returns total = n, page = p, page size = s and exactly
min(s, max(0, n - (p - 1) * s)) users; for n = 5 and s = 3 this is 3, 2 and 0 users for
p = 1, 2 and 3. -/
theorem ListUsers_page_sizes (lib : GoLib) (s : UserService) (sortBy : Option String)
    (hn : s.users.length ≤ 2 ^ 30) :
    (∀ p ps : Int, 1 ≤ p → 1 ≤ ps → InInt32 p → InInt32 ps → (p - 1) * ps < 2 ^ 31 →
      ∃ page, s.ListUsers lib ⟨p, ps, sortBy, none⟩ =
          (some (page, (s.users.length : Int), p, ps), s) ∧
        (page.length : Int) = min ps (max 0 ((s.users.length : Int) - (p - 1) * ps))) ∧
    (s.users.length = 5 →
      ∃ p1 p2 p3, s.ListUsers lib ⟨1, 3, sortBy, none⟩ = (some (p1, 5, 1, 3), s) ∧
        s.ListUsers lib ⟨2, 3, sortBy, none⟩ = (some (p2, 5, 2, 3), s) ∧
        s.ListUsers lib ⟨3, 3, sortBy, none⟩ = (some (p3, 5, 3, 3), s) ∧
        p1.length = 3 ∧ p2.length = 2 ∧ p3.length = 0) := by
  have main : ∀ p ps : Int, 1 ≤ p → 1 ≤ ps → InInt32 p → InInt32 ps → (p - 1) * ps < 2 ^ 31 →
      ∃ page, s.ListUsers lib ⟨p, ps, sortBy, none⟩ =
          (some (page, (s.users.length : Int), p, ps), s) ∧
        (page.length : Int) = min ps (max 0 ((s.users.length : Int) - (p - 1) * ps)) := by
    intro p ps hp1 hs1 hp hs hprod
    have hlen := ListUsers_unfiltered_length lib s sortBy
    have hnI : (s.users.length : Int) ≤ 2 ^ 30 := by exact_mod_cast hn
    have e1 : (if p < 1 then 1 else p) = p := if_neg (by omega)
    have e2 : (if ps < 1 then 10 else ps) = ps := if_neg (by omega)
    have hm0 : 0 ≤ (p - 1) * ps := mul_nonneg (by omega) (by omega)
    have hps2 : ps < 2 ^ 31 := hs.2
    have hsum : (s.users.length : Int) ≤ (p - 1) * ps ∨ (p - 1) * ps + ps < 2 ^ 31 := by
      by_cases hlt : (s.users.length : Int) ≤ (p - 1) * ps
      · exact Or.inl hlt
      · right
        rcases eq_or_lt_of_le hp1 with h | h
        · rw [← h]
          norm_num at hps2 ⊢
          omega
        · have : ps ≤ (p - 1) * ps := le_mul_of_one_le_left (by omega) (by omega)
          norm_num at hnI ⊢
          omega
    have key := paginate_exact (sortUsers lib (s.filterUsers lib none) sortBy) p ps hp hs
      (by rw [hlen]; norm_num at hnI ⊢; omega) (by rw [e1, e2]; exact hprod)
      (by rw [e1, e2, hlen]; exact hsum)
    rw [e1, e2, hlen] at key
    refine ⟨_, Prod.ext ((ListUsers_fst lib s _).trans key) rfl, ?_⟩
    rw [List.length_take, List.length_drop, hlen]
    generalize (p - 1) * ps = m at *
    omega
  refine ⟨main, fun h5 => ?_⟩
  obtain ⟨p1, h1, l1⟩ := main 1 3 (by norm_num) (by norm_num) (by decide) (by decide)
    (by norm_num)
  obtain ⟨p2, h2, l2⟩ := main 2 3 (by norm_num) (by norm_num) (by decide) (by decide)
    (by norm_num)
  obtain ⟨p3, h3, l3⟩ := main 3 3 (by norm_num) (by norm_num) (by decide) (by decide)
    (by norm_num)
  rw [h5] at h1 h2 h3 l1 l2 l3
  have q1 : (p1.length : Int) = 3 := by rw [l1]; norm_num
  have q2 : (p2.length : Int) = 2 := by rw [l2]; norm_num
  have q3 : (p3.length : Int) = 0 := by rw [l3]; norm_num
  exact ⟨p1, p2, p3, h1, h2, h3, by exact_mod_cast q1, by exact_mod_cast q2,
    by exact_mod_cast q3⟩

set_option maxRecDepth 20000 in
/-- The five users of `TestListUsers`, page 2 of size 3. -/
theorem ListUsers_page_sizes_five :
    ∃ page, fiveUsers.ListUsers plainLib ⟨2, 3, none, none⟩ =
        (some (page, (fiveUsers.users.length : Int), 2, 3), fiveUsers) ∧
      (page.length : Int) = min 3 (max 0 ((fiveUsers.users.length : Int) - (2 - 1) * 3)) :=
  (ListUsers_page_sizes plainLib fiveUsers none
    (le_trans (le_of_eq (by rfl : fiveUsers.users.length = 5)) (by norm_num))).1 2 3
    (by norm_num) (by norm_num) (by decide) (by decide) (by norm_num)

/-- The panic of the sum `start + pageSize`, for any repository of more than `2 ^ 30` and
fewer than `2 ^ 31` users. -/
theorem ListUsers_sum_overflow (lib : GoLib) (n : Nat) (h1 : (2 : Int) ^ 30 < (n : Int))
    (h2 : (n : Int) < 2 ^ 31) :
    ((manyUsers n).ListUsers lib ⟨2, 2 ^ 30, none, none⟩).1 = none := by
  rw [ListUsers_fst]
  apply paginate_sum_overflow
  · rw [ListUsers_unfiltered_length, manyUsers_length]; exact h1
  · rw [ListUsers_unfiltered_length, manyUsers_length]; exact h2

/-- C14, at the failing input. In a repository with n = 2 ^ 30 + 1 live users, page 2 with
page size 2 ^ 30 satisfies the conditions of the claim ((p - 1) * s = 2 ^ 30 fits in an
`int32`), and one user should be returned; `start + pageSize` wraps, the slice expression
panics and `ListUsers` returns nothing. -/
theorem C14_listing_panics_on_overflow :
    (manyUsers (2 ^ 30 + 1)).users.length = 2 ^ 30 + 1 ∧
    (manyUsers (2 ^ 30 + 1)).Inv ∧
    InInt32 2 ∧ InInt32 (2 ^ 30) ∧ ((2 : Int) - 1) * 2 ^ 30 < 2 ^ 31 ∧
    ((manyUsers (2 ^ 30 + 1)).ListUsers plainLib ⟨2, 2 ^ 30, none, none⟩).1 = none :=
  ⟨manyUsers_length _, manyUsers_inv _, by decide, by decide, by norm_num,
    ListUsers_sum_overflow plainLib (2 ^ 30 + 1) (by norm_num) (by norm_num)⟩

end GoGrpcRestDemo

namespace GoGrpcRestDemo

/-- `ListUsers` returns whenever the product of the resolved page and page size fits. -/
theorem ListUsers_returns (lib : GoLib) (s : UserService) (req : ListUsersRequest)
    (hp : InInt32 req.Page) (hs : InInt32 req.PageSize)
    (hprod : (if req.Page < 1 then 1 else req.Page) *
      (if req.PageSize < 1 then 10 else req.PageSize) < 2 ^ 31) :
    ∃ r, (s.ListUsers lib req).1 = some r :=
  paginate_returns _ req.Page req.PageSize hp hs hprod

/-- C15 (amended). The users `ListUsers` selects are exactly the live users that match the
filter, where a user matches iff the filter is absent, or the lower-cased token is empty, or
the lower-cased token is a substring of the lower-cased username, email or full name.
Whenever `ListUsers` returns, the total is the number of these users converted to `int32`,
which is that number when it is below `2 ^ 31`, and every user on the page is a live user
that matches. `ListUsers` returns whenever page and page size are `int32` values and the
product of the resolved page and the resolved page size is below `2 ^ 31`. -/
theorem C15_filter_semantics (lib : GoLib) (s : UserService) (req : ListUsersRequest) :
    s.filterUsers lib req.Filter =
      (s.users.map Prod.snd).filter (userMatchesSpec lib req.Filter) ∧
    (∀ r, (s.ListUsers lib req).1 = some r →
      r.2.1 = wrapInt32
        (((s.users.map Prod.snd).filter (userMatchesSpec lib req.Filter)).length : Int) ∧
      ((((s.users.map Prod.snd).filter (userMatchesSpec lib req.Filter)).length : Int)
          < 2 ^ 31 →
        r.2.1 = (((s.users.map Prod.snd).filter (userMatchesSpec lib req.Filter)).length
          : Int)) ∧
      ∀ u ∈ r.1, userMatchesSpec lib req.Filter u = true ∧ ∃ e ∈ s.users, e.2 = u) ∧
    (InInt32 req.Page → InInt32 req.PageSize →
      (if req.Page < 1 then 1 else req.Page) *
        (if req.PageSize < 1 then 10 else req.PageSize) < 2 ^ 31 →
      ∃ r, (s.ListUsers lib req).1 = some r) := by
  refine ⟨filterUsers_eq_filter lib s req.Filter, ?_, ListUsers_returns lib s req⟩
  intro r hr
  rw [ListUsers_fst] at hr
  obtain ⟨h1, _, _⟩ := paginate_resolved hr
  rw [sortUsers_length, filterUsers_eq_filter] at h1
  refine ⟨h1, fun hlt => ?_, ?_⟩
  · rw [h1]
    exact wrapInt32_of_in (by
      unfold InInt32
      have := Int.natCast_nonneg
        ((s.users.map Prod.snd).filter (userMatchesSpec lib req.Filter)).length
      norm_num at hlt ⊢
      omega)
  · intro u hu
    have hmem := (sortUsers_perm lib _ req.SortBy).mem_iff.1 (paginate_subset hr u hu)
    rw [filterUsers_eq_filter, List.mem_filter, List.mem_map] at hmem
    obtain ⟨⟨e, he, rfl⟩, hm⟩ := hmem
    exact ⟨hm, e, he, rfl⟩

set_option maxRecDepth 20000 in
/-- C15, an instance: the filter "ALICE" on alice, bob and charlie. -/
theorem C15_filter_semantics_witness :
    ∃ r, (seededUsers.ListUsers plainLib ⟨1, 10, none, some "ALICE"⟩).1 = some r ∧
      r.2.1 = 1 ∧ ∀ u ∈ r.1, userMatchesSpec plainLib (some "ALICE") u = true := by
  obtain ⟨r, hr⟩ := (C15_filter_semantics plainLib seededUsers
    ⟨1, 10, none, some "ALICE"⟩).2.2 (by decide) (by decide) (by decide)
  obtain ⟨_, h2, h3⟩ := (C15_filter_semantics plainLib seededUsers
    ⟨1, 10, none, some "ALICE"⟩).2.1 r hr
  exact ⟨r, hr, (h2 (by decide)).trans (by decide), fun u hu => (h3 u hu).1⟩

/-- A repository whose number of users, converted to `int32`, is not positive is listed
with that converted number as total. -/
theorem ListUsers_truncated (lib : GoLib) (n : Nat) (t : Int)
    (ht : wrapInt32 (n : Int) = t) (h0 : t ≤ 0) :
    ((manyUsers n).ListUsers lib ⟨1, 10, none, none⟩).1 = some ([], t, 1, 10) := by
  rw [ListUsers_fst]
  apply paginate_truncated_total
  · rw [ListUsers_unfiltered_length, manyUsers_length]
    exact ht
  · exact h0

theorem manyUsers_all_match (lib : GoLib) (n : Nat) :
    (((manyUsers n).users.map Prod.snd).filter (userMatchesSpec lib none)).length = n := by
  have h : ((manyUsers n).users.map Prod.snd).filter (userMatchesSpec lib none) =
      (manyUsers n).users.map Prod.snd := List.filter_eq_self.2 (fun u _ => rfl)
  rw [h, List.length_map, manyUsers_length]

/-- C15 as stated fails. A repository with `2 ^ 31` live users, all of which match the
absent filter, is listed with a total of `-2147483648` and an empty first page; and a
request with page 65537 and page size 32768 returns no total at all (the panic of C11). -/
theorem C15_counterexample :
    (((manyUsers (2 ^ 31)).users.map Prod.snd).filter (userMatchesSpec plainLib none)).length
      = 2 ^ 31 ∧
    ((manyUsers (2 ^ 31)).ListUsers plainLib ⟨1, 10, none, none⟩).1 =
      some ([], -2147483648, 1, 10) ∧
    (NewUserService.ListUsers plainLib ⟨65537, 32768, none, none⟩).1 = none :=
  ⟨manyUsers_all_match plainLib (2 ^ 31),
    ListUsers_truncated plainLib (2 ^ 31) (-2147483648) (by unfold wrapInt32; norm_num)
      (by norm_num),
    (ListUsers_empty plainLib _).trans (by decide)⟩

/-! ## Case-insensitivity of the user filter -/

theorem ToLower_ascii (lib : GoLib) {s : String} (h : IsAscii s) :
    lib.ToLower s = plainLib.ToLower s := by
  unfold GoLib.ToLower
  congr 1
  apply List.map_congr_left
  intro c hc
  exact lib.toLowerRune_ascii c (h c hc)

theorem matchesFilter_ascii (lib : GoLib) {u : User} (h : u.IsAscii) (tok : String) :
    matchesFilter lib u tok = matchesFilter plainLib u tok := by
  unfold matchesFilter
  rw [ToLower_ascii lib h.1, ToLower_ascii lib h.2.1, ToLower_ascii lib h.2.2]

theorem filterUsers_ascii (lib : GoLib) (s : UserService) (f : String)
    (hs : ∀ e ∈ s.users, e.2.IsAscii) (hf : IsAscii f) :
    s.filterUsers lib (some f) = s.filterUsers plainLib (some f) := by
  unfold UserService.filterUsers filterToken
  simp only [ToLower_ascii lib hf]
  apply List.filterMap_congr
  intro e he
  rw [matchesFilter_ascii lib (hs e he)]

theorem sortUsers_singleton (lib : GoLib) (u : User) (sortBy : Option String) :
    sortUsers lib [u] sortBy = [u] :=
  List.perm_singleton.1 (sortUsers_perm lib [u] sortBy)

set_option maxRecDepth 20000 in
theorem seededUsers_ascii : ∀ e ∈ seededUsers.users, e.2.IsAscii := by decide

theorem ListUsers_mk (lib : GoLib) (s : UserService) (p ps : Int) (sb f : Option String) :
    s.ListUsers lib ⟨p, ps, sb, f⟩ =
      (paginate (sortUsers lib (s.filterUsers lib f) sb) p ps, s) := rfl

set_option maxRecDepth 20000 in
theorem seeded_select_alice :
    seededUsers.filterUsers plainLib (some "alice") = [seededAlice] ∧
    seededUsers.filterUsers plainLib (some "ALICE") = [seededAlice] ∧
    seededUsers.filterUsers plainLib (some "Alice") = [seededAlice] := by
  decide

theorem paginate_alice : paginate [seededAlice] 1 10 = some ([seededAlice], 1, 1, 10) := by
  decide

/-- The three spellings of the token select alice alone from the seeded users. -/
theorem seeded_alice_only (lib : GoLib) (tok : String)
    (h : tok = "alice" ∨ tok = "ALICE" ∨ tok = "Alice") :
    seededUsers.ListUsers lib ⟨1, 10, none, some tok⟩ =
      (some ([seededAlice], 1, 1, 10), seededUsers) := by
  have hf : IsAscii tok := by
    rcases h with h | h | h <;> rw [h] <;> decide
  have hsel : seededUsers.filterUsers plainLib (some tok) = [seededAlice] := by
    rcases h with h | h | h <;> rw [h]
    · exact seeded_select_alice.1
    · exact seeded_select_alice.2.1
    · exact seeded_select_alice.2.2
  rw [ListUsers_mk, filterUsers_ascii lib seededUsers tok seededUsers_ascii hf, hsel,
    sortUsers_singleton, paginate_alice]

/-- C16. Whether a user matches depends on the filter token only through its lower-case
form, and on the stored username, email and full name only through their lower-case forms:
two tokens with the same lower-case form select the same live users and give the same
result of `ListUsers`, total included; two users whose three fields agree after
lower-casing match the same tokens. On the seeded users alice, bob and charlie each of the
tokens "alice", "ALICE" and "Alice" yields exactly one match, alice, with total 1. -/
theorem C16_filter_case_insensitive (lib : GoLib) (s : UserService) (req : ListUsersRequest) :
    (∀ f₁ f₂ : String, lib.ToLower f₁ = lib.ToLower f₂ →
      s.filterUsers lib (some f₁) = s.filterUsers lib (some f₂) ∧
      s.ListUsers lib { req with Filter := some f₁ } =
        s.ListUsers lib { req with Filter := some f₂ } ∧
      ∀ u, userMatchesSpec lib (some f₁) u = userMatchesSpec lib (some f₂) u) ∧
    (∀ u₁ u₂ : User, lib.ToLower u₁.Username = lib.ToLower u₂.Username →
      lib.ToLower u₁.Email = lib.ToLower u₂.Email →
      lib.ToLower u₁.FullName = lib.ToLower u₂.FullName →
      (∀ f, userMatchesSpec lib f u₁ = userMatchesSpec lib f u₂) ∧
      ∀ tok, matchesFilter lib u₁ tok = matchesFilter lib u₂ tok) ∧
    (∀ tok, tok = "alice" ∨ tok = "ALICE" ∨ tok = "Alice" →
      seededUsers.ListUsers lib ⟨1, 10, none, some tok⟩ =
        (some ([seededAlice], 1, 1, 10), seededUsers)) := by
  refine ⟨?_, ?_, seeded_alice_only lib⟩
  · intro f₁ f₂ h
    have hsel : s.filterUsers lib (some f₁) = s.filterUsers lib (some f₂) := by
      unfold UserService.filterUsers filterToken
      simp only [h]
    refine ⟨hsel, ?_, ?_⟩
    · unfold UserService.ListUsers
      simp only [hsel]
    · intro u
      simp only [userMatchesSpec, h]
  · intro u₁ u₂ h1 h2 h3
    constructor
    · intro f
      cases f with
      | none => rfl
      | some f => simp only [userMatchesSpec, h1, h2, h3]
    · intro tok
      simp only [matchesFilter, h1, h2, h3]

end GoGrpcRestDemo

namespace GoGrpcRestDemo

/-! ## Orderings -/

theorem strLess_iff (a b : String) : strLess a b = true ↔ a < b := by
  unfold strLess
  rw [decide_eq_true_iff]
  exact String.lt_iff_toList_lt.symm

theorem strLess_false_iff (a b : String) : strLess b a = false ↔ a ≤ b := by
  rw [← not_lt, ← strLess_iff, Bool.not_eq_true]

/-- A `less` that compares a key in a linear order meets the requirement of `sort`. -/
theorem lessOK_of_key {α κ : Type} [LinearOrder κ] (key : α → κ) (less : α → α → Bool)
    (h : ∀ a b, less a b = true ↔ key a < key b) : LessOK less := by
  have hf : ∀ a b, less a b = false ↔ key b ≤ key a := by
    intro a b
    rw [← not_lt, ← h, Bool.not_eq_true]
  refine ⟨fun a => ?_, fun a b c hab hbc => ?_, fun a b c hab hbc => ?_⟩
  · rw [hf]
  · rw [h] at hab hbc ⊢
    exact lt_trans hab hbc
  · rw [hf] at hab hbc ⊢
    exact le_trans hbc hab

theorem userLess_ok (field : String) : LessOK (userLess field) := by
  unfold userLess
  by_cases h1 : field = "username"
  · simp only [if_pos h1]
    exact lessOK_of_key User.Username _ (fun a b => strLess_iff _ _)
  · by_cases h2 : field = "email"
    · simp only [if_neg h1, if_pos h2]
      exact lessOK_of_key User.Email _ (fun a b => strLess_iff _ _)
    · by_cases h3 : field = "full_name"
      · simp only [if_neg h1, if_neg h2, if_pos h3]
        exact lessOK_of_key User.FullName _ (fun a b => strLess_iff _ _)
      · by_cases h4 : field = "created_at"
        · simp only [if_neg h1, if_neg h2, if_neg h3, if_pos h4]
          exact lessOK_of_key User.CreatedAt _ (fun a b => decide_eq_true_iff)
        · simp only [if_neg h1, if_neg h2, if_neg h3, if_neg h4]
          exact lessOK_of_key User.ID _ (fun a b => strLess_iff _ _)

/-- What `less b a = false` says for the closure of `sortUsers`. -/
theorem userLess_false_iff (sortBy : Option String) (a b : User) :
    userLess (sortField sortBy) b a = false ↔ userSortedBy sortBy a b := by
  have hs : ∀ f : String, sortField (some f) = if f ≠ "" then f else "id" := fun f => rfl
  have hint : ∀ x y : Int, decide (y < x) = false ↔ x ≤ y := by
    intro x y
    rw [decide_eq_false_iff_not, not_lt]
  unfold userLess userSortedBy
  cases sortBy with
  | none =>
    have e : sortField none = "id" := rfl
    rw [e]
    simp only [show ¬ ("id" = "username") by decide, show ¬ ("id" = "email") by decide,
      show ¬ ("id" = "full_name") by decide, show ¬ ("id" = "created_at") by decide,
      if_false, reduceCtorEq]
    exact strLess_false_iff _ _
  | some f =>
    rw [hs]
    by_cases h0 : f = ""
    · subst h0
      simp only [ne_eq, not_true_eq_false, if_false,
        show ¬ ("id" = "username") by decide, show ¬ ("id" = "email") by decide,
        show ¬ ("id" = "full_name") by decide, show ¬ ("id" = "created_at") by decide,
        Option.some.injEq, show ¬ ("" = "username") by decide,
        show ¬ ("" = "email") by decide, show ¬ ("" = "full_name") by decide,
        show ¬ ("" = "created_at") by decide]
      exact strLess_false_iff _ _
    · simp only [ne_eq, h0, not_false_eq_true, if_true, Option.some.injEq]
      by_cases h1 : f = "username"
      · simp only [if_pos h1]
        exact strLess_false_iff _ _
      · by_cases h2 : f = "email"
        · simp only [if_neg h1, if_pos h2]
          exact strLess_false_iff _ _
        · by_cases h3 : f = "full_name"
          · simp only [if_neg h1, if_neg h2, if_pos h3]
            exact strLess_false_iff _ _
          · by_cases h4 : f = "created_at"
            · simp only [if_neg h1, if_neg h2, if_neg h3, if_pos h4]
              exact hint _ _
            · simp only [if_neg h1, if_neg h2, if_neg h3, if_neg h4]
              exact strLess_false_iff _ _

theorem sortUsers_sorted (lib : GoLib) (users : List User) (sortBy : Option String) :
    (sortUsers lib users sortBy).Pairwise (userSortedBy sortBy) := by
  have := lib.sortSlice_sorted (userLess (sortField sortBy)) users (userLess_ok _)
  exact this.imp (fun {a b} h => (userLess_false_iff sortBy a b).1 h)

end GoGrpcRestDemo

namespace GoGrpcRestDemo

theorem ten_before_two : ¬ (("2" : String) ≤ "10") := by
  rw [not_le, String.lt_iff_toList_lt]
  decide

/-- A list that is a permutation of two different elements and puts them in an order that
excludes `a` before `b` is `[b, a]`. -/
theorem perm_pair_sorted {α : Type} {r : α → α → Prop} {a b : α} {l : List α}
    (hp : l.Perm [a, b]) (hs : l.Pairwise r) (hab : ¬ r a b) : l = [b, a] := by
  have hlen := hp.length_eq
  match l, hlen with
  | [x, y], _ =>
    have hx : x ∈ [a, b] := hp.subset (List.mem_cons_self _ _)
    have hy : y ∈ [a, b] := hp.subset (List.mem_cons_of_mem _ (List.mem_cons_self _ _))
    have ha : a ∈ [x, y] := hp.symm.subset (List.mem_cons_self _ _)
    have hb : b ∈ [x, y] := hp.symm.subset (List.mem_cons_of_mem _ (List.mem_cons_self _ _))
    have hr : r x y := by
      rw [List.pairwise_cons] at hs
      exact hs.1 y (List.mem_cons_self _ _)
    simp only [List.mem_cons, List.mem_singleton, List.not_mem_nil, or_false] at hx hy ha hb
    rcases hx with rfl | rfl
    · rcases hy with rfl | rfl
      · rcases hb with rfl | rfl <;> exact absurd hr hab
      · exact absurd hr hab
    · rcases hy with rfl | rfl
      · rfl
      · rcases ha with rfl | rfl <;> rfl

theorem paginate_ten_two :
    paginate [userTen, userTwo] 1 10 = some ([userTen, userTwo], 2, 1, 10) := by
  decide

set_option maxRecDepth 100000 in
theorem twoAndTen_reachable : (runUserOps NewUserService tenOps).1 = twoAndTen := by
  decide

/-- For every `ListUsers` request the outcome is that of `paginate`, for the requested
page and page size, on a sequence that is a permutation of the matching live users and is
sorted in non-decreasing order of the selected key: username, email or full_name in the
order of strings, or created_at in the order of time, when `sort_by` is that name, and
otherwise (absent, empty, any other string) the identifier in the order of strings. The
identifier is compared as a string and not as a number: in the repository left by ten
creates and the deletion of all users but "2" and "10", the listing is the user "10"
followed by the user "2". -/
theorem ListUsers_sorted_perm (lib : GoLib) (s : UserService) (req : ListUsersRequest) :
    (∃ seq : List User,
      seq.Perm ((s.users.map Prod.snd).filter (userMatchesSpec lib req.Filter)) ∧
      seq.Pairwise (userSortedBy req.SortBy) ∧
      (s.ListUsers lib req).1 = paginate seq req.Page req.PageSize) ∧
    (∀ a b : User,
      (userSortedBy (some "username") a b ↔ a.Username ≤ b.Username) ∧
      (userSortedBy (some "email") a b ↔ a.Email ≤ b.Email) ∧
      (userSortedBy (some "full_name") a b ↔ a.FullName ≤ b.FullName) ∧
      (userSortedBy (some "created_at") a b ↔ a.CreatedAt ≤ b.CreatedAt) ∧
      (userSortedBy none a b ↔ a.ID ≤ b.ID) ∧
      (userSortedBy (some "") a b ↔ a.ID ≤ b.ID) ∧
      (∀ f, f ≠ "username" → f ≠ "email" → f ≠ "full_name" → f ≠ "created_at" →
        (userSortedBy (some f) a b ↔ a.ID ≤ b.ID))) ∧
    ((runUserOps NewUserService tenOps).1 = twoAndTen ∧
      twoAndTen.ListUsers lib ⟨1, 10, none, none⟩ =
        (some ([userTen, userTwo], 2, 1, 10), twoAndTen)) := by
  refine ⟨⟨sortUsers lib (s.filterUsers lib req.Filter) req.SortBy, ?_,
    sortUsers_sorted lib _ _, rfl⟩, ?_, twoAndTen_reachable, ?_⟩
  · rw [← filterUsers_eq_filter]
    exact sortUsers_perm lib _ _
  · intro a b
    refine ⟨Iff.rfl, Iff.rfl, Iff.rfl, Iff.rfl, Iff.rfl, Iff.rfl, ?_⟩
    intro f h1 h2 h3 h4
    unfold userSortedBy
    simp only [Option.some.injEq, h1, h2, h3, h4, if_false]
  · have hsel : twoAndTen.filterUsers lib none = [userTwo, userTen] := by
      rw [filterUsers_none]
      rfl
    have hseq : sortUsers lib [userTwo, userTen] none = [userTen, userTwo] :=
      perm_pair_sorted (sortUsers_perm lib _ none) (sortUsers_sorted lib _ none)
        (show ¬ userSortedBy none userTwo userTen from ten_before_two)
    rw [ListUsers_mk, hsel, hseq, paginate_ten_two]

/-! ## Searching products -/

theorem SearchProducts_fst (lib : GoLib) (s : ProductService) (req : SearchProductsRequest) :
    (s.SearchProducts lib req).1 =
      paginate (lib.sortSlice (fun a b => strLess a.Name b.Name) (s.filterProducts lib req))
        req.Page req.PageSize := rfl

theorem productLess_ok : LessOK (fun a b : Product => strLess a.Name b.Name) :=
  lessOK_of_key Product.Name _ (fun _ _ => strLess_iff _ _)

theorem ToLower_eq_empty (lib : GoLib) (q : String) : lib.ToLower q = "" ↔ q = "" := by
  unfold GoLib.ToLower
  constructor
  · intro h
    have := congrArg String.data h
    simp only [List.map_eq_nil_iff] at this
    exact String.ext this
  · rintro rfl
    rfl

theorem matchesSearchCriteria_eq (lib : GoLib) (req : SearchProductsRequest) (p : Product) :
    matchesSearchCriteria lib p (filterToken lib req.Query) req = productPasses lib req p := by
  obtain ⟨q, c, mn, mx, pg, ps⟩ := req
  have hq : (filterToken lib q ≠ "" ∧ Contains (lib.ToLower p.Name) (filterToken lib q) = false ∧
      Contains (lib.ToLower p.Description) (filterToken lib q) = false) ↔
      queryPasses lib q p = false := by
    cases q with
    | none => simp [filterToken, queryPasses]
    | some q =>
      by_cases h0 : q = ""
      · subst h0
        simp [filterToken, queryPasses, ToLower_eq_empty]
      · have hl : lib.ToLower q ≠ "" := fun h => h0 ((ToLower_eq_empty lib q).1 h)
        simp [filterToken, queryPasses, Contains, hl, h0]
  have hc : (c.any (fun x => !lib.EqualFold p.Category x)) = !categoryPasses lib c p := by
    cases c <;> simp [categoryPasses]
  have hmn : (mn.any (fun m => p.Price.lt m)) =
      !(match mn with | none => true | some m => !(p.Price.lt m)) := by
    cases mn <;> simp
  have hmx : (mx.any (fun m => m.lt p.Price)) =
      !(match mx with | none => true | some m => !(m.lt p.Price)) := by
    cases mx <;> simp
  unfold matchesSearchCriteria productPasses
  simp only [hc, hmn, hmx]
  generalize (match mn with | none => true | some m => !(p.Price.lt m)) = b3
  generalize (match mx with | none => true | some m => !(m.lt p.Price)) = b4
  generalize categoryPasses lib c p = b2 at *
  by_cases h1 : queryPasses lib q p = false
  · rw [if_pos (hq.2 h1), h1]
    rfl
  · rw [if_neg (fun h => h1 (hq.1 h))]
    rw [Bool.not_eq_false] at h1
    rw [h1]
    cases b2 <;> cases b3 <;> cases b4 <;> rfl

theorem filterProducts_eq_filter (lib : GoLib) (s : ProductService)
    (req : SearchProductsRequest) :
    s.filterProducts lib req = (s.products.map Prod.snd).filter (productPasses lib req) := by
  unfold ProductService.filterProducts
  simp only [matchesSearchCriteria_eq]
  induction s.products with
  | nil => rfl
  | cons e l ih =>
    rw [List.filterMap_cons, List.map_cons, List.filter_cons, ih]
    cases productPasses lib req e.2 <;> simp

/-- For every `SearchProducts` request, whatever its fields, the outcome is that of
`paginate`, for the requested page and page size, on a sequence that is a permutation of
the matching live products and is sorted in non-decreasing order of the name as a string;
the request has no field that selects another order. -/
theorem SearchProducts_sorted_perm (lib : GoLib) (s : ProductService) (req : SearchProductsRequest) :
    ∃ seq : List Product,
      seq.Perm ((s.products.map Prod.snd).filter (productPasses lib req)) ∧
      seq.Pairwise (fun a b => a.Name ≤ b.Name) ∧
      (s.SearchProducts lib req).1 = paginate seq req.Page req.PageSize := by
  refine ⟨lib.sortSlice (fun a b => strLess a.Name b.Name) (s.filterProducts lib req), ?_, ?_,
    rfl⟩
  · rw [← filterProducts_eq_filter]
    exact lib.sortSlice_perm _ _
  · have := lib.sortSlice_sorted (fun a b : Product => strLess a.Name b.Name)
      (s.filterProducts lib req) productLess_ok
    exact this.imp (fun {a b} h => (strLess_false_iff a.Name b.Name).1 h)

end GoGrpcRestDemo

namespace GoGrpcRestDemo

theorem mem_take_drop {α : Type} {L : List α} {x : α} {i m s : Nat}
    (hi : L[i]? = some x) (hm : m ≤ i) (his : i - m < s) : x ∈ (L.drop m).take s := by
  rw [List.mem_iff_getElem?]
  refine ⟨i - m, ?_⟩
  rw [List.getElem?_take_of_lt his, List.getElem?_drop, Nat.add_sub_cancel' hm]
  exact hi

/-- In a list of at most `2 ^ 30` items every item is on some page, whatever the page
size. -/
theorem paginate_mem_some_page {α : Type} (L : List α) (pageSize : Int) (hs : InInt32 pageSize)
    (hlen : L.length ≤ 2 ^ 30) {x : α} (hx : x ∈ L) :
    ∃ page : Int, 1 ≤ page ∧ InInt32 page ∧ ∃ r, paginate L page pageSize = some r ∧
      x ∈ r.1 := by
  obtain ⟨i, hi⟩ := List.mem_iff_getElem?.1 hx
  have hil : i < L.length := by
    obtain ⟨h, _⟩ := List.getElem?_eq_some.1 hi
    exact h
  obtain ⟨hs1, hs2⟩ := resolved_size_in hs
  have hi30 : (i : Int) < 2 ^ 30 := by exact_mod_cast lt_of_lt_of_le hil hlen
  have hlenI : (L.length : Int) < 2 ^ 31 := by
    have : (L.length : Int) ≤ 2 ^ 30 := by exact_mod_cast hlen
    norm_num at this ⊢
    omega
  have key := fun (page : Int) (hp : InInt32 page) =>
    paginate_exact L page pageSize hp hs hlenI
  generalize (if pageSize < 1 then 10 else pageSize) = s at key hs1 hs2
  have hsn : ((s.toNat : Nat) : Int) = s := Int.toNat_of_nonneg (by omega)
  have hle : i / s.toNat * s.toNat ≤ i := Nat.div_mul_le_self i s.toNat
  have hmod : i - i / s.toNat * s.toNat < s.toNat := by
    have h1 := Nat.div_add_mod i s.toNat
    have h2 := Nat.mod_lt i (show 0 < s.toNat by omega)
    rw [Nat.mul_comm] at h1
    omega
  have hpos : i / s.toNat * s.toNat = 0 ∨ s.toNat ≤ i / s.toNat * s.toNat := by
    rcases Nat.eq_zero_or_pos (i / s.toNat) with h | h
    · left
      rw [h, Nat.zero_mul]
    · exact Or.inr (Nat.le_mul_of_pos_left _ h)
  have hqi : i / s.toNat ≤ i := Nat.div_le_self _ _
  have hm : ((i / s.toNat : Nat) : Int) * s = ((i / s.toNat * s.toNat : Nat) : Int) := by
    rw [Nat.cast_mul, hsn]
  generalize i / s.toNat = q at *
  generalize q * s.toNat = m at *
  have hpage1 : (1 : Int) ≤ (q : Int) + 1 := by omega
  have hpageI : InInt32 ((q : Int) + 1) := by
    unfold InInt32
    norm_num at hi30 ⊢
    omega
  have key2 := key ((q : Int) + 1) hpageI
  rw [if_neg (not_lt.2 hpage1)] at key2
  have hmul : (q : Int) + 1 - 1 = (q : Int) := by ring
  rw [hmul, hm] at key2
  have := key2 (by norm_num at hi30 ⊢; omega) (by
    right
    rcases hpos with h | h
    · norm_num at hs2 ⊢
      omega
    · norm_num at hi30 ⊢
      omega)
  refine ⟨_, hpage1, hpageI, _, this, ?_⟩
  simp only [Int.toNat_ofNat]
  exact mem_take_drop hi hle hmod

end GoGrpcRestDemo

namespace GoGrpcRestDemo

theorem Float64.not_lt_eq_le {a b : Float64} (ha : a ≠ .NaN) (hb : b ≠ .NaN) :
    (!(a.lt b)) = b.le a := by
  cases a <;> cases b <;> simp_all [Float64.lt, Float64.le]
  rename_i x y
  by_cases h : x < y
  · simp [h, not_le.2 h]
  · simp [h, not_lt.1 h]

theorem Float64.lt_irrefl (a : Float64) : a.lt a = false := by
  cases a <;> simp [Float64.lt]

theorem Float64.lt_nan_left (a : Float64) : Float64.lt .NaN a = false := by
  cases a <;> rfl

theorem Float64.lt_nan_right (a : Float64) : Float64.lt a .NaN = false := by
  cases a <;> rfl

theorem productPasses_page (lib : GoLib) (req : SearchProductsRequest) (page : Int) :
    productPasses lib { req with Page := page } = productPasses lib req := rfl

theorem SearchProducts_page (lib : GoLib) (s : ProductService) (req : SearchProductsRequest)
    (page : Int) :
    (s.SearchProducts lib { req with Page := page }).1 =
      paginate (lib.sortSlice (fun a b : Product => strLess a.Name b.Name)
        ((s.products.map Prod.snd).filter (productPasses lib req))) page req.PageSize := by
  have h := SearchProducts_fst lib s { req with Page := page }
  have h2 := filterProducts_eq_filter lib s { req with Page := page }
  have h3 : productPasses lib { req with Page := page } = productPasses lib req := rfl
  rw [h3] at h2
  rw [h2] at h
  exact h

theorem SearchProducts_returns_total (lib : GoLib) (s : ProductService)
    (req : SearchProductsRequest) (r : Paged Product)
    (hr : (s.SearchProducts lib req).1 = some r) :
    r.2.1 = wrapInt32
        (((s.products.map Prod.snd).filter (productPasses lib req)).length : Int) ∧
      ((((s.products.map Prod.snd).filter (productPasses lib req)).length : Int) < 2 ^ 31 →
        r.2.1 = (((s.products.map Prod.snd).filter (productPasses lib req)).length : Int)) ∧
      ∀ p ∈ r.1, p ∈ (s.products.map Prod.snd).filter (productPasses lib req) := by
  rw [SearchProducts_fst] at hr
  obtain ⟨h1, _, _⟩ := paginate_resolved hr
  rw [(lib.sortSlice_perm _ _).length_eq, filterProducts_eq_filter] at h1
  refine ⟨h1, fun hlt => ?_, fun p hp => ?_⟩
  · rw [h1]
    exact wrapInt32_of_in (by
      unfold InInt32
      have := Int.natCast_nonneg
        ((s.products.map Prod.snd).filter (productPasses lib req)).length
      norm_num at hlt ⊢
      omega)
  · have := (lib.sortSlice_perm _ _).mem_iff.1 (paginate_subset hr p hp)
    rwa [filterProducts_eq_filter] at this

/-- C17 (amended). The products `SearchProducts` selects are exactly the live products that
pass every supplied predicate: a query that is present and non-empty is a case-insensitive
substring of the name or of the description, a category that is present equals the
product's category under case folding, the price is not below `min_price` and not above
`max_price` when these are present; absent predicates pass, so a request without predicates
selects every live product. For a price and bounds that are numbers the price predicates
are `min_price <= price` and `price <= max_price`, a price equal to a bound passing; a
price or a bound that is NaN excludes nothing. The outcome is that of `paginate` on a
permutation of the selected products; when the call returns, the total is their number
converted to `int32`, which is their number when below `2 ^ 31`, and the page holds
selected products only; when at most `2 ^ 30` products are selected, each of them is on
some page. -/
theorem C17_search_conjunction (lib : GoLib) (s : ProductService)
    (req : SearchProductsRequest) :
    s.filterProducts lib req = (s.products.map Prod.snd).filter (productPasses lib req) ∧
    (∃ seq : List Product,
      seq.Perm ((s.products.map Prod.snd).filter (productPasses lib req)) ∧
      (s.SearchProducts lib req).1 = paginate seq req.Page req.PageSize) ∧
    (∀ r, (s.SearchProducts lib req).1 = some r →
      r.2.1 = wrapInt32
        (((s.products.map Prod.snd).filter (productPasses lib req)).length : Int) ∧
      ((((s.products.map Prod.snd).filter (productPasses lib req)).length : Int) < 2 ^ 31 →
        r.2.1 = (((s.products.map Prod.snd).filter (productPasses lib req)).length : Int)) ∧
      ∀ p ∈ r.1, p ∈ (s.products.map Prod.snd).filter (productPasses lib req)) ∧
    (((s.products.map Prod.snd).filter (productPasses lib req)).length ≤ 2 ^ 30 →
      InInt32 req.PageSize →
      ∀ p ∈ (s.products.map Prod.snd).filter (productPasses lib req),
        ∃ page : Int, 1 ≤ page ∧ InInt32 page ∧
          ∃ r, (s.SearchProducts lib { req with Page := page }).1 = some r ∧ p ∈ r.1) ∧
    (∀ p : Product, p.Price ≠ .NaN → req.MinPrice ≠ some .NaN → req.MaxPrice ≠ some .NaN →
      productPasses lib req p = productMatchesSpec lib req p) ∧
    (∀ p : Product, p.Price = .NaN →
      productPasses lib req p =
        (queryPasses lib req.Query p && categoryPasses lib req.Category p)) ∧
    (∀ x : Float64, x.lt x = false) ∧
    (req.Query = none → req.Category = none → req.MinPrice = none → req.MaxPrice = none →
      s.filterProducts lib req = s.products.map Prod.snd) := by
  refine ⟨filterProducts_eq_filter lib s req, ?_, SearchProducts_returns_total lib s req,
    ?_, ?_, ?_, Float64.lt_irrefl, ?_⟩
  · refine ⟨_, ?_, SearchProducts_fst lib s req⟩
    rw [← filterProducts_eq_filter]
    exact lib.sortSlice_perm _ _
  · intro hlen hs p hp
    have hperm := lib.sortSlice_perm (fun a b : Product => strLess a.Name b.Name)
      ((s.products.map Prod.snd).filter (productPasses lib req))
    obtain ⟨page, h1, h2, r, hr, hmem⟩ := paginate_mem_some_page _ req.PageSize hs
      (by rw [hperm.length_eq]; exact hlen) (hperm.mem_iff.2 hp)
    refine ⟨page, h1, h2, r, ?_, hmem⟩
    rw [SearchProducts_page]
    exact hr
  · intro p hp hmin hmax
    unfold productPasses productMatchesSpec
    congr 1
    · congr 1
      cases hm : req.MinPrice with
      | none => rfl
      | some m =>
        have : m ≠ .NaN := fun h => hmin (by rw [hm, h])
        exact Float64.not_lt_eq_le hp this
    · cases hm : req.MaxPrice with
      | none => rfl
      | some m =>
        have : m ≠ .NaN := fun h => hmax (by rw [hm, h])
        exact Float64.not_lt_eq_le this hp
  · intro p hp
    unfold productPasses
    rw [hp]
    cases req.MinPrice <;> cases req.MaxPrice <;>
      simp [Float64.lt_nan_left, Float64.lt_nan_right]
  · intro h1 h2 h3 h4
    rw [filterProducts_eq_filter]
    apply List.filter_eq_self.2
    intro p _
    simp [productPasses, queryPasses, categoryPasses, h1, h2, h3, h4]

set_option maxRecDepth 20000 in
/-- C17, an instance: the widget at price 10 is on page 1 of a search with bounds 10
and 10. -/
theorem C17_search_conjunction_witness :
    ∃ page : Int, 1 ≤ page ∧ InInt32 page ∧
      ∃ r, ((NewProductService.CreateProduct 0 widgetReq).2.SearchProducts plainLib
        { Query := none, Category := none, MinPrice := some (.Finite 10),
          MaxPrice := some (.Finite 10), Page := page, PageSize := 10 }).1 = some r ∧
        (⟨"1", "widget", "a widget", .Finite 10, 3, "tools", 0, 0⟩ : Product) ∈ r.1 :=
  (C17_search_conjunction plainLib (NewProductService.CreateProduct 0 widgetReq).2
    ⟨none, none, some (.Finite 10), some (.Finite 10), 1, 10⟩).2.2.2.1
    (by decide) (by decide) _ (by decide)

set_option maxRecDepth 20000 in
/-- C17 as stated fails. `CreateProduct` accepts a price that is not a number; the search
with `min_price` 15 counts that product in total and returns it, although its price is not
`>= 15`. -/
theorem C17_counterexample_nan :
    (NewProductService.CreateProduct 0 nanReq).1 = .ok nanProduct ∧
    ((NewProductService.CreateProduct 0 nanReq).2.SearchProducts plainLib
      ⟨none, none, some (.Finite 15), none, 1, 10⟩).1 = some ([nanProduct], 1, 1, 10) ∧
    Float64.le (.Finite 15) nanProduct.Price = false ∧
    productMatchesSpec plainLib ⟨none, none, some (.Finite 15), none, 1, 10⟩ nanProduct
      = false := by
  decide

/-! ## Creating products -/

/-- C20. `CreateProduct` returns an error of kind ValidationFailed iff the request's name,
description or category is the empty string, or its price is < 0, or its quantity is < 0,
and then the repository is unchanged; otherwise it succeeds and returns a product with the
request's name, description, price, quantity and category, a non-empty identifier and
`CreatedAt` and `UpdatedAt` equal to the clock reading of the call, which is stored under
that identifier, and `GetProduct` on the identifier then returns that product. -/
theorem C20_create_product (s : ProductService) (now : Time) (req : CreateProductRequest) :
    ((∃ err, (s.CreateProduct now req).1 = .error err ∧
        err.Code = ErrCodeValidationFailed) ↔
      (req.Name = "" ∨ req.Description = "" ∨ req.Category = "" ∨
        req.Price.lt (.Finite 0) = true ∨ req.Quantity < 0)) ∧
    ((req.Name = "" ∨ req.Description = "" ∨ req.Category = "" ∨
        req.Price.lt (.Finite 0) = true ∨ req.Quantity < 0) →
      (s.CreateProduct now req).2 = s) ∧
    (¬ (req.Name = "" ∨ req.Description = "" ∨ req.Category = "" ∨
        req.Price.lt (.Finite 0) = true ∨ req.Quantity < 0) →
      ∃ p s', s.CreateProduct now req = (.ok p, s') ∧
        p.Name = req.Name ∧ p.Description = req.Description ∧ p.Price = req.Price ∧
        p.Quantity = req.Quantity ∧ p.Category = req.Category ∧ p.ID ≠ "" ∧
        p.CreatedAt = now ∧ p.UpdatedAt = now ∧
        mapGet s'.products p.ID = some p ∧ s'.GetProduct p.ID = (.ok p, s')) := by
  by_cases h1 : req.Name = "" ∨ req.Description = "" ∨ req.Category = ""
  · have hc : s.CreateProduct now req =
        (.error (NewValidationError "fields" "name, description, and category are required"),
          s) := by
      unfold ProductService.CreateProduct
      rw [if_pos h1]
    have hall : req.Name = "" ∨ req.Description = "" ∨ req.Category = "" ∨
        req.Price.lt (.Finite 0) = true ∨ req.Quantity < 0 := by tauto
    refine ⟨⟨fun _ => hall, fun _ => ?_⟩, fun _ => ?_, fun h => absurd hall h⟩
    · rw [hc]; exact ⟨_, rfl, rfl⟩
    · rw [hc]
  · by_cases h2 : req.Price.lt (.Finite 0) = true ∨ req.Quantity < 0
    · have hc : s.CreateProduct now req =
          (.error (NewValidationError "value" "price and quantity cannot be negative"), s) := by
        unfold ProductService.CreateProduct
        rw [if_neg h1, if_pos h2]
      have hall : req.Name = "" ∨ req.Description = "" ∨ req.Category = "" ∨
          req.Price.lt (.Finite 0) = true ∨ req.Quantity < 0 := by tauto
      refine ⟨⟨fun _ => hall, fun _ => ?_⟩, fun _ => ?_, fun h => absurd hall h⟩
      · rw [hc]; exact ⟨_, rfl, rfl⟩
      · rw [hc]
    · have hc : s.CreateProduct now req =
          (.ok ⟨(issueID s.nextID).1, req.Name, req.Description, req.Price, req.Quantity,
              req.Category, now, now⟩,
            { products := mapSet s.products (issueID s.nextID).1
                ⟨(issueID s.nextID).1, req.Name, req.Description, req.Price, req.Quantity,
                  req.Category, now, now⟩,
              nextID := (issueID s.nextID).2 }) := by
        unfold ProductService.CreateProduct
        rw [if_neg h1, if_neg h2]
        rfl
      have hnone : ¬ (req.Name = "" ∨ req.Description = "" ∨ req.Category = "" ∨
          req.Price.lt (.Finite 0) = true ∨ req.Quantity < 0) := by tauto
      refine ⟨⟨fun h => ?_, fun h => absurd h hnone⟩, fun h => absurd h hnone, fun _ => ?_⟩
      · obtain ⟨err, herr, _⟩ := h
        rw [hc] at herr
        cases herr
      · refine ⟨_, _, hc, rfl, rfl, rfl, rfl, rfl, FormatInt_ne_empty _, rfl, rfl,
          mapGet_mapSet_same _ _ _, ?_⟩
        simp only [ProductService.GetProduct, mapGet_mapSet_same]

set_option maxRecDepth 20000 in
/-- C20, an instance: the widget is created on the empty repository and found again. -/
theorem C20_create_product_witness :
    ∃ p s', NewProductService.CreateProduct 7 widgetReq = (.ok p, s') ∧
      p.Name = "widget" ∧ p.Description = "a widget" ∧ p.Price = .Finite 10 ∧
      p.Quantity = 3 ∧ p.Category = "tools" ∧ p.ID ≠ "" ∧
      p.CreatedAt = 7 ∧ p.UpdatedAt = 7 ∧
      mapGet s'.products p.ID = some p ∧ s'.GetProduct p.ID = (.ok p, s') :=
  (C20_create_product NewProductService 7 widgetReq).2.2 (by decide)

end GoGrpcRestDemo

namespace GoGrpcRestDemo

/-- C16, an instance: "alice" and "ALICE" have the same lower-case form and select the same
seeded users. -/
theorem C16_filter_case_insensitive_witness :
    plainLib.ToLower "alice" = plainLib.ToLower "ALICE" ∧
    seededUsers.filterUsers plainLib (some "alice") =
      seededUsers.filterUsers plainLib (some "ALICE") :=
  ⟨by decide,
    ((C16_filter_case_insensitive plainLib seededUsers ⟨1, 10, none, none⟩).1
      "alice" "ALICE" (by decide)).1⟩

/-- The unknown sort key "name" orders the users "10" and "2" by identifier. -/
theorem userSortedBy_unknown_key :
    userSortedBy (some "name") userTen userTwo ↔ userTen.ID ≤ userTwo.ID :=
  ((ListUsers_sorted_perm plainLib NewUserService ⟨1, 10, none, none⟩).2.1
    userTen userTwo).2.2.2.2.2.2 "name" (by decide) (by decide) (by decide) (by decide)

end GoGrpcRestDemo

namespace GoGrpcRestDemo

/-! ## Product values -/

theorem mem_mapSet {β : Type} {m : List (String × β)} {k : String} {v : β} {e : String × β}
    (h : e ∈ mapSet m k v) : e ∈ m ∨ e = (k, v) := by
  unfold mapSet at h
  split at h
  · exact mem_mapStore h
  · rcases List.mem_append.1 h with h | h
    · exact Or.inl h
    · exact Or.inr (List.mem_singleton.1 h)

theorem CreateProduct_mem (s : ProductService) (now : Time) (req : CreateProductRequest)
    {e : String × Product} (he : e ∈ (s.CreateProduct now req).2.products) :
    e ∈ s.products ∨
      (¬ (req.Name = "" ∨ req.Description = "" ∨ req.Category = "") ∧
        ¬ (req.Price.lt (.Finite 0) = true ∨ req.Quantity < 0) ∧
        e.2.Name = req.Name ∧ e.2.Description = req.Description ∧ e.2.Price = req.Price ∧
        e.2.Quantity = req.Quantity ∧ e.2.Category = req.Category ∧
        e.2.CreatedAt = now ∧ e.2.UpdatedAt = now) := by
  unfold ProductService.CreateProduct at he
  by_cases h1 : req.Name = "" ∨ req.Description = "" ∨ req.Category = ""
  · rw [if_pos h1] at he
    exact Or.inl he
  · rw [if_neg h1] at he
    by_cases h2 : req.Price.lt (.Finite 0) = true ∨ req.Quantity < 0
    · rw [if_pos h2] at he
      exact Or.inl he
    · rw [if_neg h2] at he
      rcases mem_mapSet he with h | h
      · exact Or.inl h
      · refine Or.inr ⟨h1, h2, ?_⟩
        rw [h]
        exact ⟨rfl, rfl, rfl, rfl, rfl, rfl, rfl⟩

theorem stepProduct_mem (s : ProductService) (op : ProductOp) {e : String × Product}
    (he : e ∈ (stepProduct s op).1.products) :
    e ∈ s.products ∨ ∃ now req p s', s.CreateProduct now req = (.ok p, s') ∧ e.2 = p := by
  cases op with
  | create now req =>
    simp only [stepProduct] at he
    rcases CreateProduct_cases s now req with ⟨err, h⟩ | ⟨p, h⟩
    · rw [h] at he
      exact Or.inl he
    · rw [h] at he
      rcases mem_mapSet he with h' | h'
      · exact Or.inl h'
      · exact Or.inr ⟨now, req, p, _, h, by rw [h']⟩
  | get id =>
    left
    simp only [stepProduct, ProductService.GetProduct] at he
    split at he <;> exact he
  | reorder order =>
    left
    simp only [stepProduct] at he
    split at he
    · next hp => exact hp.mem_iff.1 he
    · exact he

/-- A property that every product returned by a successful `CreateProduct` has holds of
every live product of a repository reached from one in which it holds. -/
theorem runProductOps_forall (P : Product → Prop)
    (hP : ∀ (s : ProductService) (now : Time) (req : CreateProductRequest) (p : Product)
      (s' : ProductService), s.CreateProduct now req = (.ok p, s') → P p)
    (ops : List ProductOp) :
    ∀ s : ProductService, (∀ e ∈ s.products, P e.2) →
      ∀ e ∈ (runProductOps s ops).1.products, P e.2 := by
  induction ops with
  | nil => intro s hs; exact hs
  | cons op ops ih =>
    intro s hs
    apply ih
    intro e he
    rcases stepProduct_mem s op he with h | ⟨now, req, p, s', hc, h⟩
    · exact hs e h
    · rw [h]
      exact hP s now req p s' hc

theorem CreateProduct_ok_fields {s s' : ProductService} {now : Time}
    {req : CreateProductRequest} {p : Product} (h : s.CreateProduct now req = (.ok p, s')) :
    ¬ (req.Name = "" ∨ req.Description = "" ∨ req.Category = "") ∧
    ¬ (req.Price.lt (.Finite 0) = true ∨ req.Quantity < 0) ∧
    p.Name = req.Name ∧ p.Description = req.Description ∧ p.Price = req.Price ∧
    p.Quantity = req.Quantity ∧ p.Category = req.Category ∧
    p.CreatedAt = now ∧ p.UpdatedAt = now := by
  unfold ProductService.CreateProduct at h
  by_cases h1 : req.Name = "" ∨ req.Description = "" ∨ req.Category = ""
  · rw [if_pos h1] at h
    cases h
  · rw [if_neg h1] at h
    by_cases h2 : req.Price.lt (.Finite 0) = true ∨ req.Quantity < 0
    · rw [if_pos h2] at h
      cases h
    · rw [if_neg h2] at h
      have hp := (Prod.mk.inj h).1
      cases hp
      exact ⟨h1, h2, rfl, rfl, rfl, rfl, rfl, rfl, rfl⟩

theorem Float64.le_zero_of_not_lt {x : Float64} (h : x.lt (.Finite 0) = false)
    (hx : x ≠ .NaN) : Float64.le (.Finite 0) x = true := by
  cases x <;> simp_all [Float64.lt, Float64.le]

/-- C21 (amended). In every state of a product repository reached from the empty repository
by a finite sequence of calls, every live product has a price that is not < 0 and a
quantity >= 0; a price that is a number is >= 0. -/
theorem C21_nonnegative (ops : List ProductOp) :
    ∀ e ∈ (runProductOps NewProductService ops).1.products,
      e.2.Price.lt (.Finite 0) = false ∧ 0 ≤ e.2.Quantity ∧
      (e.2.Price ≠ .NaN → Float64.le (.Finite 0) e.2.Price = true) := by
  have key := runProductOps_forall
    (fun p => p.Price.lt (.Finite 0) = false ∧ 0 ≤ p.Quantity) (by
      intro s now req p s' h
      obtain ⟨_, h2, _, _, hp, hq, _⟩ := CreateProduct_ok_fields h
      rw [hp, hq]
      push_neg at h2
      exact ⟨by simpa using h2.1, h2.2⟩) ops NewProductService (by
      intro e he
      cases he)
  intro e he
  obtain ⟨h1, h2⟩ := key e he
  exact ⟨h1, h2, Float64.le_zero_of_not_lt h1⟩

set_option maxRecDepth 20000 in
/-- C21, an instance: the widget, created on the empty repository. -/
theorem C21_nonnegative_witness :
    (Float64.Finite 10).lt (.Finite 0) = false ∧ (0 : Int) ≤ 3 ∧
      (Float64.Finite 10 ≠ .NaN → Float64.le (.Finite 0) (.Finite 10) = true) :=
  C21_nonnegative [.create 0 widgetReq]
    ("1", ⟨"1", "widget", "a widget", .Finite 10, 3, "tools", 0, 0⟩) (by decide)

set_option maxRecDepth 20000 in
/-- C21 as stated fails. `CreateProduct` accepts a price that is not a number (the test
`Price < 0` is false for it); the product is live and its price is not `>= 0`. -/
theorem C21_counterexample_nan_price :
    (runProductOps NewProductService [.create 0 nanReq]).1.products = [("1", nanProduct)] ∧
    Float64.le (.Finite 0) nanProduct.Price = false ∧
    nanProduct.Price.lt (.Finite 0) = false := by
  decide

end GoGrpcRestDemo

namespace GoGrpcRestDemo

/-! ## Timestamps -/

theorem CreateUser_ok_fields {s s' : UserService} {now : Time} {req : CreateUserRequest}
    {u : User} (h : s.CreateUser now req = (.ok u, s')) :
    ¬ (req.Username = "" ∨ req.Email = "" ∨ req.FullName = "") ∧
    createUserScan req s.users = none ∧
    u = ⟨(issueID s.nextID).1, req.Username, req.Email, req.FullName, true, now, now⟩ ∧
    s' = { users := mapSet s.users u.ID u, nextID := wrapInt64 (s.nextID + 1) } := by
  unfold UserService.CreateUser at h
  by_cases h1 : req.Username = "" ∨ req.Email = "" ∨ req.FullName = ""
  · rw [if_pos h1] at h
    cases h
  · rw [if_neg h1] at h
    cases hscan : createUserScan req s.users with
    | some err =>
      rw [hscan] at h
      cases h
    | none =>
      rw [hscan] at h
      have h1' := (Prod.mk.inj h).1
      have h2' := (Prod.mk.inj h).2
      cases h1'
      exact ⟨h1, rfl, rfl, h2'.symm⟩

/-- The entries of the map after one call: entries that were there, the user a successful
`CreateUser` returns, or the target of an `UpdateUser` that got past the username check. -/
theorem stepUser_mem (s : UserService) (op : UserOp) {e : String × User}
    (he : e ∈ (stepUser s op).1.users) :
    e ∈ s.users ∨
    (∃ now req u s', op = .create now req ∧ s.CreateUser now req = (.ok u, s') ∧
      e = (u.ID, u)) ∨
    (∃ now req old, op = .update now req ∧ (req.ID, old) ∈ s.users ∧
      (((∃ err, (s.UpdateUser now req).1 = .error err) ∧
          e = (req.ID, { old with Username := req.Username.getD old.Username })) ∨
        ((s.UpdateUser now req).1 = .ok (applyPatch old now req) ∧
          e = (req.ID, applyPatch old now req)))) := by
  cases op with
  | create now req =>
    simp only [stepUser] at he
    rcases CreateUser_cases s now req with ⟨err, h⟩ | ⟨u, h⟩
    · rw [h] at he
      exact Or.inl he
    · rw [h] at he
      rcases mem_mapSet he with h' | h'
      · exact Or.inl h'
      · exact Or.inr (Or.inl ⟨now, req, u, _, rfl, h, h'⟩)
  | get id =>
    left
    simp only [stepUser, UserService.GetUser] at he
    split at he <;> exact he
  | update now req =>
    simp only [stepUser] at he
    rcases UpdateUser_cases s now req with ⟨_, heq⟩ | ⟨_, _, _, _, _, _, heq⟩ |
      ⟨old, v, err, hget, _, _, _, heq⟩ | ⟨old, hget, _, _, heq⟩ <;> rw [heq] at he
    · exact Or.inl he
    · exact Or.inl he
    · rcases mem_mapStore he with h' | h'
      · exact Or.inl h'
      · exact Or.inr (Or.inr ⟨now, req, old, rfl, mem_of_mapGet hget,
          Or.inl ⟨⟨err, by rw [heq]⟩, h'⟩⟩)
    · rcases mem_mapStore he with h' | h'
      · exact Or.inl h'
      · exact Or.inr (Or.inr ⟨now, req, old, rfl, mem_of_mapGet hget,
          Or.inr ⟨by rw [heq], h'⟩⟩)
  | delete id =>
    left
    simp only [stepUser, UserService.DeleteUser] at he
    split at he
    · exact he
    · exact (List.filter_sublist _).subset he
  | reorder order =>
    left
    simp only [stepUser] at he
    split at he
    · next hp => exact hp.mem_iff.1 he
    · exact he

/-- Every live user was created no later than it was last updated, and its `UpdatedAt`
is one of the clock values in `past`. -/
theorem stepUser_times (s : UserService) (op : UserOp) (past : List Time)
    (hs : ∀ e ∈ s.users, e.2.CreatedAt ≤ e.2.UpdatedAt ∧ e.2.UpdatedAt ∈ past)
    (hmono : ∀ t ∈ past, ∀ t' ∈ (clockRead s op).toList, t ≤ t') :
    ∀ e ∈ (stepUser s op).1.users,
      e.2.CreatedAt ≤ e.2.UpdatedAt ∧ e.2.UpdatedAt ∈ past ++ (clockRead s op).toList := by
  intro e he
  rcases stepUser_mem s op he with h | ⟨now, req, u, s', rfl, hc, rfl⟩ |
    ⟨now, req, old, rfl, hold, ⟨_, rfl⟩ | ⟨hok, rfl⟩⟩
  · exact ⟨(hs e h).1, List.mem_append_left _ (hs e h).2⟩
  · obtain ⟨_, _, hu, _⟩ := CreateUser_ok_fields hc
    have hr : clockRead s (.create now req) = some now := by
      simp only [clockRead, hc]
    rw [hr, hu]
    exact ⟨le_refl _, by simp⟩
  · exact ⟨(hs _ hold).1, List.mem_append_left _ (hs _ hold).2⟩
  · have hr : clockRead s (.update now req) = some now := by
      simp only [clockRead, hok]
    rw [hr] at hmono ⊢
    have h1 := hs _ hold
    have h2 : old.UpdatedAt ≤ now := hmono _ h1.2 now (by simp)
    exact ⟨le_trans h1.1 h2, by simp [applyPatch]⟩

theorem runUserOps_times (ops : List UserOp) : ∀ (s : UserService) (past : List Time),
    (∀ e ∈ s.users, e.2.CreatedAt ≤ e.2.UpdatedAt ∧ e.2.UpdatedAt ∈ past) →
    (past ++ runClockReads s ops).Pairwise (· ≤ ·) →
    ∀ e ∈ (runUserOps s ops).1.users,
      e.2.CreatedAt ≤ e.2.UpdatedAt ∧ e.2.UpdatedAt ∈ past ++ runClockReads s ops := by
  induction ops with
  | nil =>
    intro s past hs _ e he
    simpa [runClockReads] using hs e he
  | cons op ops ih =>
    intro s past hs hp
    simp only [runClockReads, ← List.append_assoc] at hp ⊢
    have hstep := stepUser_times s op past hs (by
      intro t ht t' ht'
      have := (List.pairwise_append.1 (List.pairwise_append.1 hp).1).2.2
      exact this t ht t' ht')
    exact ih _ _ hstep hp

theorem UpdateUser_ok_inv {s s' : UserService} {now : Time} {req : UpdateUserRequest}
    {u : User} (h : s.UpdateUser now req = (.ok u, s')) :
    ∃ old, mapGet s.users req.ID = some old ∧ u = applyPatch old now req ∧
      s' = s.store req.ID u := by
  rcases UpdateUser_cases s now req with ⟨_, heq⟩ | ⟨_, _, _, _, _, _, heq⟩ |
    ⟨_, _, _, _, _, _, _, heq⟩ | ⟨old, hget, _, _, heq⟩ <;> rw [heq] at h
  · cases h
  · cases h
  · cases h
  · have h1 := (Prod.mk.inj h).1
    have h2 := (Prod.mk.inj h).2
    cases h1
    exact ⟨old, hget, rfl, h2.symm⟩

/-- C22. In every state of a user repository reached from the empty one by calls whose
clock readings are non-decreasing, and in every state of a product repository reached
from the empty one, every live entity has `UpdatedAt >= CreatedAt`. A successful
`UpdateUser` in such a state, at a clock value that is not below the earlier readings,
returns and stores the target with `UpdatedAt` equal to that clock value, which is not
below the `UpdatedAt` the target had, and keeps its `CreatedAt`. -/
theorem C22_timestamps (uops : List UserOp) (pops : List ProductOp)
    (hclock : (runClockReads NewUserService uops).Pairwise (· ≤ ·)) :
    (∀ e ∈ (runUserOps NewUserService uops).1.users, e.2.CreatedAt ≤ e.2.UpdatedAt) ∧
    (∀ e ∈ (runProductOps NewProductService pops).1.products,
      e.2.CreatedAt ≤ e.2.UpdatedAt) ∧
    (∀ (now : Time) (req : UpdateUserRequest) (u : User) (s' : UserService),
      (∀ t ∈ runClockReads NewUserService uops, t ≤ now) →
      (runUserOps NewUserService uops).1.UpdateUser now req = (.ok u, s') →
      u.UpdatedAt = now ∧ mapGet s'.users req.ID = some u ∧
      ∃ old, mapGet (runUserOps NewUserService uops).1.users req.ID = some old ∧
        old.UpdatedAt ≤ u.UpdatedAt ∧ u.CreatedAt = old.CreatedAt) := by
  have key := runUserOps_times uops NewUserService [] (by intro e he; cases he)
    (by simpa using hclock)
  refine ⟨fun e he => (key e he).1, ?_, ?_⟩
  · exact runProductOps_forall (fun p => p.CreatedAt ≤ p.UpdatedAt) (by
      intro s now req p s' h
      obtain ⟨_, _, _, _, _, _, _, hc, hu⟩ := CreateProduct_ok_fields h
      show p.CreatedAt ≤ p.UpdatedAt
      rw [hc, hu]) pops NewProductService (by intro e he; cases he)
  · intro now req u s' hnow h
    obtain ⟨old, hget, hu, hs'⟩ := UpdateUser_ok_inv h
    have hold := (key _ (mem_of_mapGet hget)).2
    rw [List.nil_append] at hold
    refine ⟨by rw [hu]; rfl, ?_, old, hget, ?_, by rw [hu]; rfl⟩
    · rw [hs']
      exact mapGet_mapStore_same _ _ _ (by rw [hget]; rfl)
    · rw [hu]
      exact hnow _ hold

set_option maxRecDepth 100000 in
/-- C22, an instance: alice is created at time 0, bob at time 1, and bob is renamed at
time 3; the readings are 0, 1, 3 and bob, created at 1, was last updated at 3. -/
theorem C22_timestamps_witness :
    runClockReads NewUserService
        [.create 0 aliceReq, .create 1 bobReq, .update 3 namePatch] = [0, 1, 3] ∧
    (⟨"2", "bob", "bob@x", "Robert", true, 1, 3⟩ : User).CreatedAt ≤
      (⟨"2", "bob", "bob@x", "Robert", true, 1, 3⟩ : User).UpdatedAt :=
  ⟨by decide,
    (C22_timestamps [.create 0 aliceReq, .create 1 bobReq, .update 3 namePatch] []
      (by decide)).1 ("2", ⟨"2", "bob", "bob@x", "Robert", true, 1, 3⟩) (by decide)⟩

end GoGrpcRestDemo

namespace GoGrpcRestDemo

/-! ## The identifier counter -/

theorem FormatInt_natCast (k : Nat) : FormatInt ((k : Int) + 1) = Nat.repr (k + 1) := by
  unfold FormatInt
  rw [if_neg (by omega)]
  congr 1

theorem issuedFrom_one {n : Nat} (hn : n < 2 ^ 63) :
    issuedFrom 1 n = (List.range n).map (fun k => Nat.repr (k + 1)) := by
  unfold issuedFrom
  apply List.map_congr_left
  intro k hk
  have hk' := List.mem_range.1 hk
  have hin : InInt64 (1 + (k : Int)) := by
    unfold InInt64
    norm_num at hn ⊢
    omega
  rw [wrapInt64_of_in hin, add_comm]
  exact FormatInt_natCast k

theorem UpdateUser_nextID (s : UserService) (now : Time) (req : UpdateUserRequest) :
    (s.UpdateUser now req).2.nextID = s.nextID := by
  rcases UpdateUser_cases s now req with ⟨_, heq⟩ | ⟨_, _, _, _, _, _, heq⟩ |
    ⟨_, _, _, _, _, _, _, heq⟩ | ⟨_, _, _, _, heq⟩ <;> rw [heq] <;> rfl

theorem DeleteUser_nextID (s : UserService) (id : String) :
    (s.DeleteUser id).2.nextID = s.nextID := by
  unfold UserService.DeleteUser
  split <;> rfl

theorem GetUser_snd (s : UserService) (id : String) : (s.GetUser id).2 = s := by
  unfold UserService.GetUser
  split <;> rfl

theorem GetProduct_snd (s : ProductService) (id : String) : (s.GetProduct id).2 = s := by
  unfold ProductService.GetProduct
  split <;> rfl

theorem wrapInt64_succ {c : Int} (h : InInt64 c) (hc : c < 2 ^ 63 - 1) :
    wrapInt64 (c + 1) = c + 1 := by
  apply wrapInt64_of_in
  unfold InInt64 at h ⊢
  norm_num at h hc ⊢
  omega

/-- C23 (amended). The counter of a fresh repository is 1. A successful create returns the
counter value before the call formatted as a decimal string and adds one to the counter in
`int64` arithmetic: the counter grows by exactly one while it is below `2 ^ 63 - 1`. Failed
creates, gets, updates, deletes and listings leave the counter unchanged. Hence, whatever
other calls are interleaved, the k-th successful create on a repository returns the decimal
representation of k for every k below `2 ^ 63`; the user and the product repository each
have a counter of their own. -/
theorem C23_identifier_sequence (uops : List UserOp) (pops : List ProductOp)
    (hu : (runUserOps NewUserService uops).2.length < 2 ^ 63)
    (hp : (runProductOps NewProductService pops).2.length < 2 ^ 63) :
    (NewUserService.nextID = 1 ∧ NewProductService.nextID = 1) ∧
    (∀ (s : UserService) (now : Time) (req : CreateUserRequest), InInt64 s.nextID →
      (∀ u s', s.CreateUser now req = (.ok u, s') →
        u.ID = FormatInt s.nextID ∧ s'.nextID = wrapInt64 (s.nextID + 1) ∧
        (s.nextID < 2 ^ 63 - 1 → s'.nextID = s.nextID + 1)) ∧
      (∀ err s', s.CreateUser now req = (.error err, s') → s'.nextID = s.nextID)) ∧
    (∀ (s : ProductService) (now : Time) (req : CreateProductRequest), InInt64 s.nextID →
      (∀ p s', s.CreateProduct now req = (.ok p, s') →
        p.ID = FormatInt s.nextID ∧ s'.nextID = wrapInt64 (s.nextID + 1) ∧
        (s.nextID < 2 ^ 63 - 1 → s'.nextID = s.nextID + 1)) ∧
      (∀ err s', s.CreateProduct now req = (.error err, s') → s'.nextID = s.nextID)) ∧
    (∀ (s : UserService) (lib : GoLib) (id : String) (now : Time) (upd : UpdateUserRequest)
        (req : ListUsersRequest),
      (s.GetUser id).2.nextID = s.nextID ∧ (s.UpdateUser now upd).2.nextID = s.nextID ∧
      (s.DeleteUser id).2.nextID = s.nextID ∧ (s.ListUsers lib req).2.nextID = s.nextID) ∧
    (∀ (s : ProductService) (lib : GoLib) (id : String) (req : SearchProductsRequest),
      (s.GetProduct id).2.nextID = s.nextID ∧
      (s.SearchProducts lib req).2.nextID = s.nextID) ∧
    (runUserOps NewUserService uops).2 =
      (List.range (runUserOps NewUserService uops).2.length).map
        (fun k => Nat.repr (k + 1)) ∧
    (runProductOps NewProductService pops).2 =
      (List.range (runProductOps NewProductService pops).2.length).map
        (fun k => Nat.repr (k + 1)) := by
  refine ⟨⟨rfl, rfl⟩, ?_, ?_, ?_, ?_, ?_, ?_⟩
  · intro s now req hin
    rcases CreateUser_counter s now req with ⟨err, h1, h2⟩ | ⟨u, h1, h2, h3⟩
    · refine ⟨fun u s' h => ?_, fun e s' h => ?_⟩
      · rw [h] at h1
        cases h1
      · rw [h] at h2
        rw [show s' = s from h2]
    · refine ⟨fun u' s' h => ?_, fun e s' h => ?_⟩
      · rw [h] at h1 h3
        cases h1
        exact ⟨by rw [h2, issueID_fst hin], h3, fun hc => by
          rw [show s'.nextID = _ from h3, wrapInt64_succ hin hc]⟩
      · rw [h] at h1
        cases h1
  · intro s now req hin
    rcases CreateProduct_counter s now req with ⟨err, h1, h2⟩ | ⟨u, h1, h2, h3⟩
    · refine ⟨fun u s' h => ?_, fun e s' h => ?_⟩
      · rw [h] at h1
        cases h1
      · rw [h] at h2
        rw [show s' = s from h2]
    · refine ⟨fun u' s' h => ?_, fun e s' h => ?_⟩
      · rw [h] at h1 h3
        cases h1
        exact ⟨by rw [h2, issueID_fst hin], h3, fun hc => by
          rw [show s'.nextID = _ from h3, wrapInt64_succ hin hc]⟩
      · rw [h] at h1
        cases h1
  · intro s lib id now upd req
    exact ⟨by rw [GetUser_snd], UpdateUser_nextID s now upd, DeleteUser_nextID s id, rfl⟩
  · intro s lib id req
    exact ⟨by rw [GetProduct_snd], rfl⟩
  · have h := (runUserOps_issued uops NewUserService one_inInt64).1
    rw [show NewUserService.nextID = 1 from rfl, issuedFrom_one hu] at h
    exact h
  · have h := (runProductOps_issued pops NewProductService one_inInt64).1
    rw [show NewProductService.nextID = 1 from rfl, issuedFrom_one hp] at h
    exact h

set_option maxRecDepth 100000 in
/-- C23, an instance: alice, a failed create, bob; the identifiers are "1" and "2". -/
theorem C23_identifier_sequence_witness :
    (runUserOps NewUserService
      [.create 0 aliceReq, .create 1 aliceReq, .get "1", .create 2 bobReq]).2 = ["1", "2"] ∧
    (runProductOps NewProductService [.create 0 widgetReq]).2 = ["1"] :=
  ⟨((C23_identifier_sequence
      [.create 0 aliceReq, .create 1 aliceReq, .get "1", .create 2 bobReq]
      [.create 0 widgetReq]
      (lt_of_le_of_lt (show _ ≤ 2 by decide) (by norm_num))
      (lt_of_le_of_lt (show _ ≤ 1 by decide) (by norm_num))).2.2.2.2.2.1).trans (by decide),
    ((C23_identifier_sequence
      [.create 0 aliceReq, .create 1 aliceReq, .get "1", .create 2 bobReq]
      [.create 0 widgetReq]
      (lt_of_le_of_lt (show _ ≤ 2 by decide) (by norm_num))
      (lt_of_le_of_lt (show _ ≤ 1 by decide) (by norm_num))).2.2.2.2.2.2).trans (by decide)⟩

theorem cycles_then_create (n : Nat) (c : Int) (hw : wrapInt64 (1 + (n : Int)) = c) :
    (runUserOps NewUserService (createDeleteCycles 1 n)).1 = { users := [], nextID := c } ∧
    (runUserOps NewUserService
        (createDeleteCycles 1 n ++ [UserOp.create 0 aliceReq])).2 =
      issuedFrom 1 n ++ [FormatInt c] ∧
    (runUserOps NewUserService
        (createDeleteCycles 1 n ++ [UserOp.create 0 aliceReq])).1.nextID =
      wrapInt64 (c + 1) := by
  have hN : NewUserService = { users := [], nextID := 1 } := rfl
  have hc : InInt64 c := hw ▸ wrapInt64_in _
  refine ⟨?_, ?_, ?_⟩
  · rw [hN, createDeleteCycles_run _ 1 one_inInt64, hw]
  · rw [runUserOps_append, hN, createDeleteCycles_run _ 1 one_inInt64]
    simp only [hw]
    simp only [runUserOps, stepUser, createUser_on_empty hc]
    rfl
  · rw [runUserOps_append, hN, createDeleteCycles_run _ 1 one_inInt64]
    simp only [hw]
    simp only [runUserOps, stepUser, createUser_on_empty hc]

/-- C23 as stated fails. After `2 ^ 63 - 2` rounds of create and delete the counter is
`2 ^ 63 - 1`, and the successful create made there leaves it at `-2 ^ 63`, not one higher.
So after `2 ^ 63 - 1` rounds the counter is `-2 ^ 63`, and the next successful create, the
`2 ^ 63`-th, returns "-9223372036854775808", which is not the decimal representation of
`2 ^ 63`. -/
theorem C23_counterexample_counter_wraps :
    (runUserOps NewUserService (createDeleteCycles 1 (2 ^ 63 - 2))).1 =
      { users := [], nextID := 9223372036854775807 } ∧
    (({ users := [], nextID := 9223372036854775807 } : UserService).CreateUser 0
      aliceReq).2.nextID = -9223372036854775808 ∧
    (runUserOps NewUserService (createDeleteCycles 1 (2 ^ 63 - 1))).1 =
      { users := [], nextID := -9223372036854775808 } ∧
    (runUserOps NewUserService
        (createDeleteCycles 1 (2 ^ 63 - 1) ++ [UserOp.create 0 aliceReq])).2.length
      = 2 ^ 63 ∧
    (runUserOps NewUserService
        (createDeleteCycles 1 (2 ^ 63 - 1) ++ [UserOp.create 0 aliceReq])).2.getLast?
      = some "-9223372036854775808" ∧
    "-9223372036854775808" ≠ Nat.repr (2 ^ 63) := by
  have h := cycles_then_create (2 ^ 63 - 1) (-9223372036854775808) (by
    unfold wrapInt64
    norm_num)
  have hf : FormatInt (-9223372036854775808) = "-9223372036854775808" := by decide
  have h0 := cycles_then_create (2 ^ 63 - 2) 9223372036854775807 (by
    unfold wrapInt64
    norm_num)
  refine ⟨h0.1, ?_, h.1, ?_, ?_, by decide⟩
  · rw [createUser_on_empty (by unfold InInt64; norm_num)]
    show wrapInt64 (9223372036854775807 + 1) = -9223372036854775808
    unfold wrapInt64
    norm_num
  · rw [h.2.1, List.length_append, issuedFrom_length]
    norm_num
  · rw [h.2.1, hf]
    simp

end GoGrpcRestDemo

namespace GoGrpcRestDemo

/-! ## Error kinds and protocol statuses -/

/-- C24. For the errors built by `NewValidationError`, `NewNotFoundError` and
`NewAlreadyExistsError`, whatever their arguments, `ToHTTPStatus` returns 400, 404 and 409
and `ToGRPCStatus` carries the codes InvalidArgument (3), NotFound (5) and AlreadyExists
(6), with the message of the error. `AsAppError` returns an `AppError` as it is and turns
any other error into an error of kind Internal, which maps to HTTP 500 and to the gRPC
code Internal (13). -/
theorem C24_status_mapping (field message resource id value text : String) (e : AppError) :
    ((NewValidationError field message).Code = ErrCodeValidationFailed ∧
      (NewValidationError field message).ToHTTPStatus = 400 ∧
      (NewValidationError field message).ToGRPCStatus = ⟨codes.InvalidArgument, message⟩) ∧
    ((NewNotFoundError resource id).Code = ErrCodeNotFound ∧
      (NewNotFoundError resource id).ToHTTPStatus = 404 ∧
      (NewNotFoundError resource id).ToGRPCStatus =
        ⟨codes.NotFound, resource ++ " not found"⟩) ∧
    ((NewAlreadyExistsError resource field value).Code = ErrCodeAlreadyExists ∧
      (NewAlreadyExistsError resource field value).ToHTTPStatus = 409 ∧
      (NewAlreadyExistsError resource field value).ToGRPCStatus =
        ⟨codes.AlreadyExists, resource ++ " already exists"⟩) ∧
    (AsAppError (.app e) = e ∧
      (AsAppError (.other text)).Code = ErrCodeInternal ∧
      (AsAppError (.other text)).ToHTTPStatus = 500 ∧
      (AsAppError (.other text)).ToGRPCStatus = ⟨codes.Internal, "Internal server error"⟩ ∧
      handleErrorStatus (.other text) = 500 ∧
      handleGRPCError (some (.other text)) =
        some ⟨codes.Internal, "Internal server error"⟩) ∧
    (codes.InvalidArgument = 3 ∧ codes.NotFound = 5 ∧ codes.AlreadyExists = 6 ∧
      codes.Internal = 13) := by
  refine ⟨⟨rfl, ?_, ?_⟩, ⟨rfl, ?_, ?_⟩, ⟨rfl, ?_, ?_⟩, ⟨rfl, rfl, ?_, ?_, ?_, ?_⟩,
    rfl, rfl, rfl, rfl⟩ <;>
  simp [AppError.ToHTTPStatus, AppError.ToGRPCStatus, NewValidationError, NewNotFoundError,
    NewAlreadyExistsError, AsAppError, handleErrorStatus, handleGRPCError, codes.OK,
    ErrCodeInvalidRequest, ErrCodeValidationFailed, ErrCodeNotFound, ErrCodeAlreadyExists,
    ErrCodeUnauthorized, ErrCodeForbidden, ErrCodeInternal, StatusBadRequest,
    StatusNotFound, StatusConflict, StatusInternalServerError]

end GoGrpcRestDemo

namespace GoGrpcRestDemo

/-! ## The order of the scan in `CreateUser` -/

theorem entry_eq_of_key_eq {β : Type} {m : List (String × β)}
    (hk : (m.map Prod.fst).Nodup) {a b : String × β} (ha : a ∈ m) (hb : b ∈ m)
    (h : a.1 = b.1) : a = b :=
  List.inj_on_of_nodup_map hk ha hb h

theorem mapStore_eq_map {β : Type} (k : String) (v : β) :
    ∀ m : List (String × β), (m.map Prod.fst).Nodup →
      mapStore m k v = m.map (fun e => if e.1 = k then (e.1, v) else e) := by
  intro m
  induction m with
  | nil => intro _; rfl
  | cons e rest ih =>
    intro hk
    rw [List.map_cons, List.nodup_cons] at hk
    unfold mapStore
    by_cases he : e.1 = k
    · rw [if_pos he, List.map_cons, if_pos he]
      congr 1
      have : rest.map (fun e => if e.1 = k then (e.1, v) else e) = rest.map id := by
        apply List.map_congr_left
        intro x hx
        have hne : x.1 ≠ k := by
          intro hxk
          exact hk.1 (List.mem_map.2 ⟨x, hx, by rw [hxk, he]⟩)
        simp only [if_neg hne, id]
      rw [this, List.map_id]
    · rw [if_neg he, List.map_cons, if_neg he, ih hk.2]

theorem mapSet_perm {β : Type} {m order : List (String × β)} (k : String) (v : β)
    (hk : (m.map Prod.fst).Nodup) (hp : order.Perm m) :
    (mapSet order k v).Perm (mapSet m k v) := by
  have hk' : (order.map Prod.fst).Nodup := (hp.map Prod.fst).nodup_iff.2 hk
  have hsome : (mapGet order k).isSome = (mapGet m k).isSome := by
    rw [Bool.eq_iff_iff, mapGet_isSome_iff, mapGet_isSome_iff]
    exact ⟨fun ⟨e, he, h⟩ => ⟨e, hp.mem_iff.1 he, h⟩, fun ⟨e, he, h⟩ => ⟨e, hp.mem_iff.2 he, h⟩⟩
  unfold mapSet
  rw [hsome]
  split
  · rw [mapStore_eq_map k v _ hk, mapStore_eq_map k v _ hk']
    exact hp.map _
  · exact hp.append_right _

theorem createUserScan_perm (req : CreateUserRequest) {m order : List (String × User)}
    (hp : order.Perm m) : createUserScan req order = none ↔ createUserScan req m = none := by
  rw [createUserScan_eq_none_iff, createUserScan_eq_none_iff]
  exact ⟨fun h e he => h e (hp.mem_iff.2 he), fun h e he => h e (hp.mem_iff.1 he)⟩

/-- An error of the scan names the username, which then collides with a live user, or
the email, which then collides with a live user whose username does not collide. -/
theorem createUserScan_some {req : CreateUserRequest} {l : List (String × User)}
    {err : AppError} (h : createUserScan req l = some err) :
    (err = NewAlreadyExistsError "user" "username" req.Username ∧
      ∃ a ∈ l, a.2.Username = req.Username) ∨
    (err = NewAlreadyExistsError "user" "email" req.Email ∧
      ∃ b ∈ l, b.2.Username ≠ req.Username ∧ b.2.Email = req.Email) := by
  induction l with
  | nil => cases h
  | cons e rest ih =>
    unfold createUserScan at h
    by_cases h1 : e.2.Username = req.Username
    · rw [if_pos h1] at h
      exact Or.inl ⟨(Option.some.inj h).symm, e, List.mem_cons_self _ _, h1⟩
    · rw [if_neg h1] at h
      by_cases h2 : e.2.Email = req.Email
      · rw [if_pos h2] at h
        exact Or.inr ⟨(Option.some.inj h).symm, e, List.mem_cons_self _ _, h1, h2⟩
      · rw [if_neg h2] at h
        rcases ih h with ⟨he, a, ha, hu⟩ | ⟨he, b, hb, hu⟩
        · exact Or.inl ⟨he, a, List.mem_cons_of_mem _ ha, hu⟩
        · exact Or.inr ⟨he, b, List.mem_cons_of_mem _ hb, hu⟩

theorem CreateUser_error_inv {s s' : UserService} {now : Time} {req : CreateUserRequest}
    {err : AppError} (h : s.CreateUser now req = (.error err, s')) :
    s' = s ∧
    (((req.Username = "" ∨ req.Email = "" ∨ req.FullName = "") ∧
        err = NewValidationError "fields" "username, email, and full_name are required") ∨
      (¬ (req.Username = "" ∨ req.Email = "" ∨ req.FullName = "") ∧
        createUserScan req s.users = some err)) := by
  unfold UserService.CreateUser at h
  by_cases h1 : req.Username = "" ∨ req.Email = "" ∨ req.FullName = ""
  · rw [if_pos h1] at h
    have h1' := (Prod.mk.inj h).1
    cases h1'
    exact ⟨(Prod.mk.inj h).2.symm, Or.inl ⟨h1, rfl⟩⟩
  · rw [if_neg h1] at h
    cases hscan : createUserScan req s.users with
    | some e =>
      rw [hscan] at h
      have h1' := (Prod.mk.inj h).1
      cases h1'
      exact ⟨(Prod.mk.inj h).2.symm, Or.inr ⟨h1, rfl⟩⟩
    | none =>
      rw [hscan] at h
      cases (Prod.mk.inj h).1

theorem CreateUser_eq_ok {s : UserService} {now : Time} {req : CreateUserRequest}
    (h1 : ¬ (req.Username = "" ∨ req.Email = "" ∨ req.FullName = ""))
    (h2 : createUserScan req s.users = none) :
    s.CreateUser now req =
      (.ok ⟨(issueID s.nextID).1, req.Username, req.Email, req.FullName, true, now, now⟩,
        { users := mapSet s.users (issueID s.nextID).1
            ⟨(issueID s.nextID).1, req.Username, req.Email, req.FullName, true, now, now⟩,
          nextID := wrapInt64 (s.nextID + 1) }) := by
  unfold UserService.CreateUser
  rw [if_neg h1, h2]
  rfl

end GoGrpcRestDemo

namespace GoGrpcRestDemo

theorem CreateUser_eq_validation {s : UserService} {now : Time} {req : CreateUserRequest}
    (h1 : req.Username = "" ∨ req.Email = "" ∨ req.FullName = "") :
    s.CreateUser now req =
      (.error (NewValidationError "fields" "username, email, and full_name are required"),
        s) := by
  unfold UserService.CreateUser
  rw [if_pos h1]

theorem CreateUser_eq_scan {s : UserService} {now : Time} {req : CreateUserRequest}
    {err : AppError} (h1 : ¬ (req.Username = "" ∨ req.Email = "" ∨ req.FullName = ""))
    (h2 : createUserScan req s.users = some err) :
    s.CreateUser now req = (.error err, s) := by
  unfold UserService.CreateUser
  rw [if_neg h1, h2]

/-- C28. Let the live users of a repository be scanned in two orders. The two runs of
`CreateUser` on a request agree on success, and then return the same user; they agree on
the kind of a failure, which is ValidationFailed or AlreadyExists; the repositories they
leave hold the same entries and the same counter. The two errors are equal, unless one
names the username and the other the email, and this only happens when the username of the
request is that of one live user and the email that of a live user under another
identifier. -/
theorem C28_scan_order (s : UserService) (order : List (String × User)) (now : Time)
    (req : CreateUserRequest) (hk : (s.users.map Prod.fst).Nodup)
    (hp : order.Perm s.users) :
    (∀ u, (s.CreateUser now req).1 = .ok u ↔
      (({ users := order, nextID := s.nextID } : UserService).CreateUser now req).1
        = .ok u) ∧
    (∀ code, (∃ e, (s.CreateUser now req).1 = .error e ∧ e.Code = code) ↔
      (∃ e, (({ users := order, nextID := s.nextID } : UserService).CreateUser now req).1
        = .error e ∧ e.Code = code)) ∧
    (∀ e, (s.CreateUser now req).1 = .error e →
      e.Code = ErrCodeValidationFailed ∨ e.Code = ErrCodeAlreadyExists) ∧
    ((({ users := order, nextID := s.nextID } : UserService).CreateUser now req).2.nextID
        = (s.CreateUser now req).2.nextID ∧
      (({ users := order, nextID := s.nextID } : UserService).CreateUser now req).2.users.Perm
        (s.CreateUser now req).2.users) ∧
    (∀ e₁ e₂, (s.CreateUser now req).1 = .error e₁ →
      (({ users := order, nextID := s.nextID } : UserService).CreateUser now req).1
        = .error e₂ →
      e₁ = e₂ ∨
      (((e₁ = NewAlreadyExistsError "user" "username" req.Username ∧
            e₂ = NewAlreadyExistsError "user" "email" req.Email) ∨
          (e₁ = NewAlreadyExistsError "user" "email" req.Email ∧
            e₂ = NewAlreadyExistsError "user" "username" req.Username)) ∧
        ∃ a ∈ s.users, ∃ b ∈ s.users, a.1 ≠ b.1 ∧ a.2.Username = req.Username ∧
          b.2.Email = req.Email)) := by
  by_cases h1 : req.Username = "" ∨ req.Email = "" ∨ req.FullName = ""
  · rw [CreateUser_eq_validation h1, CreateUser_eq_validation h1]
    refine ⟨fun u => Iff.rfl, fun code => Iff.rfl, ?_, ⟨rfl, hp⟩, ?_⟩
    · intro e he
      cases he
      exact Or.inl rfl
    · intro e₁ e₂ he₁ he₂
      cases he₁
      cases he₂
      exact Or.inl rfl
  · cases hs : createUserScan req s.users with
    | none =>
      have ho : createUserScan req order = none := (createUserScan_perm req hp).2 hs
      rw [CreateUser_eq_ok h1 hs]
      rw [CreateUser_eq_ok (s := { users := order, nextID := s.nextID }) h1 ho]
      refine ⟨fun u => Iff.rfl, ?_, ?_, ⟨rfl, mapSet_perm _ _ hk hp⟩, ?_⟩
      · intro code
        constructor <;>
        · rintro ⟨e, he, _⟩
          cases he
      · intro e he
        cases he
      · intro e₁ e₂ he₁
        cases he₁
    | some err₁ =>
      cases ho : createUserScan req order with
      | none =>
        rw [(createUserScan_perm req hp).1 ho] at hs
        cases hs
      | some err₂ =>
        rw [CreateUser_eq_scan h1 hs]
        rw [CreateUser_eq_scan (s := { users := order, nextID := s.nextID }) h1 ho]
        have c₁ := createUserScan_code hs
        have c₂ := createUserScan_code ho
        refine ⟨?_, ?_, ?_, ⟨rfl, hp⟩, ?_⟩
        · intro u
          constructor <;>
          · intro h
            cases h
        · intro code
          constructor
          · rintro ⟨e, he, hc⟩
            cases he
            exact ⟨err₂, rfl, by rw [c₂, ← c₁, hc]⟩
          · rintro ⟨e, he, hc⟩
            cases he
            exact ⟨err₁, rfl, by rw [c₁, ← c₂, hc]⟩
        · intro e he
          cases he
          exact Or.inr c₁
        · intro e₁ e₂ he₁ he₂
          cases he₁
          cases he₂
          have key : ∀ a ∈ s.users, ∀ b ∈ s.users, a.2.Username = req.Username →
              b.2.Username ≠ req.Username → a.1 ≠ b.1 := by
            intro a ha b hb hau hbu hab
            rw [entry_eq_of_key_eq hk ha hb hab] at hau
            exact hbu hau
          rcases createUserScan_some hs with ⟨e1, a, ha, hau⟩ | ⟨e1, b, hb, hbu, hbe⟩ <;>
          rcases createUserScan_some ho with ⟨e2, a', ha', hau'⟩ | ⟨e2, b', hb', hbu', hbe'⟩
          · exact Or.inl (by rw [e1, e2])
          · exact Or.inr ⟨Or.inl ⟨e1, e2⟩, a, ha, b', hp.mem_iff.1 hb',
              key a ha b' (hp.mem_iff.1 hb') hau hbu', hau, hbe'⟩
          · exact Or.inr ⟨Or.inr ⟨e1, e2⟩, a', hp.mem_iff.1 ha', b, hb,
              key a' (hp.mem_iff.1 ha') b hb hau' hbu, hau', hbe⟩
          · exact Or.inl (by rw [e1, e2])

set_option maxRecDepth 100000 in
/-- C28, an instance: the request carries the username of alice and the email of bob. With
alice scanned first the error names the username, with bob scanned first the email; both
are AlreadyExists errors and the repository is left as it was. -/
theorem C28_scan_order_witness :
    (twoUsers.CreateUser 5 ⟨"alice", "bob@x", "A"⟩).1 =
      .error (NewAlreadyExistsError "user" "username" "alice") ∧
    (({ users := twoUsers.users.reverse, nextID := twoUsers.nextID } :
        UserService).CreateUser 5 ⟨"alice", "bob@x", "A"⟩).1 =
      .error (NewAlreadyExistsError "user" "email" "bob@x") ∧
    (({ users := twoUsers.users.reverse, nextID := twoUsers.nextID } :
        UserService).CreateUser 5 ⟨"alice", "bob@x", "A"⟩).2.users.Perm
      (twoUsers.CreateUser 5 ⟨"alice", "bob@x", "A"⟩).2.users :=
  ⟨by decide, by decide,
    (C28_scan_order twoUsers twoUsers.users.reverse 5 ⟨"alice", "bob@x", "A"⟩ (by decide)
      (List.reverse_perm _)).2.2.2.1.2⟩

end GoGrpcRestDemo

namespace GoGrpcRestDemo

/-! ## An empty category, an empty query -/

theorem EqualFold_empty (lib : GoLib) {c : String} (hc : c ≠ "") :
    lib.EqualFold c "" = false := by
  unfold GoLib.EqualFold
  cases hd : c.data with
  | nil => exact absurd (String.ext hd) hc
  | cons a as => rfl

theorem reachable_category_ne_empty (ops : List ProductOp) :
    ∀ e ∈ (runProductOps NewProductService ops).1.products, e.2.Category ≠ "" :=
  runProductOps_forall (fun p => p.Category ≠ "") (by
    intro s now req p s' h
    obtain ⟨h1, _, _, _, _, _, hc, _⟩ := CreateProduct_ok_fields h
    show p.Category ≠ ""
    rw [hc]
    tauto) ops NewProductService (by intro e he; cases he)

theorem filterProducts_empty_category (lib : GoLib) (s : ProductService)
    (req : SearchProductsRequest) (hs : ∀ e ∈ s.products, e.2.Category ≠ "")
    (hc : req.Category = some "") : s.filterProducts lib req = [] := by
  rw [filterProducts_eq_filter, List.filter_eq_nil_iff]
  intro p hp
  obtain ⟨e, he, rfl⟩ := List.mem_map.1 hp
  simp [productPasses, categoryPasses, hc, EqualFold_empty lib (hs e he)]

/-- In a repository reached from the empty one, a search with the category "" selects
nothing: whenever the call returns, the page is empty and the total is 0, and it returns
whenever resolved page times resolved page size is below `2 ^ 31`. -/
theorem SearchProducts_empty_category (lib : GoLib) (ops : List ProductOp)
    (req : SearchProductsRequest) (hc : req.Category = some "") :
    (runProductOps NewProductService ops).1.filterProducts lib req = [] ∧
    ((runProductOps NewProductService ops).1.SearchProducts lib req).1 =
      paginate [] req.Page req.PageSize ∧
    (∀ r, ((runProductOps NewProductService ops).1.SearchProducts lib req).1 = some r →
      r.1 = [] ∧ r.2.1 = 0) ∧
    (InInt32 req.Page → InInt32 req.PageSize →
      (if req.Page < 1 then 1 else req.Page) *
        (if req.PageSize < 1 then 10 else req.PageSize) < 2 ^ 31 →
      ∃ r, ((runProductOps NewProductService ops).1.SearchProducts lib req).1 = some r) := by
  have hf := filterProducts_empty_category lib _ req (reachable_category_ne_empty ops) hc
  have hS : ((runProductOps NewProductService ops).1.SearchProducts lib req).1 =
      paginate [] req.Page req.PageSize := by
    rw [SearchProducts_fst, hf, sortSlice_nil]
  refine ⟨hf, hS, ?_, ?_⟩
  · intro r hr
    rw [hS] at hr
    refine ⟨List.eq_nil_iff_forall_not_mem.2 fun x hx => ?_, ?_⟩
    · have := paginate_subset hr x hx
      cases this
    · rw [(paginate_resolved hr).1]
      rfl
  · intro hp hs hprod
    rw [hS]
    exact paginate_returns _ _ _ hp hs hprod

/-- A query that is present but empty excludes nothing: it selects what the absent query
selects. -/
theorem filterProducts_empty_query (lib : GoLib) (s : ProductService)
    (req : SearchProductsRequest) :
    s.filterProducts lib { req with Query := some "" } =
      s.filterProducts lib { req with Query := none } := by
  rw [filterProducts_eq_filter, filterProducts_eq_filter]
  congr 1

set_option maxRecDepth 100000 in
/-- C29, at the failing input. On the repository that holds the widget, the search with
category "", page 65537 and page size 32768 selects nothing and then panics in `paginate`
(the start index wraps to `-2147483648`): it returns neither an empty page nor a total.
With page 1 and page size 10 the same search returns the empty page and total 0, and the
search with an empty query returns the widget. -/
theorem C29_empty_category_panics :
    (runProductOps NewProductService [.create 0 widgetReq]).1.filterProducts plainLib
      ⟨none, some "", none, none, 65537, 32768⟩ = [] ∧
    ((runProductOps NewProductService [.create 0 widgetReq]).1.SearchProducts plainLib
      ⟨none, some "", none, none, 65537, 32768⟩).1 = none ∧
    ((runProductOps NewProductService [.create 0 widgetReq]).1.SearchProducts plainLib
      ⟨none, some "", none, none, 1, 10⟩).1 = some ([], 0, 1, 10) ∧
    ((runProductOps NewProductService [.create 0 widgetReq]).1.SearchProducts plainLib
      ⟨some "", none, none, none, 1, 10⟩).1 =
        some ([⟨"1", "widget", "a widget", .Finite 10, 3, "tools", 0, 0⟩], 1, 1, 10) := by
  decide

end GoGrpcRestDemo

namespace GoGrpcRestDemo

/-! ## The frame of the write operations -/

theorem mapGet_append_singleton {β : Type} (m : List (String × β)) (k k' : String) (v : β)
    (hne : k' ≠ k) : mapGet (m ++ [(k, v)]) k' = mapGet m k' := by
  unfold mapGet
  rw [List.find?_append]
  cases h : m.find? (fun e => decide (e.1 = k')) with
  | some e => rfl
  | none =>
    have : ([(k, v)] : List (String × β)).find? (fun e => decide (e.1 = k')) = none := by
      rw [List.find?_cons_of_neg _ (by simpa using fun h => hne h.symm)]
      rfl
    rw [Option.none_or, this]

theorem mapGet_mapSet_other {β : Type} (m : List (String × β)) (k k' : String) (v : β)
    (hne : k' ≠ k) : mapGet (mapSet m k v) k' = mapGet m k' := by
  unfold mapSet
  split
  · exact mapGet_mapStore_other m k k' v hne
  · exact mapGet_append_singleton m k k' v hne

theorem mapGet_mapDelete_other {β : Type} (m : List (String × β)) (k k' : String)
    (hne : k' ≠ k) : mapGet (mapDelete m k) k' = mapGet m k' := by
  unfold mapGet mapDelete
  congr 1
  induction m with
  | nil => rfl
  | cons e rest ih =>
    by_cases hek : e.1 = k
    · have hek' : e.1 ≠ k' := fun h => hne (h.symm.trans hek)
      rw [List.filter_cons_of_neg (by simpa using hek),
        List.find?_cons_of_neg _ (by simpa using hek'), ih]
    · rw [List.filter_cons_of_pos (by simpa using hek)]
      by_cases hek' : e.1 = k'
      · rw [List.find?_cons_of_pos _ (by simpa using hek'),
          List.find?_cons_of_pos _ (by simpa using hek')]
      · rw [List.find?_cons_of_neg _ (by simpa using hek'),
          List.find?_cons_of_neg _ (by simpa using hek'), ih]

theorem length_mapStore {β : Type} (m : List (String × β)) (k : String) (v : β) :
    (mapStore m k v).length = m.length := by
  have := congrArg List.length (mapStore_keys m k v)
  simpa using this

theorem length_mapSet {β : Type} (m : List (String × β)) (k : String) (v : β) :
    (mapSet m k v).length = if (mapGet m k).isSome then m.length else m.length + 1 := by
  unfold mapSet
  split
  · exact length_mapStore m k v
  · simp

theorem length_mapDelete {β : Type} (k : String) :
    ∀ m : List (String × β), (m.map Prod.fst).Nodup → (∃ e ∈ m, e.1 = k) →
      (mapDelete m k).length + 1 = m.length := by
  intro m
  induction m with
  | nil =>
    rintro _ ⟨e, he, _⟩
    cases he
  | cons e rest ih =>
    intro hk hex
    rw [List.map_cons, List.nodup_cons] at hk
    unfold mapDelete at ih ⊢
    by_cases hek : e.1 = k
    · rw [List.filter_cons_of_neg (by simpa using hek)]
      have : rest.filter (fun e => decide (e.1 ≠ k)) = rest := by
        apply List.filter_eq_self.2
        intro x hx
        have : x.1 ≠ k := fun hxk =>
          hk.1 (List.mem_map.2 ⟨x, hx, by rw [hxk, hek]⟩)
        simpa using this
      rw [this, List.length_cons]
    · rw [List.filter_cons_of_pos (by simpa using hek), List.length_cons, List.length_cons]
      obtain ⟨x, hx, hxk⟩ := hex
      rcases List.mem_cons.1 hx with rfl | hx
      · exact absurd hxk hek
      · rw [ih hk.2 ⟨x, hx, hxk⟩]

theorem issuedFrom_append (c : Int) (n : Nat) :
    issuedFrom c (n + 1) = issuedFrom c n ++ [FormatInt (wrapInt64 (c + (n : Int)))] := by
  unfold issuedFrom
  rw [List.range_succ, List.map_append]
  rfl

/-- In a repository reached from the empty one by calls of which fewer than `2 ^ 64` were
successful creates, the identifier the next create issues is not a key of the map. -/
theorem next_identifier_free (ops : List UserOp)
    (hn : (runUserOps NewUserService ops).2.length < 2 ^ 64) :
    mapGet (runUserOps NewUserService ops).1.users
      (issueID (runUserOps NewUserService ops).1.nextID).1 = none := by
  obtain ⟨hi, hc⟩ := runUserOps_issued ops NewUserService one_inInt64
  rw [mapGet_eq_none_iff]
  intro e he hek
  have hkey := runUserOps_keys ops NewUserService e.1 (List.mem_map.2 ⟨e, he, rfl⟩)
  rcases hkey with hkey | hkey
  · simp [NewUserService] at hkey
  · rw [hc, issueID_fst (wrapInt64_in _), show NewUserService.nextID = 1 from rfl] at hek
    rw [hi, show NewUserService.nextID = 1 from rfl, hek] at hkey
    have hnd := issuedFrom_nodup 1 (show (runUserOps NewUserService ops).2.length + 1 ≤ 2 ^ 64
      from hn)
    rw [issuedFrom_append] at hnd
    exact (List.nodup_append.1 hnd).2.2 hkey (List.mem_singleton_self _)

end GoGrpcRestDemo

namespace GoGrpcRestDemo

theorem FormatInt_one : FormatInt 1 = "1" := by decide

theorem bobCycle_once {c : Int} (h : InInt64 c) (hc : c ≠ 1) :
    runUserOps { users := [("1", aliceOne)], nextID := c }
        [UserOp.create 0 bobReq, UserOp.delete (FormatInt c)] =
      ({ users := [("1", aliceOne)], nextID := wrapInt64 (c + 1) }, [FormatInt c]) := by
  have hne : FormatInt c ≠ "1" := fun h1 => hc (FormatInt_injective (h1.trans FormatInt_one.symm))
  have hne' : ¬ ("1" = FormatInt c) := fun h1 => hne h1.symm
  have hv : ¬ (bobReq.Username = "" ∨ bobReq.Email = "" ∨ bobReq.FullName = "") := by
    decide
  have hscan : createUserScan bobReq [("1", aliceOne)] = none := by decide
  have hcreate : ({ users := [("1", aliceOne)], nextID := c } : UserService).CreateUser 0 bobReq
      = (.ok ⟨FormatInt c, "bob", "bob@x", "Bob", true, 0, 0⟩,
        { users := [("1", aliceOne), (FormatInt c, ⟨FormatInt c, "bob", "bob@x", "Bob", true, 0, 0⟩)],
          nextID := wrapInt64 (c + 1) }) := by
    have hget : mapGet [("1", aliceOne)] (FormatInt c) = none := by
      rw [mapGet_eq_none_iff]
      intro e he
      rw [List.mem_singleton] at he
      rw [he]
      exact hne'
    rw [CreateUser_eq_ok hv hscan, issueID_fst h]
    unfold mapSet
    rw [hget]
    rfl
  simp only [runUserOps, stepUser, hcreate]
  simp [UserService.DeleteUser, mapGet, mapDelete, hne, hne']

theorem bobCycles_succ {c : Int} (h : InInt64 c) (n : Nat) :
    bobCycles c (n + 1) =
      [UserOp.create 0 bobReq, UserOp.delete (FormatInt c)] ++
        bobCycles (wrapInt64 (c + 1)) n := by
  unfold bobCycles
  rw [List.range_succ_eq_map, List.flatMap_cons, List.flatMap_map]
  congr 1
  · simp [wrapInt64_of_in h]
  · congr 1
    funext k
    simp only [Function.comp, Nat.succ_eq_add_one, Nat.cast_add, Nat.cast_one]
    rw [wrapInt64_add_wrap, add_right_comm, add_assoc]

/-- While the counter does not come back to 1, rounds of creating and deleting bob leave
alice, the user "1", alone in the repository. -/
theorem bobCycles_run (n : Nat) : ∀ c : Int, InInt64 c →
    (∀ k : Nat, k < n → wrapInt64 (c + (k : Int)) ≠ 1) →
    runUserOps { users := [("1", aliceOne)], nextID := c } (bobCycles c n) =
      ({ users := [("1", aliceOne)], nextID := wrapInt64 (c + n) }, issuedFrom c n) := by
  induction n with
  | zero =>
    intro c h _
    simp [bobCycles, runUserOps, issuedFrom_zero, wrapInt64_of_in h]
  | succ n ih =>
    intro c h hfresh
    have hc : c ≠ 1 := by
      have := hfresh 0 (Nat.succ_pos n)
      simpa [wrapInt64_of_in h] using this
    rw [bobCycles_succ h, runUserOps_append, bobCycle_once h hc]
    have hfresh' : ∀ k : Nat, k < n → wrapInt64 (wrapInt64 (c + 1) + (k : Int)) ≠ 1 := by
      intro k hk
      have := hfresh (k + 1) (Nat.succ_lt_succ hk)
      rw [wrapInt64_add_wrap]
      rwa [Nat.cast_add, Nat.cast_one, add_comm (k : Int) 1, ← add_assoc] at this
    simp only [ih _ (wrapInt64_in _) hfresh', issuedFrom_succ h, wrapInt64_add_wrap]
    simp only [List.singleton_append, Nat.cast_add, Nat.cast_one]
    rw [add_assoc c 1 (n : Int), add_comm (1 : Int) (n : Int)]

theorem overwrite_after_cycles (n : Nat) (hn : n < 2 ^ 64)
    (hw : wrapInt64 (2 + (n : Int)) = 1) :
    (runUserOps NewUserService ([UserOp.create 0 aliceReq] ++ bobCycles 2 n)).1 =
      { users := [("1", aliceOne)], nextID := 1 } := by
  have h2 : InInt64 2 := by unfold InInt64; norm_num
  have hfirst : runUserOps NewUserService [UserOp.create 0 aliceReq] =
      ({ users := [("1", aliceOne)], nextID := 2 }, ["1"]) := by decide
  rw [runUserOps_append, hfirst]
  have hfresh : ∀ k : Nat, k < n → wrapInt64 (2 + (k : Int)) ≠ 1 := by
    intro k hk h1
    have := wrapInt64_inj_on (lt_trans hk hn) hn (h1.trans hw.symm)
    omega
  simp only [bobCycles_run n 2 h2 hfresh, hw]

end GoGrpcRestDemo

namespace GoGrpcRestDemo

theorem UpdateUser_users (s : UserService) (now : Time) (req : UpdateUserRequest) :
    (s.UpdateUser now req).2.users = s.users ∨
      ∃ u, (s.UpdateUser now req).2.users = mapStore s.users req.ID u := by
  rcases UpdateUser_cases s now req with ⟨_, heq⟩ | ⟨_, _, _, _, _, _, heq⟩ |
    ⟨_, _, _, _, _, _, _, heq⟩ | ⟨_, _, _, _, heq⟩ <;> rw [heq]
  · exact Or.inl rfl
  · exact Or.inl rfl
  · exact Or.inr ⟨_, rfl⟩
  · exact Or.inr ⟨_, rfl⟩

/-- C30 (amended). A `CreateUser`, `UpdateUser` or `DeleteUser` call, successful or not,
leaves the lookup of every identifier other than the created or targeted one as it was:
every other live user stays in the repository with all of its fields unchanged, and no
other identifier becomes live. A failed create or delete leaves the repository as it was.
A successful create increases the number of live users by exactly one when the identifier
it issues is not that of a live user, which is the case in every repository reached from
the empty one by calls of which fewer than `2 ^ 64` were successful creates; a successful
delete decreases the number by exactly one; an update never changes it. -/
theorem C30_frame (s : UserService) (ops : List UserOp)
    (hk : (s.users.map Prod.fst).Nodup)
    (hn : (runUserOps NewUserService ops).2.length < 2 ^ 64) :
    (∀ (now : Time) (req : CreateUserRequest),
      (∀ err s', s.CreateUser now req = (.error err, s') → s' = s) ∧
      (∀ u s', s.CreateUser now req = (.ok u, s') →
        (∀ id, id ≠ u.ID → mapGet s'.users id = mapGet s.users id) ∧
        (mapGet s.users u.ID = none → s'.users.length = s.users.length + 1))) ∧
    (∀ (now : Time) (req : UpdateUserRequest),
      (∀ id, id ≠ req.ID → mapGet (s.UpdateUser now req).2.users id = mapGet s.users id) ∧
      (s.UpdateUser now req).2.users.length = s.users.length) ∧
    (∀ id : String,
      (∀ id', id' ≠ id → mapGet (s.DeleteUser id).2.users id' = mapGet s.users id') ∧
      ((s.DeleteUser id).1 = none → (s.DeleteUser id).2.users.length + 1 = s.users.length) ∧
      (∀ err, (s.DeleteUser id).1 = some err → (s.DeleteUser id).2 = s)) ∧
    (∀ (now : Time) (req : CreateUserRequest) (u : User) (s' : UserService),
      (runUserOps NewUserService ops).1.CreateUser now req = (.ok u, s') →
      s'.users.length = (runUserOps NewUserService ops).1.users.length + 1) := by
  have hcreate : ∀ (t : UserService) (now : Time) (req : CreateUserRequest) (u : User)
      (t' : UserService), t.CreateUser now req = (.ok u, t') →
      (∀ id, id ≠ u.ID → mapGet t'.users id = mapGet t.users id) ∧
      (mapGet t.users u.ID = none → t'.users.length = t.users.length + 1) := by
    intro t now req u t' h
    obtain ⟨_, _, _, ht'⟩ := CreateUser_ok_fields h
    rw [ht']
    refine ⟨fun id hid => mapGet_mapSet_other _ _ _ _ hid, fun hnone => ?_⟩
    show (mapSet t.users u.ID u).length = _
    rw [length_mapSet, hnone]
    rfl
  refine ⟨fun now req => ⟨fun err s' h => (CreateUser_error_inv h).1,
    hcreate s now req⟩, fun now req => ⟨fun id hid => ?_, ?_⟩, fun id => ⟨fun id' hid => ?_,
    fun hok => ?_, fun err herr => ?_⟩, fun now req u s' h => ?_⟩
  · rcases UpdateUser_users s now req with h | ⟨u, h⟩ <;> rw [h]
    exact mapGet_mapStore_other _ _ _ _ hid
  · rcases UpdateUser_users s now req with h | ⟨u, h⟩ <;> rw [h]
    exact length_mapStore _ _ _
  · unfold UserService.DeleteUser
    split
    · rfl
    · exact mapGet_mapDelete_other _ _ _ hid
  · unfold UserService.DeleteUser at hok ⊢
    cases hget : mapGet s.users id with
    | none =>
      rw [hget] at hok
      cases hok
    | some v =>
      exact length_mapDelete id s.users hk ⟨(id, v), mem_of_mapGet hget, rfl⟩
  · unfold UserService.DeleteUser at herr ⊢
    cases hget : mapGet s.users id with
    | none => rfl
    | some v =>
      rw [hget] at herr
      cases herr
  · refine (hcreate _ now req u s' h).2 ?_
    obtain ⟨_, _, hu, _⟩ := CreateUser_ok_fields h
    have := next_identifier_free ops hn
    rw [hu]
    exact this

set_option maxRecDepth 100000 in
/-- C30, an instance: deleting bob from the repository of alice and bob leaves alice as
she was and one live user. -/
theorem C30_frame_witness :
    mapGet (twoUsers.DeleteUser "2").2.users "1" = mapGet twoUsers.users "1" ∧
    (twoUsers.DeleteUser "2").2.users.length + 1 = twoUsers.users.length :=
  ⟨((C30_frame twoUsers [] (by decide)
      (lt_of_le_of_lt (show _ ≤ 0 by decide) (by norm_num))).2.2.1 "2").1 "1" (by decide),
    ((C30_frame twoUsers [] (by decide)
      (lt_of_le_of_lt (show _ ≤ 0 by decide) (by norm_num))).2.2.1 "2").2.1 (by decide)⟩

set_option maxRecDepth 100000 in
/-- C30 as stated fails. Create alice, who gets the identifier "1", then create and delete
bob `2 ^ 64 - 1` times: alice is the one live user and the counter is back at 1. The next
`CreateUser` succeeds with the identifier "1" and takes the place of alice: one user was
live before the call and one user is live after it. -/
theorem C30_counterexample_create_overwrites :
    (runUserOps NewUserService
        ([UserOp.create 0 aliceReq] ++ bobCycles 2 (2 ^ 64 - 1))).1 =
      { users := [("1", aliceOne)], nextID := 1 } ∧
    ({ users := [("1", aliceOne)], nextID := 1 } : UserService).CreateUser 0 bobReq =
      (.ok ⟨"1", "bob", "bob@x", "Bob", true, 0, 0⟩,
        { users := [("1", ⟨"1", "bob", "bob@x", "Bob", true, 0, 0⟩)], nextID := 2 }) ∧
    ([("1", (⟨"1", "bob", "bob@x", "Bob", true, 0, 0⟩ : User))]).length =
      ([("1", aliceOne)]).length :=
  ⟨overwrite_after_cycles (2 ^ 64 - 1) (by norm_num) (by
      unfold wrapInt64
      norm_num),
    by decide, rfl⟩

end GoGrpcRestDemo

namespace GoGrpcRestDemo

/-! ## Listing and the iteration order of the map -/

/-- Two sorted lists with the same elements are equal when the order relation is
antisymmetric on these elements. -/
theorem perm_sorted_unique {α : Type} {r : α → α → Prop} :
    ∀ {l₁ l₂ : List α}, l₁.Perm l₂ → l₁.Pairwise r → l₂.Pairwise r →
      (∀ a ∈ l₁, ∀ b ∈ l₁, r a b → r b a → a = b) → l₁ = l₂ := by
  intro l₁
  induction l₁ with
  | nil =>
    intro l₂ hp _ _ _
    exact hp.nil_eq
  | cons a t ih =>
    intro l₂ hp h₁ h₂ hanti
    cases l₂ with
    | nil => exact absurd hp.length_eq (by simp)
    | cons b u =>
      have hab : a = b := by
        have ha : a ∈ b :: u := hp.mem_iff.1 (List.mem_cons_self _ _)
        have hb : b ∈ a :: t := hp.mem_iff.2 (List.mem_cons_self _ _)
        rcases List.mem_cons.1 ha with h | h
        · exact h
        · rcases List.mem_cons.1 hb with h' | h'
          · exact h'.symm
          · exact hanti a (List.mem_cons_self _ _) b hb
              ((List.pairwise_cons.1 h₁).1 b h') ((List.pairwise_cons.1 h₂).1 a h)
      subst hab
      congr 1
      exact ih (List.Perm.cons_inv hp) (List.pairwise_cons.1 h₁).2
        (List.pairwise_cons.1 h₂).2
        (fun x hx y hy => hanti x (List.mem_cons_of_mem _ hx) y (List.mem_cons_of_mem _ hy))

theorem filterUsers_perm (lib : GoLib) {s₁ s₂ : UserService} (hp : s₂.users.Perm s₁.users)
    (filter : Option String) :
    (s₂.filterUsers lib filter).Perm (s₁.filterUsers lib filter) := by
  rw [filterUsers_eq_filter, filterUsers_eq_filter]
  exact (hp.map _).filter _

theorem filterUsers_subset (lib : GoLib) (s : UserService) (filter : Option String) :
    ∀ u ∈ s.filterUsers lib filter, ∃ e ∈ s.users, e.2 = u := by
  intro u hu
  rw [filterUsers_eq_filter] at hu
  exact List.mem_map.1 (List.mem_of_mem_filter hu)

/-- Under the invariant of the repository, live users that agree on the identifier, on
the username or on the email are one user. -/
theorem inv_key_injective {s : UserService} (h : s.Inv) {e₁ e₂ : String × User}
    (h₁ : e₁ ∈ s.users) (h₂ : e₂ ∈ s.users)
    (hkey : e₁.2.ID = e₂.2.ID ∨ e₁.2.Username = e₂.2.Username ∨ e₁.2.Email = e₂.2.Email) :
    e₁ = e₂ := by
  by_cases hk : e₁.1 = e₂.1
  · exact entry_eq_of_key_eq h.1.1 h₁ h₂ hk
  · exfalso
    obtain ⟨hu, he⟩ := h.2 e₁ h₁ e₂ h₂ hk
    rcases hkey with hid | hun | hem
    · rw [h.1.2 e₁ h₁, h.1.2 e₂ h₂] at hid
      exact hk hid
    · exact hu hun
    · exact he hem

theorem userSortedBy_antisymm {sortBy : Option String}
    (hsort : sortBy ≠ some "full_name" ∧ sortBy ≠ some "created_at") {a b : User}
    (hab : userSortedBy sortBy a b) (hba : userSortedBy sortBy b a) :
    a.ID = b.ID ∨ a.Username = b.Username ∨ a.Email = b.Email := by
  unfold userSortedBy at hab hba
  by_cases h1 : sortBy = some "username"
  · rw [if_pos h1] at hab hba
    exact Or.inr (Or.inl (le_antisymm hab hba))
  · rw [if_neg h1] at hab hba
    by_cases h2 : sortBy = some "email"
    · rw [if_pos h2] at hab hba
      exact Or.inr (Or.inr (le_antisymm hab hba))
    · rw [if_neg h2, if_neg hsort.1, if_neg hsort.2] at hab hba
      exact Or.inl (le_antisymm hab hba)

/-- C27. Take a user repository reached from the empty one and a `ListUsers` request that
sorts by the identifier (`sort_by` absent, empty or unknown), by the username or by the
email. The outcome of `ListUsers` (the page, the total, the resolved page and page size)
is the same for every order in which the map hands out its entries: any repository with
the same entries gives the same outcome, the sorted sequence being the same. -/
theorem C27_deterministic_listing (lib : GoLib) (ops : List UserOp) (s₂ : UserService)
    (req : ListUsersRequest)
    (hp : s₂.users.Perm (runUserOps NewUserService ops).1.users)
    (hsort : req.SortBy ≠ some "full_name" ∧ req.SortBy ≠ some "created_at") :
    sortUsers lib (s₂.filterUsers lib req.Filter) req.SortBy =
      sortUsers lib ((runUserOps NewUserService ops).1.filterUsers lib req.Filter)
        req.SortBy ∧
    (s₂.ListUsers lib req).1 = ((runUserOps NewUserService ops).1.ListUsers lib req).1 := by
  have hinv : (runUserOps NewUserService ops).1.Inv := runUserOps_inv ops NewUserService_inv
  have hperm : (sortUsers lib (s₂.filterUsers lib req.Filter) req.SortBy).Perm
      (sortUsers lib ((runUserOps NewUserService ops).1.filterUsers lib req.Filter)
        req.SortBy) :=
    ((sortUsers_perm lib _ _).trans (filterUsers_perm lib hp req.Filter)).trans
      (sortUsers_perm lib _ _).symm
  have heq := perm_sorted_unique hperm (sortUsers_sorted lib _ _) (sortUsers_sorted lib _ _)
    (by
      intro a ha b hb hab hba
      obtain ⟨e₁, h₁, rfl⟩ := filterUsers_subset lib _ _ _
        ((filterUsers_perm lib hp req.Filter).mem_iff.1
          ((sortUsers_perm lib _ _).mem_iff.1 ha))
      obtain ⟨e₂, h₂, rfl⟩ := filterUsers_subset lib _ _ _
        ((filterUsers_perm lib hp req.Filter).mem_iff.1
          ((sortUsers_perm lib _ _).mem_iff.1 hb))
      rw [inv_key_injective hinv h₁ h₂ (userSortedBy_antisymm hsort hab hba)])
  refine ⟨heq, ?_⟩
  rw [ListUsers_fst, ListUsers_fst, heq]

set_option maxRecDepth 100000 in
/-- C27, an instance: alice and bob, listed from the map in the order bob, alice. -/
theorem C27_deterministic_listing_witness :
    (({ users := twoUsers.users.reverse, nextID := 3 } : UserService).ListUsers plainLib
      ⟨1, 10, some "username", none⟩).1 =
    ((runUserOps NewUserService [.create 0 aliceReq, .create 1 bobReq]).1.ListUsers plainLib
      ⟨1, 10, some "username", none⟩).1 :=
  (C27_deterministic_listing plainLib [.create 0 aliceReq, .create 1 bobReq]
    { users := twoUsers.users.reverse, nextID := 3 } ⟨1, 10, some "username", none⟩
    (List.reverse_perm _) (by decide)).2

end GoGrpcRestDemo

namespace GoGrpcRestDemo

/-! ## Pages as a partition of the list -/

theorem flatten_chunks {α : Type} (xs : List α) (k n : Nat) :
    ((List.range n).map (fun p => (xs.drop (p * k)).take k)).flatten = xs.take (n * k) := by
  induction n with
  | zero => simp
  | succ n ih =>
    rw [List.range_succ, List.map_append, List.flatten_append, ih]
    simp only [List.map_cons, List.map_nil, List.flatten_cons, List.flatten_nil,
      List.append_nil]
    rw [Nat.succ_mul, List.take_add]

theorem ceil_mul_ge (len k : Nat) (hk : 0 < k) : len ≤ (len + k - 1) / k * k := by
  have h1 := Nat.div_add_mod (len + k - 1) k
  have h2 := Nat.mod_lt (len + k - 1) hk
  rw [Nat.mul_comm] at h1
  generalize (len + k - 1) / k * k = m at h1 ⊢
  omega

theorem lt_ceil_iff (len k p : Nat) (hk : 0 < k) : p < (len + k - 1) / k ↔ p * k < len := by
  rw [Nat.lt_iff_add_one_le, Nat.le_div_iff_mul_le hk, Nat.succ_mul]
  constructor <;> intro h <;> omega

/-- Without overflow the pages are the consecutive chunks of the list: for a list of at
most `2 ^ 30` elements and a page size s >= 1, page p + 1 is the chunk of s elements that
starts at position p * s, for every p below the number of pages ceil(len / s); the chunks
concatenated in this order are the list, and every chunk but the last has s elements. -/
theorem paginate_partition {α : Type} (xs : List α) (s : Int) (hs1 : 1 ≤ s)
    (hs : InInt32 s) (hlen : xs.length ≤ 2 ^ 30) :
    (∀ p : Nat, p < (xs.length + s.toNat - 1) / s.toNat →
      paginate xs ((p : Int) + 1) s =
        some ((xs.drop (p * s.toNat)).take s.toNat, (xs.length : Int), (p : Int) + 1, s)) ∧
    ((List.range ((xs.length + s.toNat - 1) / s.toNat)).map
      (fun p => (xs.drop (p * s.toNat)).take s.toNat)).flatten = xs ∧
    (∀ p : Nat, p + 1 < (xs.length + s.toNat - 1) / s.toNat →
      ((xs.drop (p * s.toNat)).take s.toNat).length = s.toNat) := by
  obtain ⟨k, rfl⟩ : ∃ k : Nat, s = (k : Int) := ⟨s.toNat, (Int.toNat_of_nonneg (by omega)).symm⟩
  have hk : 0 < k := by omega
  simp only [Int.toNat_ofNat]
  have hs2 : (k : Int) < 2 ^ 31 := hs.2
  refine ⟨fun p hp => ?_, ?_, fun p hp => ?_⟩
  · rw [lt_ceil_iff _ _ _ hk] at hp
    have hpk : p * k < 2 ^ 30 + 1 := by omega
    have hp30 : p < 2 ^ 30 + 1 := lt_of_le_of_lt (Nat.le_mul_of_pos_right p hk) hpk
    have h1 : ¬ ((p : Int) + 1 < 1) := by omega
    have h2 : ¬ ((k : Int) < 1) := by omega
    have hcast : ((p : Int) + 1 - 1) * (k : Int) = ((p * k : Nat) : Int) := by
      push_cast
      ring
    have hsum : (p * k : Nat) + k < 2 ^ 31 := by
      rcases Nat.eq_zero_or_pos p with h0 | h0
      · subst h0
        norm_num at hs2 ⊢
        omega
      · have : k ≤ p * k := Nat.le_mul_of_pos_left k h0
        norm_num at hpk ⊢
        omega
    have key := paginate_exact xs ((p : Int) + 1) (k : Int)
      (by unfold InInt32; norm_num at hp30 ⊢; omega) hs
      (by norm_num at hlen ⊢; omega)
      (by
        rw [if_neg h1, if_neg h2, hcast]
        norm_num at hpk ⊢
        omega)
      (by
        right
        rw [if_neg h1, if_neg h2, hcast]
        norm_num at hsum ⊢
        omega)
    rw [if_neg h1, if_neg h2, hcast] at key
    simpa using key
  · rw [flatten_chunks]
    exact List.take_of_length_le (ceil_mul_ge _ _ hk)
  · have h1 : (p + 1) * k < xs.length := (lt_ceil_iff _ _ _ hk).1 hp
    rw [List.length_take, List.length_drop]
    rw [Nat.succ_mul] at h1
    omega

/-- C26, at the failing input. A list of `2 ^ 30 + 1` elements, whose length is below
`2 ^ 31`, has two pages of size `2 ^ 30`. Page 1 is returned and holds `2 ^ 30` elements.
For page 2 the start index is `2 ^ 30` and `start + pageSize` wraps to a negative number:
the slice expression panics, so the last element of the list is on no page. -/
theorem C26_second_page_panics :
    (List.replicate (2 ^ 30 + 1) ()).length = 2 ^ 30 + 1 ∧
    ((2 ^ 30 + 1 : Nat) : Int) < 2 ^ 31 ∧
    (2 ^ 30 + 1 + 2 ^ 30 - 1) / 2 ^ 30 = 2 ∧
    wrapInt32 (2 ^ 30 + 2 ^ 30) = -2147483648 ∧
    paginate (List.replicate (2 ^ 30 + 1) ()) 2 (2 ^ 30) = none := by
  refine ⟨List.length_replicate _ _, by norm_num, by norm_num, by
    unfold wrapInt32
    norm_num, ?_⟩
  apply paginate_sum_overflow
  · rw [List.length_replicate]
    norm_num
  · rw [List.length_replicate]
    norm_num

end GoGrpcRestDemo

namespace GoGrpcRestDemo

/-! ## Concurrent creates -/

section
variable {N : Nat} (reqs : Fin N → CreateUserRequest)

theorem stepCall_start_invalid {c : Calls N} {i : Fin N} (now : Time) (h : c.pc i = .start)
    (hv : (reqs i).Username = "" ∨ (reqs i).Email = "" ∨ (reqs i).FullName = "") :
    stepCall reqs c i now =
      { c with pc := Function.update c.pc i (.done (.error
          (NewValidationError "fields" "username, email, and full_name are required"))) } := by
  simp only [stepCall, h, if_pos hv]

theorem stepCall_start_valid {c : Calls N} {i : Fin N} (now : Time) (h : c.pc i = .start)
    (hv : ¬ ((reqs i).Username = "" ∨ (reqs i).Email = "" ∨ (reqs i).FullName = "")) :
    stepCall reqs c i now = { c with pc := Function.update c.pc i .ready } := by
  simp only [stepCall, h, if_neg hv]

theorem stepCall_ready_free {c : Calls N} {i : Fin N} (now : Time) (h : c.pc i = .ready)
    (hl : c.lock = none) :
    stepCall reqs c i now =
      { c with lock := some i, pc := Function.update c.pc i .holding } := by
  simp only [stepCall, h, hl]

theorem stepCall_ready_held {c : Calls N} {i j : Fin N} (now : Time) (h : c.pc i = .ready)
    (hl : c.lock = some j) : stepCall reqs c i now = c := by
  simp only [stepCall, h, hl]

theorem stepCall_holding_none {c : Calls N} {i : Fin N} (now : Time) (h : c.pc i = .holding)
    (hs : createUserScan (reqs i) c.svc.users = none) :
    stepCall reqs c i now = { c with pc := Function.update c.pc i .scanned } := by
  simp only [stepCall, h, hs]

theorem stepCall_holding_some {c : Calls N} {i : Fin N} (now : Time) {err : AppError}
    (h : c.pc i = .holding) (hs : createUserScan (reqs i) c.svc.users = some err) :
    stepCall reqs c i now =
      { c with pc := Function.update c.pc i (.returning (.error err)) } := by
  simp only [stepCall, h, hs]

theorem stepCall_scanned {c : Calls N} {i : Fin N} (now : Time) (h : c.pc i = .scanned) :
    stepCall reqs c i now =
      { c with
        svc :=
          { users := (mapSet c.svc.users (issueID c.svc.nextID).1
              ⟨(issueID c.svc.nextID).1, (reqs i).Username, (reqs i).Email,
                (reqs i).FullName, true, now, now⟩),
            nextID := (issueID c.svc.nextID).2 },
        pc := Function.update c.pc i (.returning (.ok
          ⟨(issueID c.svc.nextID).1, (reqs i).Username, (reqs i).Email, (reqs i).FullName,
            true, now, now⟩)) } := by
  simp only [stepCall, h]
  rfl

theorem stepCall_returning {c : Calls N} {i : Fin N} (now : Time)
    {r : Except AppError User} (h : c.pc i = .returning r) :
    stepCall reqs c i now =
      { c with lock := none, pc := Function.update c.pc i (.done r) } := by
  simp only [stepCall, h]

theorem stepCall_done {c : Calls N} {i : Fin N} (now : Time) {r : Except AppError User}
    (h : c.pc i = .done r) : stepCall reqs c i now = c := by
  simp only [stepCall, h]

end

end GoGrpcRestDemo

namespace GoGrpcRestDemo

section
variable {N : Nat} (reqs : Fin N → CreateUserRequest)

/-- A call that runs alone does what `CreateUser` does: it returns the same result and
leaves the same repository, with the lock released. -/
theorem run_alone (s : UserService) (i : Fin N) (now : Time) :
    (runCalls reqs (Calls.init s) (finish i now)).pc i = .done (s.CreateUser now (reqs i)).1 ∧
    (runCalls reqs (Calls.init s) (finish i now)).svc = (s.CreateUser now (reqs i)).2 ∧
    (runCalls reqs (Calls.init s) (finish i now)).lock = none := by
  by_cases hv : (reqs i).Username = "" ∨ (reqs i).Email = "" ∨ (reqs i).FullName = ""
  · rw [CreateUser_eq_validation hv]
    simp [finish, List.replicate, runCalls, stepEvent, stepCall, Calls.init, hv]
  · cases hs : createUserScan (reqs i) s.users with
    | some err =>
      rw [CreateUser_eq_scan hv hs]
      simp [finish, List.replicate, runCalls, stepEvent, stepCall, Calls.init, hv, hs]
    | none =>
      rw [CreateUser_eq_ok hv hs]
      simp [finish, List.replicate, runCalls, stepEvent, stepCall, Calls.init, hv, hs,
        UserService.generateID, issueID_snd]

end

end GoGrpcRestDemo

namespace GoGrpcRestDemo

section
variable {N : Nat} {reqs : Fin N → CreateUserRequest} {name : String} {s : UserService}

theorem CallsInv_init (name : String) (s : UserService) :
    CallsInv (N := N) name s (Calls.init s) where
  lock_critical := fun i h => by cases h
  critical_lock := fun i h => by cases h
  winner_unique := fun i j h => by cases h
  untouched := fun _ => List.Perm.refl _
  taken := fun i h => by cases h
  failure_code := fun i err h => by cases h

theorem CallsInv_of {svc : UserService} {lock : Option (Fin N)} {pc : Fin N → Pc}
    (h1 : ∀ i, lock = some i → (pc i).critical = true)
    (h2 : ∀ i, (pc i).critical = true → lock = some i)
    (h3 : ∀ i j, (pc i).winner = true → (pc j).winner = true → i = j)
    (h4 : (∀ i, (pc i).inserted = false) → svc.users.Perm s.users)
    (h5 : ∀ i, (pc i).inserted = true → ∃ e ∈ svc.users, e.2.Username = name)
    (h6 : ∀ i err, (pc i).failure = some err →
      err.Code = ErrCodeAlreadyExists ∧ ∃ j, (pc j).inserted = true) :
    CallsInv name s { svc := svc, lock := lock, pc := pc } :=
  ⟨h1, h2, h3, h4, h5, h6⟩

theorem lock_fields_same {c : Calls N} (h : CallsInv name s c) (i : Fin N) (x : Pc)
    (hc : x.critical = (c.pc i).critical) :
    (∀ k, c.lock = some k → (Function.update c.pc i x k).critical = true) ∧
    (∀ k, (Function.update c.pc i x k).critical = true → c.lock = some k) := by
  have kc : ∀ k, (Function.update c.pc i x k).critical = (c.pc k).critical := by
    intro k
    by_cases hk : k = i
    · subst hk
      rw [Function.update_same, hc]
    · rw [Function.update_noteq hk]
  exact ⟨fun k hk => by rw [kc]; exact h.lock_critical k hk,
    fun k hk => h.critical_lock k (by rw [← kc]; exact hk)⟩

theorem Pc.winner_iff (pc : Pc) : pc.winner = true ↔ pc = .scanned ∨ pc.inserted = true := by
  cases pc <;> simp [Pc.winner, Pc.inserted]

/-- A transition of call `i` that leaves the map alone and does not change whether the
call has passed the loop, has written or has failed keeps the invariant, provided the lock
is accounted for. -/
theorem CallsInv_quiet {c : Calls N} (h : CallsInv name s c) (i : Fin N) (x : Pc)
    (lock' : Option (Fin N)) (hw : x.winner = (c.pc i).winner)
    (hi : x.inserted = (c.pc i).inserted)
    (hf : ∀ err, x.failure = some err →
      err.Code = ErrCodeAlreadyExists ∧ ∃ j, (c.pc j).inserted = true)
    (hl1 : ∀ k, lock' = some k → (Function.update c.pc i x k).critical = true)
    (hl2 : ∀ k, (Function.update c.pc i x k).critical = true → lock' = some k) :
    CallsInv name s { svc := c.svc, lock := lock', pc := Function.update c.pc i x } := by
  have kw : ∀ k, (Function.update c.pc i x k).winner = (c.pc k).winner := by
    intro k
    by_cases hk : k = i
    · subst hk
      rw [Function.update_same, hw]
    · rw [Function.update_noteq hk]
  have ki : ∀ k, (Function.update c.pc i x k).inserted = (c.pc k).inserted := by
    intro k
    by_cases hk : k = i
    · subst hk
      rw [Function.update_same, hi]
    · rw [Function.update_noteq hk]
  refine CallsInv_of hl1 hl2 ?_ ?_ ?_ ?_
  · intro a b ha hb
    rw [kw] at ha hb
    exact h.winner_unique a b ha hb
  · intro hno
    exact h.untouched (fun k => by rw [← ki]; exact hno k)
  · intro k hk
    rw [ki] at hk
    exact h.taken k hk
  · intro k err hk
    have : err.Code = ErrCodeAlreadyExists ∧ ∃ j, (c.pc j).inserted = true := by
      by_cases hki : k = i
      · subst hki
        rw [Function.update_same] at hk
        exact hf err hk
      · rw [Function.update_noteq hki] at hk
        exact h.failure_code k err hk
    obtain ⟨h1, j, hj⟩ := this
    exact ⟨h1, j, by rw [ki]; exact hj⟩

theorem CallsInv_reorder {c : Calls N} (h : CallsInv name s c)
    (order : List (String × User)) (hp : order.Perm c.svc.users) :
    CallsInv name s
      { svc := { users := order, nextID := c.svc.nextID }, lock := c.lock, pc := c.pc } where
  lock_critical := h.lock_critical
  critical_lock := h.critical_lock
  winner_unique := h.winner_unique
  untouched := fun hno => hp.trans (h.untouched hno)
  taken := fun i hi => by
    obtain ⟨e, he, hn⟩ := h.taken i hi
    exact ⟨e, hp.mem_iff.2 he, hn⟩
  failure_code := h.failure_code

theorem CallsInv_scanned {c : Calls N} (h : CallsInv name s c) (i : Fin N)
    (hname : (reqs i).Username = name) (hpc : c.pc i = .holding)
    (hs : createUserScan (reqs i) c.svc.users = none) :
    CallsInv name s { svc := c.svc, lock := c.lock, pc := Function.update c.pc i .scanned } := by
  have hlock : c.lock = some i := h.critical_lock i (by rw [hpc]; rfl)
  have hothers : ∀ k, k ≠ i → (c.pc k).winner = false := by
    intro k hk
    rw [Bool.eq_false_iff]
    intro hw
    rcases (Pc.winner_iff _).1 hw with hsc | hin
    · have := h.critical_lock k (by rw [hsc]; rfl)
      rw [hlock] at this
      exact hk (Option.some.inj this).symm
    · obtain ⟨e, he, hn⟩ := h.taken k hin
      exact ((createUserScan_eq_none_iff _ _).1 hs e he).1 (hn.trans hname.symm)
  have hwin : ∀ k, (Function.update c.pc i .scanned k).winner = true → k = i := by
    intro k hk
    by_contra hne
    rw [Function.update_noteq hne, hothers k hne] at hk
    cases hk
  have hins : ∀ k, (Function.update c.pc i .scanned k).inserted = (c.pc k).inserted := by
    intro k
    by_cases hk : k = i
    · subst hk
      rw [Function.update_same, hpc]
      rfl
    · rw [Function.update_noteq hk]
  obtain ⟨hl1, hl2⟩ := lock_fields_same h i .scanned (by rw [hpc]; rfl)
  refine CallsInv_of hl1 hl2 (fun a b ha hb => (hwin a ha).trans (hwin b hb).symm) ?_ ?_ ?_
  · intro hno
    exact h.untouched (fun k => by rw [← hins]; exact hno k)
  · intro k hk
    rw [hins] at hk
    exact h.taken k hk
  · intro k err hk
    have hki : k ≠ i := by
      rintro rfl
      rw [Function.update_same] at hk
      cases hk
    rw [Function.update_noteq hki] at hk
    obtain ⟨h1, j, hj⟩ := h.failure_code k err hk
    exact ⟨h1, j, by rw [hins]; exact hj⟩

theorem CallsInv_insert {c : Calls N} (h : CallsInv name s c) (i : Fin N) (u : User)
    (hname : u.Username = name) (hpc : c.pc i = .scanned) (nextID : Int) :
    CallsInv name s
      { svc := { users := mapSet c.svc.users u.ID u, nextID := nextID }, lock := c.lock,
        pc := Function.update c.pc i (.returning (.ok u)) } := by
  have hwin : ∀ k, (Function.update c.pc i (.returning (.ok u)) k).winner = (c.pc k).winner := by
    intro k
    by_cases hk : k = i
    · subst hk
      rw [Function.update_same, hpc]
      rfl
    · rw [Function.update_noteq hk]
  have hmem : ∃ e ∈ mapSet c.svc.users u.ID u, e.2.Username = name :=
    ⟨(u.ID, u), mem_of_mapGet (mapGet_mapSet_same _ _ _), hname⟩
  obtain ⟨hl1, hl2⟩ := lock_fields_same h i (.returning (.ok u)) (by rw [hpc]; rfl)
  refine CallsInv_of hl1 hl2 ?_ ?_ (fun _ _ => hmem) ?_
  · intro a b ha hb
    rw [hwin] at ha hb
    exact h.winner_unique a b ha hb
  · intro hno
    have := hno i
    rw [Function.update_same] at this
    cases this
  · intro k err hk
    have hki : k ≠ i := by
      rintro rfl
      rw [Function.update_same] at hk
      cases hk
    rw [Function.update_noteq hki] at hk
    exact ⟨(h.failure_code k err hk).1, i, by rw [Function.update_same]; rfl⟩

/-- Every action of a call keeps the invariant. -/
theorem stepCall_inv {c : Calls N} (h : CallsInv name s c)
    (hvalid : ∀ i, (reqs i).Username = name ∧
      ¬ ((reqs i).Username = "" ∨ (reqs i).Email = "" ∨ (reqs i).FullName = ""))
    (hfree : ∀ e ∈ s.users, e.2.Username ≠ name ∧ ∀ i, e.2.Email ≠ (reqs i).Email)
    (i : Fin N) (now : Time) : CallsInv name s (stepCall reqs c i now) := by
  cases hpc : c.pc i with
  | start =>
    rw [stepCall_start_valid reqs now hpc (hvalid i).2]
    obtain ⟨hl1, hl2⟩ := lock_fields_same h i .ready (by rw [hpc]; rfl)
    exact CallsInv_quiet h i .ready c.lock (by rw [hpc]; rfl) (by rw [hpc]; rfl)
      (fun err he => by cases he) hl1 hl2
  | ready =>
    cases hl : c.lock with
    | some j =>
      rw [stepCall_ready_held reqs now hpc hl]
      exact h
    | none =>
      rw [stepCall_ready_free reqs now hpc hl]
      refine CallsInv_quiet h i .holding (some i) (by rw [hpc]; rfl) (by rw [hpc]; rfl)
        (fun err he => by cases he) ?_ ?_
      · intro k hk
        rw [← Option.some.inj hk, Function.update_same]
        rfl
      · intro k hk
        by_cases hki : k = i
        · rw [hki]
        · rw [Function.update_noteq hki] at hk
          have := h.critical_lock k hk
          rw [hl] at this
          cases this
  | holding =>
    cases hs : createUserScan (reqs i) c.svc.users with
    | none =>
      rw [stepCall_holding_none reqs now hpc hs]
      exact CallsInv_scanned h i (hvalid i).1 hpc hs
    | some err =>
      rw [stepCall_holding_some reqs now hpc hs]
      obtain ⟨hl1, hl2⟩ := lock_fields_same h i (.returning (.error err)) (by rw [hpc]; rfl)
      refine CallsInv_quiet h i _ c.lock (by rw [hpc]; rfl) (by rw [hpc]; rfl) ?_ hl1 hl2
      intro err' he
      cases he
      refine ⟨createUserScan_code hs, ?_⟩
      by_contra hno
      push_neg at hno
      have hperm := h.untouched (fun j => by simpa using hno j)
      have hnone : createUserScan (reqs i) s.users = none := by
        rw [createUserScan_eq_none_iff]
        intro e he
        exact ⟨fun hu => (hfree e he).1 (hu.trans (hvalid i).1), (hfree e he).2 i⟩
      rw [(createUserScan_perm (reqs i) hperm).2 hnone] at hs
      cases hs
  | scanned =>
    rw [stepCall_scanned reqs now hpc]
    exact CallsInv_insert h i
      ⟨(issueID c.svc.nextID).1, (reqs i).Username, (reqs i).Email, (reqs i).FullName,
        true, now, now⟩ (hvalid i).1 hpc _
  | returning r =>
    rw [stepCall_returning reqs now hpc]
    refine CallsInv_quiet h i (.done r) none (by rw [hpc]; cases r <;> rfl)
      (by rw [hpc]; cases r <;> rfl) ?_ (fun k hk => by cases hk) ?_
    · intro err he
      exact h.failure_code i err (by rw [hpc]; cases r <;> exact he)
    · intro k hk
      exfalso
      by_cases hki : k = i
      · rw [hki, Function.update_same] at hk
        cases hk
      · rw [Function.update_noteq hki] at hk
        have h1 := h.critical_lock k hk
        have h2 := h.critical_lock i (by rw [hpc]; rfl)
        rw [h1] at h2
        exact hki (Option.some.inj h2)
  | done r =>
    rw [stepCall_done reqs now hpc]
    exact h

theorem runCalls_inv (hvalid : ∀ i, (reqs i).Username = name ∧
      ¬ ((reqs i).Username = "" ∨ (reqs i).Email = "" ∨ (reqs i).FullName = ""))
    (hfree : ∀ e ∈ s.users, e.2.Username ≠ name ∧ ∀ i, e.2.Email ≠ (reqs i).Email)
    (sched : List (Event N)) :
    ∀ c : Calls N, CallsInv name s c → CallsInv name s (runCalls reqs c sched) := by
  induction sched with
  | nil => intro c h; exact h
  | cons ev evs ih =>
    intro c h
    apply ih
    cases ev with
    | step i now => exact stepCall_inv h hvalid hfree i now
    | reorder order =>
      simp only [stepEvent]
      by_cases hp : order.Perm c.svc.users
      · rw [if_pos hp]
        exact CallsInv_reorder h order hp
      · rw [if_neg hp]
        exact h

end

end GoGrpcRestDemo

namespace GoGrpcRestDemo

section
variable {N : Nat} (reqs : Fin N → CreateUserRequest)

theorem runCalls_append (a b : List (Event N)) : ∀ c : Calls N,
    runCalls reqs c (a ++ b) = runCalls reqs (runCalls reqs c a) b := by
  induction a with
  | nil => intro c; rfl
  | cons ev evs ih => intro c; exact ih _

theorem runCalls_replicate_succ (c : Calls N) (i : Fin N) (now : Time) (n : Nat) :
    runCalls reqs c (List.replicate (n + 1) (.step i now)) =
      runCalls reqs (stepCall reqs c i now) (List.replicate n (.step i now)) := rfl

theorem finish_done (n : Nat) {c : Calls N} {i : Fin N} (now : Time)
    {r : Except AppError User} (hpc : c.pc i = .done r) :
    runCalls reqs c (List.replicate n (.step i now)) = c := by
  induction n with
  | zero => rfl
  | succ n ih => rw [runCalls_replicate_succ, stepCall_done reqs now hpc, ih]

theorem finish_returning (n : Nat) {c : Calls N} {i : Fin N} (now : Time)
    {r : Except AppError User} (hpc : c.pc i = .returning r) :
    (runCalls reqs c (List.replicate (n + 1) (.step i now))).lock = none ∧
    (∃ r', (runCalls reqs c (List.replicate (n + 1) (.step i now))).pc i = .done r') ∧
    ∀ k, k ≠ i → (runCalls reqs c (List.replicate (n + 1) (.step i now))).pc k = c.pc k := by
  rw [runCalls_replicate_succ, stepCall_returning reqs now hpc,
    finish_done reqs n now (r := r) (Function.update_same _ _ _)]
  exact ⟨rfl, ⟨r, Function.update_same _ _ _⟩,
    fun k hk => by simp [Function.update_noteq hk]⟩

theorem finish_scanned (n : Nat) {c : Calls N} {i : Fin N} (now : Time)
    (hpc : c.pc i = .scanned) :
    (runCalls reqs c (List.replicate (n + 2) (.step i now))).lock = none ∧
    (∃ r', (runCalls reqs c (List.replicate (n + 2) (.step i now))).pc i = .done r') ∧
    ∀ k, k ≠ i → (runCalls reqs c (List.replicate (n + 2) (.step i now))).pc k = c.pc k := by
  rw [runCalls_replicate_succ, stepCall_scanned reqs now hpc]
  obtain ⟨h1, h2, h3⟩ := finish_returning reqs n now
    (c := { c with
      svc :=
        { users := (mapSet c.svc.users (issueID c.svc.nextID).1
            ⟨(issueID c.svc.nextID).1, (reqs i).Username, (reqs i).Email,
              (reqs i).FullName, true, now, now⟩),
          nextID := (issueID c.svc.nextID).2 },
      pc := Function.update c.pc i (.returning (.ok
        ⟨(issueID c.svc.nextID).1, (reqs i).Username, (reqs i).Email, (reqs i).FullName,
          true, now, now⟩)) })
    (i := i) (Function.update_same _ _ _)
  exact ⟨h1, h2, fun k hk => by rw [h3 k hk]; simp [Function.update_noteq hk]⟩

theorem finish_holding (n : Nat) {c : Calls N} {i : Fin N} (now : Time)
    (hpc : c.pc i = .holding) :
    (runCalls reqs c (List.replicate (n + 3) (.step i now))).lock = none ∧
    (∃ r', (runCalls reqs c (List.replicate (n + 3) (.step i now))).pc i = .done r') ∧
    ∀ k, k ≠ i → (runCalls reqs c (List.replicate (n + 3) (.step i now))).pc k = c.pc k := by
  rw [runCalls_replicate_succ]
  cases hs : createUserScan (reqs i) c.svc.users with
  | none =>
    rw [stepCall_holding_none reqs now hpc hs]
    obtain ⟨h1, h2, h3⟩ := finish_scanned reqs n now
      (c := { c with pc := Function.update c.pc i .scanned }) (i := i) (by simp)
    exact ⟨h1, h2, fun k hk => by rw [h3 k hk]; simp [Function.update_noteq hk]⟩
  | some err =>
    rw [stepCall_holding_some reqs now hpc hs]
    obtain ⟨h1, h2, h3⟩ := finish_returning reqs (n + 1) now
      (c := { c with pc := Function.update c.pc i (.returning (.error err)) }) (i := i)
      (r := .error err) (by simp)
    exact ⟨h1, h2, fun k hk => by rw [h3 k hk]; simp [Function.update_noteq hk]⟩

theorem finish_ready (n : Nat) {c : Calls N} {i : Fin N} (now : Time)
    (hpc : c.pc i = .ready) (hl : c.lock = none) :
    (runCalls reqs c (List.replicate (n + 4) (.step i now))).lock = none ∧
    (∃ r', (runCalls reqs c (List.replicate (n + 4) (.step i now))).pc i = .done r') ∧
    ∀ k, k ≠ i → (runCalls reqs c (List.replicate (n + 4) (.step i now))).pc k = c.pc k := by
  rw [runCalls_replicate_succ, stepCall_ready_free reqs now hpc hl]
  obtain ⟨h1, h2, h3⟩ := finish_holding reqs n now
    (c := { c with lock := some i, pc := Function.update c.pc i .holding }) (i := i) (by simp)
  exact ⟨h1, h2, fun k hk => by rw [h3 k hk]; simp [Function.update_noteq hk]⟩

theorem finish_start (n : Nat) {c : Calls N} {i : Fin N} (now : Time)
    (hpc : c.pc i = .start) (hl : c.lock = none) :
    (runCalls reqs c (List.replicate (n + 5) (.step i now))).lock = none ∧
    (∃ r', (runCalls reqs c (List.replicate (n + 5) (.step i now))).pc i = .done r') ∧
    ∀ k, k ≠ i → (runCalls reqs c (List.replicate (n + 5) (.step i now))).pc k = c.pc k := by
  rw [runCalls_replicate_succ]
  by_cases hv : (reqs i).Username = "" ∨ (reqs i).Email = "" ∨ (reqs i).FullName = ""
  · rw [stepCall_start_invalid reqs now hpc hv,
      finish_done reqs (n + 4) now (r := .error
        (NewValidationError "fields" "username, email, and full_name are required"))
        (Function.update_same _ _ _)]
    exact ⟨hl, ⟨_, Function.update_same _ _ _⟩,
      fun k hk => by simp [Function.update_noteq hk]⟩
  · rw [stepCall_start_valid reqs now hpc hv]
    obtain ⟨h1, h2, h3⟩ := finish_ready reqs n now
      (c := { c with pc := Function.update c.pc i .ready }) (i := i) (by simp) hl
    exact ⟨h1, h2, fun k hk => by rw [h3 k hk]; simp [Function.update_noteq hk]⟩

/-- When no other call holds the lock, five actions of call `i` make it return and leave
the lock free; the other calls stay where they are. -/
theorem finish_spec {c : Calls N} (i : Fin N) (now : Time)
    (h1 : ∀ k, c.lock = some k → (c.pc k).critical = true)
    (hl : c.lock = none ∨ c.lock = some i) :
    (runCalls reqs c (finish i now)).lock = none ∧
    (∃ r, (runCalls reqs c (finish i now)).pc i = .done r) ∧
    ∀ k, k ≠ i → (runCalls reqs c (finish i now)).pc k = c.pc k := by
  have hfree : (c.pc i).critical = false → c.lock = none := by
    intro hc
    rcases hl with hl | hl
    · exact hl
    · have := h1 i hl
      rw [hc] at this
      cases this
  unfold finish
  cases hpc : c.pc i with
  | start => exact finish_start reqs 0 now hpc (hfree (by rw [hpc]; rfl))
  | ready => exact finish_ready reqs 1 now hpc (hfree (by rw [hpc]; rfl))
  | holding => exact finish_holding reqs 2 now hpc
  | scanned => exact finish_scanned reqs 3 now hpc
  | returning r => exact finish_returning reqs 4 now hpc
  | done r =>
    rw [finish_done reqs 5 now hpc]
    exact ⟨hfree (by rw [hpc]; rfl), ⟨r, hpc⟩, fun _ _ => rfl⟩

/-- With the lock free, letting the calls of a list return one after the other makes
each of them return, and keeps returned every call that had returned. -/
theorem finish_all (l : List (Fin N)) : ∀ c : Calls N, c.lock = none →
    (∀ k, (c.pc k).critical = false) →
    (∀ i ∈ l, ∃ r, (runCalls reqs c (l.flatMap (fun i => finish i 0))).pc i = .done r) ∧
    (∀ k, (∃ r, c.pc k = .done r) →
      ∃ r, (runCalls reqs c (l.flatMap (fun i => finish i 0))).pc k = .done r) := by
  induction l with
  | nil =>
    intro c _ _
    exact ⟨fun i hi => absurd hi (List.not_mem_nil i), fun k hk => hk⟩
  | cons i l ih =>
    intro c hl hc
    rw [List.flatMap_cons, runCalls_append]
    obtain ⟨g1, g2, g3⟩ := finish_spec reqs (c := c) i 0
      (fun k hk => by rw [hl] at hk; cases hk) (Or.inl hl)
    have hc' : ∀ k, ((runCalls reqs c (finish i 0)).pc k).critical = false := by
      intro k
      by_cases hk : k = i
      · obtain ⟨r, hr⟩ := g2
        rw [hk, hr]
        rfl
      · rw [g3 k hk]
        exact hc k
    obtain ⟨k1, k2⟩ := ih _ g1 hc'
    refine ⟨fun j hj => ?_, fun k hk => ?_⟩
    · rcases List.mem_cons.1 hj with rfl | hj
      · exact k2 _ g2
      · exact k1 j hj
    · apply k2
      by_cases hki : k = i
      · rw [hki]
        exact g2
      · rw [g3 k hki]
        exact hk

end

end GoGrpcRestDemo

namespace GoGrpcRestDemo

/-- From every state the calls can reach, some continuation of the schedule makes every
call return: the lock never leaves the calls stuck. -/
theorem calls_can_finish {N : Nat} (reqs : Fin N → CreateUserRequest) {name : String}
    {s : UserService} {c : Calls N} (h : CallsInv name s c) :
    ∃ ext : List (Event N), ∀ i, ∃ r, (runCalls reqs c ext).pc i = .done r := by
  have phase1 : ∃ ext₁ : List (Event N), (runCalls reqs c ext₁).lock = none ∧
      ∀ k, ((runCalls reqs c ext₁).pc k).critical = false := by
    cases hl : c.lock with
    | none =>
      refine ⟨[], hl, fun k => ?_⟩
      rw [Bool.eq_false_iff]
      intro hk
      have := h.critical_lock k hk
      rw [hl] at this
      cases this
    | some j =>
      obtain ⟨g1, ⟨r, g2⟩, g3⟩ := finish_spec reqs (c := c) j 0 h.lock_critical (Or.inr hl)
      refine ⟨finish j 0, g1, fun k => ?_⟩
      by_cases hk : k = j
      · rw [hk, g2]
        rfl
      · rw [g3 k hk, Bool.eq_false_iff]
        intro hc
        have := h.critical_lock k hc
        rw [hl] at this
        exact hk (Option.some.inj this).symm
  obtain ⟨ext₁, p1, p2⟩ := phase1
  refine ⟨ext₁ ++ (List.finRange N).flatMap (fun i => finish i 0), fun i => ?_⟩
  rw [runCalls_append]
  exact (finish_all reqs (List.finRange N) _ p1 p2).1 i (List.mem_finRange i)

/-- C25. Let `N >= 1` calls of `CreateUser` with valid fields and one common username run
concurrently on a repository in which neither that username nor any of their emails is in
use. Under every schedule of their actions after which all calls have returned, exactly one
call has succeeded and every other call has failed with AlreadyExists; the lock is free and
a user with that username is live. Every schedule can be continued to one after which all
calls have returned. -/
theorem C25_exactly_one {N : Nat} (hN : 1 ≤ N) (reqs : Fin N → CreateUserRequest)
    (name : String) (s : UserService) (sched : List (Event N))
    (hvalid : ∀ i, (reqs i).Username = name ∧
      ¬ ((reqs i).Username = "" ∨ (reqs i).Email = "" ∨ (reqs i).FullName = ""))
    (hfree : ∀ e ∈ s.users, e.2.Username ≠ name ∧ ∀ i, e.2.Email ≠ (reqs i).Email)
    (hdone : ∀ i, ∃ r, (runCalls reqs (Calls.init s) sched).pc i = .done r) :
    (∃ w : Fin N,
      (∃ u, (runCalls reqs (Calls.init s) sched).pc w = .done (.ok u)) ∧
      ∀ j, j ≠ w → ∃ err, (runCalls reqs (Calls.init s) sched).pc j = .done (.error err) ∧
        err.Code = ErrCodeAlreadyExists) ∧
    (runCalls reqs (Calls.init s) sched).lock = none ∧
    (∃ e ∈ (runCalls reqs (Calls.init s) sched).svc.users, e.2.Username = name) ∧
    (∀ sched' : List (Event N), ∃ ext : List (Event N),
      ∀ i, ∃ r, (runCalls reqs (Calls.init s) (sched' ++ ext)).pc i = .done r) := by
  have hinv := runCalls_inv hvalid hfree sched _ (CallsInv_init name s)
  have hwin : ∃ w : Fin N, ∃ u, (runCalls reqs (Calls.init s) sched).pc w = .done (.ok u) := by
    obtain ⟨r, hr⟩ := hdone ⟨0, hN⟩
    cases r with
    | ok u => exact ⟨_, u, hr⟩
    | error err =>
      obtain ⟨_, j, hj⟩ := hinv.failure_code ⟨0, hN⟩ err (by rw [hr]; rfl)
      obtain ⟨r', hr'⟩ := hdone j
      rw [hr'] at hj
      cases r' with
      | ok u => exact ⟨j, u, hr'⟩
      | error e => cases hj
  obtain ⟨w, u, hw⟩ := hwin
  refine ⟨⟨w, ⟨u, hw⟩, fun j hj => ?_⟩, ?_, hinv.taken w (by rw [hw]; rfl), fun sched' => ?_⟩
  · obtain ⟨r, hr⟩ := hdone j
    cases r with
    | ok u' =>
      exact absurd (hinv.winner_unique j w (by rw [hr]; rfl) (by rw [hw]; rfl)) hj
    | error err => exact ⟨err, hr, (hinv.failure_code j err (by rw [hr]; rfl)).1⟩
  · cases hl : (runCalls reqs (Calls.init s) sched).lock with
    | none => rfl
    | some k =>
      have := hinv.lock_critical k hl
      obtain ⟨r, hr⟩ := hdone k
      rw [hr] at this
      cases this
  · obtain ⟨ext, hext⟩ := calls_can_finish reqs
      (runCalls_inv hvalid hfree sched' _ (CallsInv_init name s))
    exact ⟨ext, fun i => by rw [runCalls_append]; exact hext i⟩

set_option maxRecDepth 100000 in
/-- C25, an instance: two calls for "alice" under `raceSchedule`. Call 0 takes the lock
first and succeeds with the identifier "1"; call 1 fails with AlreadyExists. -/
theorem C25_exactly_one_witness :
    (runCalls aliceTwice (Calls.init NewUserService) raceSchedule).pc 0 =
      .done (.ok ⟨"1", "alice", "a1@x", "A", true, 6, 6⟩) ∧
    (runCalls aliceTwice (Calls.init NewUserService) raceSchedule).pc 1 =
      .done (.error (NewAlreadyExistsError "user" "username" "alice")) ∧
    ∃ w : Fin 2,
      (∃ u, (runCalls aliceTwice (Calls.init NewUserService) raceSchedule).pc w =
        .done (.ok u)) ∧
      ∀ j, j ≠ w →
        ∃ err, (runCalls aliceTwice (Calls.init NewUserService) raceSchedule).pc j =
          .done (.error err) ∧ err.Code = ErrCodeAlreadyExists :=
  ⟨by decide, by decide,
    (C25_exactly_one (by decide) aliceTwice "alice" NewUserService raceSchedule
      (by decide) (fun e he => absurd he (List.not_mem_nil e))
      (fun i => by
        have h0 : (runCalls aliceTwice (Calls.init NewUserService) raceSchedule).pc 0 =
            .done (.ok ⟨"1", "alice", "a1@x", "A", true, 6, 6⟩) := by decide
        have h1 : (runCalls aliceTwice (Calls.init NewUserService) raceSchedule).pc 1 =
            .done (.error (NewAlreadyExistsError "user" "username" "alice")) := by decide
        fin_cases i
        · exact ⟨_, h0⟩
        · exact ⟨_, h1⟩)).1⟩

end GoGrpcRestDemo

namespace GoGrpcRestDemo

/-! ## Listing at page numbers whose start index overflows -/

/-- With page 65537 and page size 65536 the `int32` start index wraps to 0, and `paginate`
returns the whole of a list of at most 65536 elements. -/
theorem paginate_wrapped_to_zero {α : Type} (items : List α) (h : items.length ≤ 65536) :
    paginate items 65537 65536 = some (items, (items.length : Int), 65537, 65536) := by
  have hstart : wrapInt32 (wrapInt32 (65537 - 1) * 65536) = 0 := by
    unfold wrapInt32
    norm_num
  have hlen : wrapInt32 (items.length : Int) = (items.length : Int) :=
    wrapInt32_of_in (by unfold InInt32; norm_num; omega)
  have hstop : min (wrapInt32 (0 + 65536)) (items.length : Int) = (items.length : Int) := by
    have : wrapInt32 (0 + 65536) = 65536 := by
      unfold wrapInt32
      norm_num
    rw [this]
    exact min_eq_right (by exact_mod_cast h)
  rcases paginate_cases_pos items 65537 65536 (by norm_num) (by norm_num) with
    ⟨hc, heq⟩ | ⟨hc, heq⟩
  · rw [hstart, hlen] at hc
    have h0 : items.length = 0 := by omega
    have hnil : items = [] := List.length_eq_zero.1 h0
    rw [heq, hlen, hnil]
  · rw [heq, hstart, hlen, hstop]
    unfold sliceExpr
    rw [if_pos ⟨le_refl _, Int.natCast_nonneg _, le_refl _⟩]
    simp

/-- With page 65537 and page size 32768 the `int32` start index wraps to `-2147483648`, and
the slice expression of `paginate` panics, whatever the list. -/
theorem paginate_wrapped_negative {α : Type} (items : List α)
    (h : (items.length : Int) < 2 ^ 31) : paginate items 65537 32768 = none := by
  have hstart : wrapInt32 (wrapInt32 (65537 - 1) * 32768) = -2147483648 := by
    unfold wrapInt32
    norm_num
  have hlen : wrapInt32 (items.length : Int) = (items.length : Int) :=
    wrapInt32_of_in (by unfold InInt32; norm_num at h ⊢; omega)
  rcases paginate_cases_pos items 65537 32768 (by norm_num) (by norm_num) with
    ⟨hc, heq⟩ | ⟨hc, heq⟩
  · rw [hstart, hlen] at hc
    omega
  · rw [heq, hstart]
    unfold sliceExpr
    rw [if_neg (by omega)]
    rfl

set_option maxRecDepth 100000 in
/-- C18, at the failing input. For the five users of `TestListUsers`, page 65537 of size
65536 of the sorted sequence starts at position `65536 * 65536 = 4294967296` and is empty.
`ListUsers` returns all five users as that page, whatever the standard library does: the
`int32` start index wraps to 0. With page size 32768 the start index wraps to
`-2147483648` and `ListUsers` panics, so no page is returned. -/
theorem C18_wrong_page_on_overflow :
    ((65537 : Int) - 1) * 65536 = 4294967296 ∧
    (fiveUsers.ListUsers plainLib ⟨65537, 65536, none, none⟩).1 =
      some ([⟨"1", "listuser0", "list0@example.com", "List User 0", true, 0, 0⟩,
          ⟨"2", "listuser1", "list1@example.com", "List User 1", true, 1, 1⟩,
          ⟨"3", "listuser2", "list2@example.com", "List User 2", true, 2, 2⟩,
          ⟨"4", "listuser3", "list3@example.com", "List User 3", true, 3, 3⟩,
          ⟨"5", "listuser4", "list4@example.com", "List User 4", true, 4, 4⟩],
        5, 65537, 65536) ∧
    (∀ lib : GoLib, ∃ seq : List User,
      seq.Perm (fiveUsers.users.map Prod.snd) ∧
      seq.Pairwise (userSortedBy none) ∧
      (seq.drop 4294967296).take 65536 = [] ∧
      (fiveUsers.ListUsers lib ⟨65537, 65536, none, none⟩).1 = some (seq, 5, 65537, 65536) ∧
      (fiveUsers.ListUsers lib ⟨65537, 32768, none, none⟩).1 = none) := by
  refine ⟨by norm_num, by decide, fun lib => ?_⟩
  have hlen : (sortUsers lib (fiveUsers.filterUsers lib none) none).length = 5 := by
    rw [ListUsers_unfiltered_length]
    rfl
  refine ⟨sortUsers lib (fiveUsers.filterUsers lib none) none, ?_, sortUsers_sorted lib _ _,
    ?_, ?_, ?_⟩
  · have := sortUsers_perm lib (fiveUsers.filterUsers lib none) none
    rwa [filterUsers_none] at this
  · rw [List.drop_of_length_le (by rw [hlen]; norm_num)]
    rfl
  · rw [ListUsers_fst]
    show paginate (sortUsers lib (fiveUsers.filterUsers lib none) none) 65537 65536 = _
    rw [paginate_wrapped_to_zero _ (by rw [hlen]; norm_num), hlen]
    rfl
  · rw [ListUsers_fst]
    show paginate (sortUsers lib (fiveUsers.filterUsers lib none) none) 65537 32768 = _
    exact paginate_wrapped_negative _ (by rw [hlen]; norm_num)

set_option maxRecDepth 100000 in
/-- C19, at the failing input. In the repository that holds the widget and the gadget,
page 65537 of size 65536 of the products sorted by name starts at position
`65536 * 65536 = 4294967296` and is empty. `SearchProducts` returns both products as that
page, whatever the standard library does: the `int32` start index wraps to 0. With page
size 32768 the start index wraps to `-2147483648` and `SearchProducts` panics, so no page
is returned. -/
theorem C19_wrong_page_on_overflow :
    ((65537 : Int) - 1) * 65536 = 4294967296 ∧
    (widgetAndGadget.SearchProducts plainLib ⟨none, none, none, none, 65537, 65536⟩).1 =
      some ([⟨"2", "gadget", "a gadget", .Finite 5, 1, "tools", 1, 1⟩,
          ⟨"1", "widget", "a widget", .Finite 10, 3, "tools", 0, 0⟩], 2, 65537, 65536) ∧
    (∀ lib : GoLib, ∃ seq : List Product,
      seq.Perm (widgetAndGadget.products.map Prod.snd) ∧
      seq.Pairwise (fun a b => a.Name ≤ b.Name) ∧
      (seq.drop 4294967296).take 65536 = [] ∧
      (widgetAndGadget.SearchProducts lib ⟨none, none, none, none, 65537, 65536⟩).1 =
        some (seq, 2, 65537, 65536) ∧
      (widgetAndGadget.SearchProducts lib ⟨none, none, none, none, 65537, 32768⟩).1 = none) := by
  refine ⟨by norm_num, by decide, fun lib => ?_⟩
  have hall : ∀ req : SearchProductsRequest, req.Query = none → req.Category = none →
      req.MinPrice = none → req.MaxPrice = none →
      widgetAndGadget.filterProducts lib req = widgetAndGadget.products.map Prod.snd := by
    intro req h1 h2 h3 h4
    rw [filterProducts_eq_filter]
    apply List.filter_eq_self.2
    intro p _
    simp [productPasses, queryPasses, categoryPasses, h1, h2, h3, h4]
  have hperm := lib.sortSlice_perm (fun a b : Product => strLess a.Name b.Name)
    (widgetAndGadget.products.map Prod.snd)
  have hsorted := (lib.sortSlice_sorted (fun a b : Product => strLess a.Name b.Name)
    (widgetAndGadget.products.map Prod.snd) productLess_ok).imp
    (fun {a b} h => (strLess_false_iff a.Name b.Name).1 h)
  have hlen : (lib.sortSlice (fun a b : Product => strLess a.Name b.Name)
      (widgetAndGadget.products.map Prod.snd)).length = 2 := by
    rw [hperm.length_eq]
    decide
  refine ⟨_, hperm, hsorted, ?_, ?_, ?_⟩
  · rw [List.drop_of_length_le (by rw [hlen]; norm_num)]
    rfl
  · rw [SearchProducts_fst, hall _ rfl rfl rfl rfl]
    show paginate _ 65537 65536 = _
    rw [paginate_wrapped_to_zero _ (by rw [hlen]; norm_num), hlen]
    rfl
  · rw [SearchProducts_fst, hall _ rfl rfl rfl rfl]
    show paginate _ 65537 32768 = _
    exact paginate_wrapped_negative _ (by rw [hlen]; norm_num)

end GoGrpcRestDemo
